import Mathlib

/-!
Shallow embedding of the schema-generation core of the `oas` Go package
(`github.com/mitranim/oas`): the recursive type-to-schema translation
(`schemaAny` and friends), the component registry embedded in `Doc`, the
behavioral format/nullability classifier (`schemaIfaceJson`,
`schemaIfaceText`, `schemaJsonInspect`, `schemaTextInspectFormat`), and the
non-default witness synthesizer (`nonZero`).

Modelling conventions:

* Go types are represented syntactically by `Ty`.  Cyclic and named types go
  through an environment `GoEnv` mapping a canonical type name to a `TyDef`
  (its one-step unfolding `TyShape`, plus its optional custom JSON/text
  marshaling behavior, modelling `json.Marshaler` / `encoding.TextMarshaler`
  method sets).  `reflect.Type.Kind()`/`.Elem()`/`.Key()`/`.Field(i)` become
  `resolveShape`.
* Go panics become `Except Err` errors; each distinct panic site in the
  source gets its own `Err` constructor.
* Recursion through the environment cannot be justified structurally (the
  environment may tie knots exactly like Go's runtime type graph), so every
  recursive function carries a fuel counter that is decremented on every
  call; exhaustion yields `Err.outOfFuel` (for `Option`-valued helpers,
  `none`).  A run of the real code terminates iff some fuel suffices, and
  diverges iff every fuel is exhausted.
* Machine integers and floats appear only as carrier values for witness
  synthesis (`nonZero` sets them to 1); they are modelled by `Int`.
* `time.Parse`-backed format sniffers are modelled as grammar recognizers of
  their fixed layout strings (`2006-01-02`, `T15:04:05`, `15:04:05`, RFC
  3339), including Go's range checks for month/day (with leap years),
  hour/minute/second, Go's optional fractional-second suffix, and the
  `Z`/`+hh:mm`/`-hh:mm` zone forms of RFC 3339.
* `strconv.Unquote` (reached via `unquote`, which falls back to the raw
  string on error) is modelled for plain double-quoted strings without
  escape sequences; everything else falls back to the input, like the Go
  helper does on error.
* Deferred component registration that Go would still perform while
  unwinding a panic is not modelled: all failures of the traversal are fatal
  and the post-panic registry is unobservable to callers that treat the
  panic as fatal, which is the documented contract.
-/

namespace Oas

/-- Primitive structural kinds of the Go reflection universe, as dispatched
on by `schemaAny`.  `iInt`/`uInt` are Go's platform-sized `int`/`uint`,
which have no declaration-exact width. -/
inductive PrimKind where
  | i8 | i16 | i32 | i64 | iInt
  | u8 | u16 | u32 | u64 | uInt
  | f32 | f64
  | boolK | strK
deriving DecidableEq, Repr

/-- The canonical name (`reflect.Type.String()`) of a built-in primitive. -/
def PrimKind.goName : PrimKind → String
  | .i8 => "int8" | .i16 => "int16" | .i32 => "int32" | .i64 => "int64"
  | .iInt => "int"
  | .u8 => "uint8" | .u16 => "uint16" | .u32 => "uint32" | .u64 => "uint64"
  | .uInt => "uint"
  | .f32 => "float32" | .f64 => "float64"
  | .boolK => "bool" | .strK => "string"

/-- Memory size in bytes of a primitive (64-bit platform, as in the
repository's own test runs); used only for `Size() == 0` checks and the
witness synthesizer. -/
def PrimKind.byteSize : PrimKind → Nat
  | .i8 => 1 | .i16 => 2 | .i32 => 4 | .i64 => 8 | .iInt => 8
  | .u8 => 1 | .u16 => 2 | .u32 => 4 | .u64 => 8 | .uInt => 8
  | .f32 => 4 | .f64 => 8
  | .boolK => 1 | .strK => 16

/-- Declaration-exact bit width of an integer kind, when it has one.
Platform-sized `int`/`uint` have none. -/
def PrimKind.exactWidth : PrimKind → Option Nat
  | .i8 => some 8 | .i16 => some 16 | .i32 => some 32 | .i64 => some 64
  | .u8 => some 8 | .u16 => some 16 | .u32 => some 32 | .u64 => some 64
  | .iInt => none | .uInt => none
  | .f32 => some 32 | .f64 => some 64
  | .boolK => none | .strK => none

/-- True for the integer kinds (signed and unsigned). -/
def PrimKind.isIntKind : PrimKind → Bool
  | .i8 | .i16 | .i32 | .i64 | .iInt => true
  | .u8 | .u16 | .u32 | .u64 | .uInt => true
  | _ => false

/-- Syntactic Go types.  A `named` type refers to a definition in the
environment, which is how self-referential and mutually recursive types are
expressed, exactly as Go's runtime type graph ties knots only through
defined (named) types.  `chanT`/`funcT`/`ifaceT`/`uptrT` are the
unrepresentable kinds (channel, function, interface, unsafe pointer). -/
inductive Ty where
  | prim (k : PrimKind)
  | ptr (elem : Ty)
  | arr (len : Nat) (elem : Ty)
  | slice (elem : Ty)
  | mapT (key elem : Ty)
  | named (name : String)
  | chanT | funcT | ifaceT | uptrT
deriving DecidableEq, Repr

/-- The canonical name of a type: `typeName` in the source, which is
`reflect.Type.String()` (struct types are always named in this model, so
the anonymous-struct panic of `typeName` cannot arise). -/
def tyString : Ty → String
  | .prim k => k.goName
  | .ptr t => "*" ++ tyString t
  | .arr n t => "[" ++ toString n ++ "]" ++ tyString t
  | .slice t => "[]" ++ tyString t
  | .mapT k v => "map[" ++ tyString k ++ "]" ++ tyString v
  | .named n => n
  | .chanT => "chan"
  | .funcT => "func()"
  | .ifaceT => "interface"
  | .uptrT => "unsafe.Pointer"

/-- One field of a Go struct, as enumerated by `reflect`.  `jsonTag` models
`field.Tag.Get("json")` (empty when the tag is absent); `pkgPath` is empty
exactly for exported fields (`isPublic`). -/
structure GoField where
  name : String
  jsonTag : String
  pkgPath : String
  anonymous : Bool
  ty : Ty
deriving DecidableEq, Repr

/-- One-step unfolding of a named type: its underlying shape.  Heads are
never `named`, mirroring how `reflect.Type.Kind()` resolves a defined type
to its underlying kind. -/
inductive TyShape where
  | prim (k : PrimKind)
  | ptr (elem : Ty)
  | arr (len : Nat) (elem : Ty)
  | slice (elem : Ty)
  | mapS (key elem : Ty)
  | structS (fields : List GoField)
  | chanS | funcS | ifaceS | uptrS
deriving DecidableEq, Repr

/-- Runtime Go values, the carriers mutated by the witness synthesizer and
fed to custom marshalers.  `vPtr none` is a nil pointer, `vSlice none` /
`vMap none` are nil slices/maps, `vOpaque` stands for values of
unrepresentable kinds. -/
inductive GoVal where
  | vInt (i : Int)
  | vFloat (f : Int)
  | vBool (b : Bool)
  | vStr (s : String)
  | vPtr (p : Option GoVal)
  | vArr (xs : List GoVal)
  | vSlice (xs : Option (List GoVal))
  | vMap (entries : Option (List (GoVal × GoVal)))
  | vStruct (fields : List GoVal)
  | vOpaque
deriving Repr

/-- Definition of a named type: its shape plus its optional custom encoding
capabilities.  `jsonFn v` models calling `MarshalJSON` on a value `v` of the
type (`none` result = the method returned an error); `jsonFn = none` means
the type does not implement `json.Marshaler`.  Likewise `textFn` for
`encoding.TextMarshaler`. -/
structure TyDef where
  shape : TyShape
  jsonFn : Option (GoVal → Option String) := none
  textFn : Option (GoVal → Option String) := none

/-- The ambient set of named type definitions: the reachable part of Go's
runtime type graph. -/
structure GoEnv where
  defs : List (String × TyDef)

/-- Looks up a named type definition. -/
def GoEnv.find (env : GoEnv) (n : String) : Option TyDef :=
  (env.defs.find? (fun p => p.1 = n)).map Prod.snd

/-- Resolves a type to its structural shape: the model of
`reflect.Type.Kind()` together with the `Elem`/`Key`/`Field` accessors.
Returns `none` only for a dangling name, which cannot arise from a real Go
type. -/
def resolveShape (env : GoEnv) : Ty → Option TyShape
  | .prim k => some (.prim k)
  | .ptr t => some (.ptr t)
  | .arr n t => some (.arr n t)
  | .slice t => some (.slice t)
  | .mapT k v => some (.mapS k v)
  | .named n => (env.find n).map TyDef.shape
  | .chanT => some .chanS
  | .funcT => some .funcS
  | .ifaceT => some .ifaceS
  | .uptrT => some .uptrS

/-- Model of `typ.Implements(ifaceJsonMarshaler)`: a named type implements
`json.Marshaler` iff its definition supplies `jsonFn`; a pointer type
implements it iff its referent does (Go method sets); nothing else does. -/
def implementsJson (env : GoEnv) : Ty → Bool
  | .named n => (((env.find n).bind TyDef.jsonFn)).isSome
  | .ptr t => implementsJson env t
  | _ => false

/-- Model of `typ.Implements(ifaceTextMarshaler)`. -/
def implementsText (env : GoEnv) : Ty → Bool
  | .named n => (((env.find n).bind TyDef.textFn)).isSome
  | .ptr t => implementsText env t
  | _ => false

/-- Invokes the custom JSON marshaler of a (named) type on a value: the
model of `toJson(val.Convert(ifaceJsonMarshaler).Interface().(json.Marshaler))`.
`none` covers both "no marshaler" and "the marshaler returned an error",
which the callers treat identically (`err == nil` fails). -/
def callJson (env : GoEnv) (ty : Ty) (v : GoVal) : Option String :=
  match ty with
  | .named n => match (env.find n).bind TyDef.jsonFn with
    | some f => f v
    | none => none
  | _ => none

/-- Invokes the custom text marshaler of a (named) type on a value. -/
def callText (env : GoEnv) (ty : Ty) (v : GoVal) : Option String :=
  match ty with
  | .named n => match (env.find n).bind TyDef.textFn with
    | some f => f v
    | none => none
  | _ => none

/-- Model of `typeDeref`: strips pointer layers, resolving named pointer
types through the environment (`typ.Kind() == r.Ptr` sees through names).
Fueled because `type T *T` style environments tie a pointer knot on which
the Go loop itself diverges. -/
def typeDeref : Nat → GoEnv → Ty → Option Ty
  | 0, _, _ => none
  | fuel + 1, env, ty =>
    match resolveShape env ty with
    | some (.ptr t) => typeDeref fuel env t
    | _ => some ty

/-- Model of `isTypeSkippable`: the unrepresentable kinds, transitively
through element types of arrays/slices/maps/pointers.  The argument is an
`Option` because the Go function accepts a nil `reflect.Type`. -/
def isTypeSkippable : Nat → GoEnv → Option Ty → Option Bool
  | 0, _, _ => none
  | _ + 1, _, none => some true
  | fuel + 1, env, some ty =>
    match resolveShape env ty with
    | none => none
    | some sh =>
      match sh with
      | .chanS | .funcS | .ifaceS | .uptrS => some true
      | .ptr t | .arr _ t | .slice t | .mapS _ t => isTypeSkippable fuel env (some t)
      | _ => some false

/-- Model of `reflect.Type.Size()` on a 64-bit platform.  Struct padding is
ignored; this preserves exactly the `Size() == 0` distinction the source
relies on. -/
def tySize : Nat → GoEnv → Ty → Option Nat
  | 0, _, _ => none
  | fuel + 1, env, ty =>
    match resolveShape env ty with
    | none => none
    | some sh =>
      match sh with
      | .prim k => some k.byteSize
      | .ptr _ => some 8
      | .slice _ => some 24
      | .mapS _ _ => some 8
      | .chanS => some 8
      | .funcS => some 8
      | .ifaceS => some 16
      | .uptrS => some 8
      | .arr n t => (tySize fuel env t).map (n * ·)
      | .structS fields =>
        fields.foldlM (fun acc fld => (tySize fuel env fld.ty).map (acc + ·)) 0

/-- The zero value of a type: the model of `reflect.New(typ).Elem()`. -/
def zeroVal : Nat → GoEnv → Ty → Option GoVal
  | 0, _, _ => none
  | fuel + 1, env, ty =>
    match resolveShape env ty with
    | none => none
    | some sh =>
      match sh with
      | .prim k =>
        match k with
        | .f32 | .f64 => some (.vFloat 0)
        | .boolK => some (.vBool false)
        | .strK => some (.vStr "")
        | _ => some (.vInt 0)
      | .ptr _ => some (.vPtr none)
      | .slice _ => some (.vSlice none)
      | .mapS _ _ => some (.vMap none)
      | .arr n t => (zeroVal fuel env t).map (fun z => .vArr (List.replicate n z))
      | .structS fields =>
        (fields.mapM (fun fld => zeroVal fuel env fld.ty)).map GoVal.vStruct
      | .chanS | .funcS | .ifaceS | .uptrS => some .vOpaque

mutual

/-- Model of `nonZero`: mutates a value of the given type into a minimal
non-default representative, returning the success flag together with the
(possibly partially) mutated value — in Go the mutation is in place and
persists even across failed attempts, which this threading reproduces.
Returns `none` only on fuel exhaustion. -/
def nonZero : Nat → GoEnv → Ty → GoVal → Option (Bool × GoVal)
  | 0, _, _, _ => none
  | fuel + 1, env, ty, v =>
    match tySize fuel env ty with
    | none => none
    | some 0 => some (false, v)
    | some (_ + 1) =>
      match resolveShape env ty with
      | none => none
      | some sh =>
        match sh with
        | .prim k =>
          match k with
          | .f32 | .f64 => some (true, .vFloat 1)
          | .boolK => some (true, .vBool true)
          | .strK => some (true, .vStr " ")
          | _ => some (true, .vInt 1)
        | .arr _ t =>
          match v with
          | .vArr (x :: rest) =>
            (nonZero fuel env t x).map (fun r => (r.1, .vArr (r.2 :: rest)))
          | _ => some (false, v)
        | .mapS kt vt => do
          let zk ← zeroVal fuel env kt
          let zv ← zeroVal fuel env vt
          match ← nonZero fuel env kt zk with
          | (false, _) => some (false, v)
          | (true, k1) =>
            match ← nonZero fuel env vt zv with
            | (false, _) => some (false, v)
            | (true, v1) => some (true, .vMap (some [(k1, v1)]))
        | .slice t => do
          let ze ← zeroVal fuel env t
          match ← nonZero fuel env t ze with
          | (false, _) => some (false, v)
          | (true, x) =>
            let old := match v with | .vSlice (some xs) => xs | _ => []
            some (true, .vSlice (some (old ++ [x])))
        | .structS fields =>
          match v with
          | .vStruct vs => do
            let r1 ← nonZeroFieldsPublic fuel env fields vs
            if r1.1 then some (true, .vStruct r1.2)
            else do
              let r2 ← nonZeroFieldsAny fuel env fields r1.2
              some (r2.1, .vStruct r2.2)
          | _ => some (false, v)
        | .ptr t => do
          let x ← match v with
            | .vPtr (some x) => some x
            | _ => zeroVal fuel env t
          let r ← nonZero fuel env t x
          some (r.1, .vPtr (some r.2))
        | .chanS | .funcS | .ifaceS | .uptrS => some (false, v)

/-- Model of `nonZeroStructPublic`: tries only exported fields, in
declaration order, mutating each tried field in place (failed attempts keep
their partial mutations, as in Go). -/
def nonZeroFieldsPublic : Nat → GoEnv → List GoField → List GoVal →
    Option (Bool × List GoVal)
  | 0, _, _, _ => none
  | _ + 1, _, [], vs => some (false, vs)
  | _ + 1, _, _ :: _, [] => some (false, [])
  | fuel + 1, env, fld :: flds, x :: xs =>
    if fld.pkgPath = "" then do
      let r ← nonZero fuel env fld.ty x
      if r.1 then some (true, r.2 :: xs)
      else (nonZeroFieldsPublic fuel env flds xs).map (fun r2 => (r2.1, r.2 :: r2.2))
    else (nonZeroFieldsPublic fuel env flds xs).map (fun r2 => (r2.1, x :: r2.2))

/-- Model of `nonZeroStructAny`: tries every field in declaration order,
synthesizing a fresh witness from the field type's zero value and copying
it into the field only on success (the `memcpy` visibility bypass). -/
def nonZeroFieldsAny : Nat → GoEnv → List GoField → List GoVal →
    Option (Bool × List GoVal)
  | 0, _, _, _ => none
  | _ + 1, _, [], vs => some (false, vs)
  | _ + 1, _, _ :: _, [] => some (false, [])
  | fuel + 1, env, fld :: flds, x :: xs => do
    let z ← zeroVal fuel env fld.ty
    let r ← nonZero fuel env fld.ty z
    if r.1 then some (true, r.2 :: xs)
    else (nonZeroFieldsAny fuel env flds xs).map (fun r2 => (r2.1, x :: r2.2))

end

/-! ### String helpers and format recognizers

`isDateTimeRfc3339`, `isDateIso8601`, `isTimeIso8601ExtendedT`,
`isTimeIso8601Extended` call `time.Parse` with fixed layouts in the source;
here they are grammar recognizers of those layouts, with Go's component
range checks (month, day-in-month with leap years, hour/minute/second), its
acceptance of an optional fractional-second suffix directly after the
seconds, and the `Z` / `+hh:mm` / `-hh:mm` zone forms of the RFC 3339
layout. -/

/-- ASCII whitespace, the relevant fragment of `strings.TrimSpace`. -/
def isSpaceChar (c : Char) : Bool :=
  c == ' ' || c == '\t' || c == '\n' || c == '\r' || c == '\x0b' || c == '\x0c'

/-- Model of `strings.TrimSpace`. -/
def goTrimSpace (s : String) : String :=
  String.mk (((s.data.dropWhile isSpaceChar).reverse.dropWhile isSpaceChar).reverse)

/-- Model of `isDecDigit` (the decimal-digit table). -/
def isDecDigit (c : Char) : Bool :=
  48 ≤ c.toNat && c.toNat ≤ 57

/-- Model of `isHexDigit` (the hexadecimal-digit table). -/
def isHexDigit (c : Char) : Bool :=
  isDecDigit c || (97 ≤ c.toNat && c.toNat ≤ 102) || (65 ≤ c.toNat && c.toNat ≤ 70)

/-- Numeric value of a decimal digit character. -/
def digitVal (c : Char) : Nat := c.toNat - 48

/-- Consumes exactly two decimal digits. -/
def takeDigits2 : List Char → Option (Nat × List Char)
  | c1 :: c2 :: rest =>
    if isDecDigit c1 && isDecDigit c2 then
      some (digitVal c1 * 10 + digitVal c2, rest)
    else none
  | _ => none

/-- Consumes exactly four decimal digits (the `2006` year element). -/
def takeDigits4 : List Char → Option (Nat × List Char)
  | c1 :: c2 :: c3 :: c4 :: rest =>
    if isDecDigit c1 && isDecDigit c2 && isDecDigit c3 && isDecDigit c4 then
      some (digitVal c1 * 1000 + digitVal c2 * 100 + digitVal c3 * 10 + digitVal c4, rest)
    else none
  | _ => none

/-- Gregorian leap year, as in Go's `time` package. -/
def isLeapYear (y : Nat) : Bool :=
  y % 4 == 0 && (y % 100 != 0 || y % 400 == 0)

/-- Days in a month, as validated by `time.Parse`. -/
def daysInMonth (y m : Nat) : Nat :=
  if m = 2 then (if isLeapYear y then 29 else 28)
  else if m = 4 ∨ m = 6 ∨ m = 9 ∨ m = 11 then 30
  else 31

/-- Parses the `2006-01-02` calendar-date layout, with Go's range checks. -/
def parseDateIso (cs : List Char) : Option (Nat × Nat × Nat × List Char) := do
  let (y, r1) ← takeDigits4 cs
  match r1 with
  | '-' :: r2 =>
    let (m, r3) ← takeDigits2 r2
    if 1 ≤ m ∧ m ≤ 12 then
      match r3 with
      | '-' :: r4 =>
        let (d, r5) ← takeDigits2 r4
        if 1 ≤ d ∧ d ≤ daysInMonth y m then some (y, m, d, r5) else none
      | _ => none
    else none
  | _ => none

/-- Parses the `15:04:05` clock layout with Go's range checks, plus the
optional fractional-second suffix `time.Parse` accepts right after the
seconds even when the layout does not mention it. -/
def parseClock (cs : List Char) : Option (List Char) := do
  let (h, r1) ← takeDigits2 cs
  if h ≤ 23 then
    match r1 with
    | ':' :: r2 =>
      let (mi, r3) ← takeDigits2 r2
      if mi ≤ 59 then
        match r3 with
        | ':' :: r4 =>
          let (s, r5) ← takeDigits2 r4
          if s ≤ 59 then
            match r5 with
            | '.' :: more | ',' :: more =>
              if (more.takeWhile isDecDigit).isEmpty then none
              else some (more.dropWhile isDecDigit)
            | _ => some r5
          else none
        | _ => none
      else none
    | _ => none
  else none

/-- Recognizes the `Z07:00` zone element of the RFC 3339 layout, consuming
the rest of the input. -/
def parseZoneRfc : List Char → Bool
  | ['Z'] => true
  | [sign, d1, d2, ':', d3, d4] =>
    (sign == '+' || sign == '-') && isDecDigit d1 && isDecDigit d2 &&
      isDecDigit d3 && isDecDigit d4
  | _ => false

/-- Model of `isDateTimeRfc3339` (`time.Parse(time.RFC3339, val)`). -/
def isDateTimeRfc3339 (s : String) : Bool :=
  match parseDateIso s.data with
  | some (_, _, _, 'T' :: rest) =>
    match parseClock rest with
    | some rest2 => parseZoneRfc rest2
    | none => false
  | _ => false

/-- Model of `isDateIso8601` (`time.Parse("2006-01-02", val)`). -/
def isDateIso8601 (s : String) : Bool :=
  match parseDateIso s.data with
  | some (_, _, _, []) => true
  | _ => false

/-- Model of `isTimeIso8601ExtendedT` (`time.Parse("T15:04:05", val)`). -/
def isTimeIso8601ExtendedT (s : String) : Bool :=
  match s.data with
  | 'T' :: rest =>
    match parseClock rest with
    | some [] => true
    | _ => false
  | _ => false

/-- Model of `isTimeIso8601Extended` (`time.Parse("15:04:05", val)`). -/
def isTimeIso8601Extended (s : String) : Bool :=
  match parseClock s.data with
  | some [] => true
  | _ => false

/-- Positions of the hyphens in a canonical UUID (`uuidCanonHyphens`). -/
def uuidCanonHyphens : List Nat := [8, 13, 18, 23]

/-- Positions of the hex digits in a canonical UUID (`uuidCanonDigits`). -/
def uuidCanonDigits : List Nat :=
  [0, 1, 2, 3, 4, 5, 6, 7,
   9, 10, 11, 12,
   14, 15, 16, 17,
   19, 20, 21, 22,
   24, 25, 26, 27, 28, 29, 30, 31, 32, 33, 34, 35]

/-- Model of `isUuidCanon`: the 36-character hyphenated layout. -/
def isUuidCanon (s : String) : Bool :=
  let cs := s.data
  cs.length == 36 &&
    uuidCanonHyphens.all (fun i => cs.getD i 'x' == '-') &&
    uuidCanonDigits.all (fun i => isHexDigit (cs.getD i 'x'))

/-- Model of `isUuidSimple`: exactly 32 hex digits. -/
def isUuidSimple (s : String) : Bool :=
  s.data.length == 32 && s.data.all isHexDigit

/-- Model of `isUuid`. -/
def isUuid (s : String) : Bool :=
  isUuidCanon s || isUuidSimple s

/-- The fixed allow-list of ISO-8601 duration spellings (`durations`):
encodings of zero and of the non-zero values produced by `nonZero`. -/
def durations : List String := ["P", "P0", "P0Y", "PT0S", "PT1S", "P1Y"]

/-- Model of `isDurationIso8601`. -/
def isDurationIso8601 (s : String) : Bool :=
  durations.contains s

/-- Model of the `unquote` helper (`strconv.Unquote` with fallback to the
raw input on error), restricted to plain double-quoted strings without
escape sequences or embedded quotes; anything else is returned unchanged,
like the Go helper does on a parse error. -/
def unquote (s : String) : String :=
  match s.data with
  | '"' :: rest =>
    if rest.getLast? == some '"' &&
        rest.dropLast.all (fun c => c != '"' && c != '\\' && Nat.blt 31 c.toNat) then
      String.mk rest.dropLast
    else s
  | _ => s

/-- Model of `strings.ContainsAny(val, chars)`. -/
def containsAny (s : String) (chars : List Char) : Bool :=
  s.data.any (fun c => chars.contains c)

/-- Model of `tagIdent`: the leading comma-separated component of a struct
tag value, with `-` mapped to the empty string. -/
def tagIdent (tag : String) : String :=
  let tag := String.mk (tag.data.takeWhile (fun c => c != ','))
  if tag = "-" then "" else tag

/-- Model of `jsonName`. -/
def jsonName (field : GoField) : String :=
  tagIdent field.jsonTag

/-- Model of `isPublic`. -/
def isPublic (pkgPath : String) : Bool :=
  pkgPath = ""

/-! ### Type and format constants (`oas.go`) -/

/-- Go constant `TypeNull`. -/
def TypeNull : String := "null"
/-- Go constant `TypeInt`. -/
def TypeInt : String := "integer"
/-- Go constant `TypeNum`. -/
def TypeNum : String := "number"
/-- Go constant `TypeStr`. -/
def TypeStr : String := "string"
/-- Go constant `TypeBool`. -/
def TypeBool : String := "boolean"
/-- Go constant `TypeObj`. -/
def TypeObj : String := "object"
/-- Go constant `TypeArr`. -/
def TypeArr : String := "array"

/-- Go constant `FormatInt32`. -/
def FormatInt32 : String := "int32"
/-- Go constant `FormatInt64`. -/
def FormatInt64 : String := "int64"
/-- Go constant `FormatFloat32`. -/
def FormatFloat32 : String := "float"
/-- Go constant `FormatFloat64`. -/
def FormatFloat64 : String := "double"
/-- Go constant `FormatDate`. -/
def FormatDate : String := "date"
/-- Go constant `FormatTime`. -/
def FormatTime : String := "time"
/-- Go constant `FormatDateTime`. -/
def FormatDateTime : String := "date-time"
/-- Go constant `FormatDuration`. -/
def FormatDuration : String := "duration"
/-- Go constant `FormatUuid`. -/
def FormatUuid : String := "uuid"

/-! ### The schema node model

Only the fields the schema-generation core reads or writes are modelled:
`Ref`, `Title`, `Format`, `Type`, `OneOf`, `AnyOf` (read by `IsNullable`,
never written by the core), `Items`, `AddProps`, `Props`, `MaxItems`,
`MinItems`.  The remaining `Schema` fields are never touched by the core
and stay at their zero values throughout. -/

/-- A JSON-Schema node (the modelled fragment of `Schema`). -/
inductive Schema where
  | mk (ref title format : String) (typ : List String)
      (oneOf anyOf : List Schema) (items addProps : Option Schema)
      (props : List (String × Schema)) (maxItems minItems : Nat)
deriving Repr

/-- The `$ref` field. -/
def Schema.ref : Schema → String
  | .mk r _ _ _ _ _ _ _ _ _ _ => r

/-- The `title` field. -/
def Schema.title : Schema → String
  | .mk _ t _ _ _ _ _ _ _ _ _ => t

/-- The `format` field. -/
def Schema.format : Schema → String
  | .mk _ _ f _ _ _ _ _ _ _ _ => f

/-- The `type` list. -/
def Schema.typ : Schema → List String
  | .mk _ _ _ ty _ _ _ _ _ _ _ => ty

/-- The `oneOf` members. -/
def Schema.oneOf : Schema → List Schema
  | .mk _ _ _ _ o _ _ _ _ _ _ => o

/-- The `anyOf` members. -/
def Schema.anyOf : Schema → List Schema
  | .mk _ _ _ _ _ a _ _ _ _ _ => a

/-- The `items` sub-schema. -/
def Schema.items : Schema → Option Schema
  | .mk _ _ _ _ _ _ i _ _ _ _ => i

/-- The `additionalProperties` sub-schema. -/
def Schema.addProps : Schema → Option Schema
  | .mk _ _ _ _ _ _ _ a _ _ _ => a

/-- The `properties` map (name, schema), in insertion order. -/
def Schema.props : Schema → List (String × Schema)
  | .mk _ _ _ _ _ _ _ _ p _ _ => p

/-- The `maxItems` field (0 = absent, as in the Go struct). -/
def Schema.maxItems : Schema → Nat
  | .mk _ _ _ _ _ _ _ _ _ mx _ => mx

/-- The `minItems` field (0 = absent, as in the Go struct). -/
def Schema.minItems : Schema → Nat
  | .mk _ _ _ _ _ _ _ _ _ _ mn => mn

/-- The zero `Schema` value. -/
def Schema.empty : Schema := .mk "" "" "" [] [] [] none none [] 0 0

/-- Functional update of `ref`. -/
def Schema.withRef (s : Schema) (v : String) : Schema :=
  match s with
  | .mk _ t f ty o a i ap p mx mn => .mk v t f ty o a i ap p mx mn

/-- Functional update of `title`. -/
def Schema.withTitle (s : Schema) (v : String) : Schema :=
  match s with
  | .mk r _ f ty o a i ap p mx mn => .mk r v f ty o a i ap p mx mn

/-- Functional update of `format`. -/
def Schema.withFormat (s : Schema) (v : String) : Schema :=
  match s with
  | .mk r t _ ty o a i ap p mx mn => .mk r t v ty o a i ap p mx mn

/-- Functional update of `type`. -/
def Schema.withTyp (s : Schema) (v : List String) : Schema :=
  match s with
  | .mk r t f _ o a i ap p mx mn => .mk r t f v o a i ap p mx mn

/-- Functional update of `oneOf`. -/
def Schema.withOneOf (s : Schema) (v : List Schema) : Schema :=
  match s with
  | .mk r t f ty _ a i ap p mx mn => .mk r t f ty v a i ap p mx mn

/-- Functional update of `items`. -/
def Schema.withItems (s : Schema) (v : Option Schema) : Schema :=
  match s with
  | .mk r t f ty o a _ ap p mx mn => .mk r t f ty o a v ap p mx mn

/-- Functional update of `additionalProperties`. -/
def Schema.withAddProps (s : Schema) (v : Option Schema) : Schema :=
  match s with
  | .mk r t f ty o a i _ p mx mn => .mk r t f ty o a i v p mx mn

/-- Functional update of `properties`. -/
def Schema.withProps (s : Schema) (v : List (String × Schema)) : Schema :=
  match s with
  | .mk r t f ty o a i ap _ mx mn => .mk r t f ty o a i ap v mx mn

/-- Functional update of `maxItems`. -/
def Schema.withMaxItems (s : Schema) (v : Nat) : Schema :=
  match s with
  | .mk r t f ty o a i ap p _ mn => .mk r t f ty o a i ap p v mn

/-- Functional update of `minItems`. -/
def Schema.withMinItems (s : Schema) (v : Nat) : Schema :=
  match s with
  | .mk r t f ty o a i ap p mx _ => .mk r t f ty o a i ap p mx v

/-- Model of `Schema.TypeHas` (`stringsContain`). -/
def Schema.typeHas (s : Schema) (exp : String) : Bool :=
  s.typ.contains exp

/-- Model of `Schema.TypeIs` (`stringsEq`, exact match). -/
def Schema.typeIs (s : Schema) (exp : List String) : Bool :=
  s.typ == exp

mutual

/-- Model of `Schema.IsNullable`: `type` contains `null`, or some `oneOf`
or `anyOf` member is nullable. -/
def Schema.isNullable : Schema → Bool
  | .mk _ _ _ ty o a _ _ _ _ _ =>
    ty.contains TypeNull || anyNullable o || anyNullable a

/-- Model of `someSchema(vals, Schema.IsNullable)`. -/
def anyNullable : List Schema → Bool
  | [] => false
  | s :: rest => s.isNullable || anyNullable rest

end

/-- Model of the private `Schema.typeAdd`: set-insert of one type tag,
keeping `null` last in the list. -/
def Schema.typeAddOne (s : Schema) (val : String) : Schema :=
  if s.typeHas val then s
  else
    let types := s.typ
    match types.getLast? with
    | some l =>
      if l = TypeNull then s.withTyp (types.dropLast ++ [val, TypeNull])
      else s.withTyp (types ++ [val])
    | none => s.withTyp (types ++ [val])

/-- Model of `Schema.TypeAdd`. -/
def Schema.typeAdd (s : Schema) (vals : List String) : Schema :=
  vals.foldl Schema.typeAddOne s

/-- Error values of the embedding: one constructor per distinct panic site
of the source, plus `outOfFuel` (model artifact: the computation needs more
fuel; the real code diverges iff every fuel is exhausted) and `badEnv`
(model artifact: a dangling type name, impossible for a real Go type). -/
inductive Err where
  | outOfFuel
  | badEnv (name : String)
  | unsupported (name : String)
  | missingSchema (refPath : String)
  | unexpectedRef (name refPath : String)
  | redundant (name : String)
  | missingTitle
  | unknownRef (refPath : String)
  | unsupportedMapKey (mapName keyName : String)
  | nullableRef
  | componentizeRef
deriving DecidableEq, Repr

/-- The reference path produced by `RefSchema` (`path.Join` reduces to
plain concatenation for the slash-free names this package produces). -/
def refPathOf (name : String) : String :=
  "#/components/schemas/" ++ name

/-- The reference-only schema produced by `RefSchema`. -/
def refOf (name : String) : Schema :=
  Schema.empty.withRef (refPathOf name)

/-- Model of `RefSchema`, with its empty-name panic. -/
def refSchemaE (name : String) : Except Err Schema :=
  if name = "" then .error .missingTitle
  else .ok (refOf name)

/-- Model of `Schema.setRef`: panics on an empty name and on an attempt to
componentize a schema that is already a reference; otherwise replaces the
whole schema by `RefSchema(val)`. -/
def Schema.setRefE (s : Schema) (val : String) : Except Err Schema :=
  if val = "" then .error .missingTitle
  else if s.ref != "" then .error .componentizeRef
  else .ok (refOf val)

/-- Model of `NullSchema`: the value-or-null `oneOf` wrapper, null second. -/
def nullSchema (name : String) (inner : Schema) : Schema :=
  (Schema.empty.withTitle name).withOneOf [inner, Schema.empty.withTyp [TypeNull]]

/-- Model of `Schema.Nullable`: panics on a reference, otherwise adds
`null` to the type set unless the schema is already inferably nullable. -/
def Schema.nullableE (s : Schema) : Except Err Schema :=
  if s.ref != "" then .error .nullableRef
  else if s.isNullable then .ok s
  else .ok (s.typeAdd [TypeNull])

/-- Model of `Schema.ValidTitle` (both the `errMissingTitle` panic and the
formatted missing-title panic collapse to `Err.missingTitle`). -/
def Schema.validTitleE (s : Schema) : Except Err String :=
  if s.title = "" then .error .missingTitle else .ok s.title

/-- The document, reduced to the component registry `Comps.Schemas` — the
only document state the schema-generation core reads or writes.  The
insertion-ordered association list models the Go map (key-unique). -/
structure Doc where
  schemas : List (String × Schema)
deriving Repr

/-- The empty document. -/
def Doc.empty : Doc := ⟨[]⟩

/-- Registry lookup (`self.Comps.Schemas[name]`). -/
def findSchema (doc : Doc) (name : String) : Option Schema :=
  (doc.schemas.find? (fun p => p.1 = name)).map Prod.snd

/-- Go map assignment (insert-or-replace; a Go map's iteration order is
unspecified, so the entry order carries no meaning and the binding is kept
at the front). -/
def putSchema (doc : Doc) (name : String) (sch : Schema) : Doc :=
  ⟨(name, sch) :: doc.schemas.filter (fun p => p.1 != name)⟩

/-- Model of `Doc.GotCompSchema`: lookup by component name, with the
double-indirection panic when the stored body is itself a reference. -/
def gotCompSchema (doc : Doc) (name : String) : Except Err (Option Schema) :=
  match findSchema doc name with
  | none => .ok none
  | some sch =>
    if sch.ref != "" then .error (.unexpectedRef name sch.ref) else .ok (some sch)

/-- Strips a literal character prefix, the list-level `strings.HasPrefix`
plus slicing used by `unprefix`. -/
def stripLit : List Char → List Char → Option (List Char)
  | [], rest => some rest
  | p :: ps, c :: cs => if p = c then stripLit ps cs else none
  | _ :: _, [] => none

/-- Model of `Doc.GotSchema`: resolves a full `#/components/schemas/...`
reference path, with the unsupported-reference panic. -/
def gotSchema (doc : Doc) (refPath : String) : Except Err (Option Schema) :=
  match stripLit "#/components/schemas/".data refPath.data with
  | some rest => gotCompSchema doc (String.mk rest)
  | none => .error (.unknownRef refPath)

/-- Model of `Doc.setSchema`: reserve/bind a component name, failing on an
empty name or an already-present key. -/
def setSchema (doc : Doc) (name : String) (sch : Schema) : Except Err Doc :=
  if name = "" then .error .missingTitle
  else
    match findSchema doc name with
    | some _ => .error (.redundant name)
    | none => .ok (putSchema doc name sch)

/-- Model of `Doc.addSchema`: unconditional map assignment keyed by the
schema's (validated) title. -/
def addSchema (doc : Doc) (sch : Schema) : Except Err Doc := do
  let t ← sch.validTitleE
  .ok (putSchema doc t sch)

/-- Model of `Doc.outlineSchema`: store the filled body under its title,
then turn the in-progress schema into a pure reference to it. -/
def outlineSchema (doc : Doc) (sch : Schema) : Except Err (Schema × Doc) := do
  let doc2 ← addSchema doc sch
  let t ← sch.validTitleE
  let sch2 ← sch.setRefE t
  .ok (sch2, doc2)

/-! ### The behavioral classifier -/

/-- Model of `schemaTextInspectFormat`: the format sniffers, in source
order, first match wins. -/
def schemaTextInspectFormat (sch : Schema) (val : String) : Schema :=
  let val := goTrimSpace val
  if isDateTimeRfc3339 val then sch.withFormat FormatDateTime
  else if isDateIso8601 val then sch.withFormat FormatDate
  else if isTimeIso8601ExtendedT val || isTimeIso8601Extended val then
    sch.withFormat FormatTime
  else if isUuid val then sch.withFormat FormatUuid
  else if isDurationIso8601 val then sch.withFormat FormatDuration
  else sch

/-- Model of `schemaTextInspect`: classify as string, then sniff the
format. -/
def schemaTextInspect (sch : Schema) (val : String) : Schema :=
  schemaTextInspectFormat (sch.typeAdd [TypeStr]) val

/-- Model of `schemaJsonInspect`: classify the custom JSON output.  The
returned flag is the definiteness of the classification (`false` for the
literal `null` and for unrecognized output). -/
def schemaJsonInspect (sch : Schema) (val : String) : Except Err (Bool × Schema) :=
  let val := goTrimSpace val
  if val = "null" then do
    let s ← sch.nullableE
    .ok (false, s)
  else if val = "true" || val = "false" then
    .ok (true, (sch.typeAdd [TypeBool]).withFormat "")
  else if val.data.head? == some '"' then
    .ok (true, schemaTextInspectFormat (sch.typeAdd [TypeStr]) (unquote val))
  else if (match val.data.head? with
           | some c => c == '-' || isDecDigit c
           | none => false) then
    let s := sch.typeAdd [TypeNum]
    .ok (true, if containsAny val ['.', 'e', 'E'] then s.withFormat FormatFloat64 else s)
  else
    .ok (false, sch)

/-- Model of `schemaJsonVal`: invoke the JSON marshaler and inspect its
output; a marshal error classifies as indefinite. -/
def schemaJsonVal (env : GoEnv) (sch : Schema) (ty : Ty) (v : GoVal) :
    Except Err (Bool × Schema) :=
  match callJson env ty v with
  | none => .ok (false, sch)
  | some chunk => schemaJsonInspect sch chunk

/-- Model of `schemaTextVal`: invoke the text marshaler; any successful
output classifies definitely as a string. -/
def schemaTextVal (env : GoEnv) (sch : Schema) (ty : Ty) (v : GoVal) :
    Bool × Schema :=
  match callText env ty v with
  | none => (false, sch)
  | some chunk => (true, schemaTextInspect sch chunk)

/-- Model of `schemaIfaceJson`: strip pointer layers (marking `null` at
each), probe the zero value, and on an indefinite result synthesize a
non-default witness and retry once. -/
def schemaIfaceJson : Nat → GoEnv → Schema → Ty → Except Err (Bool × Schema)
  | 0, _, _, _ => .error .outOfFuel
  | fuel + 1, env, sch, ty =>
    match resolveShape env ty with
    | none => .error (.badEnv (tyString ty))
    | some (.ptr t) => schemaIfaceJson fuel env (sch.typeAdd [TypeNull]) t
    | some _ =>
      match typeDeref fuel env ty with
      | none => .error .outOfFuel
      | some tyD =>
        match zeroVal fuel env tyD with
        | none => .error .outOfFuel
        | some v0 => do
          let r1 ← schemaJsonVal env sch tyD v0
          if r1.1 then .ok (true, r1.2)
          else
            match nonZero fuel env tyD v0 with
            | none => .error .outOfFuel
            | some (false, _) => .ok (false, r1.2)
            | some (true, w) => schemaJsonVal env r1.2 tyD w

/-- Model of `schemaIfaceText`.  Note the extra rule of the source: a
zero-size type counts as handled even when its zero-value probe failed. -/
def schemaIfaceText : Nat → GoEnv → Schema → Ty → Except Err (Bool × Schema)
  | 0, _, _, _ => .error .outOfFuel
  | fuel + 1, env, sch, ty =>
    match resolveShape env ty with
    | none => .error (.badEnv (tyString ty))
    | some (.ptr t) => schemaIfaceText fuel env (sch.typeAdd [TypeNull]) t
    | some _ =>
      match zeroVal fuel env ty with
      | none => .error .outOfFuel
      | some v0 =>
        let r1 := schemaTextVal env sch ty v0
        if r1.1 then .ok (true, r1.2)
        else
          match tySize fuel env ty with
          | none => .error .outOfFuel
          | some 0 => .ok (true, r1.2)
          | some (_ + 1) =>
            match nonZero fuel env ty v0 with
            | none => .error .outOfFuel
            | some (false, _) => .ok (false, r1.2)
            | some (true, w) => .ok (schemaTextVal env r1.2 ty w)

/-- Model of `schemaIfaces`: JSON capability first, then text. -/
def schemaIfaces (fuel : Nat) (env : GoEnv) (sch : Schema) (ty : Ty) :
    Except Err (Bool × Schema) :=
  if implementsJson env ty then schemaIfaceJson fuel env sch ty
  else if implementsText env ty then schemaIfaceText fuel env sch ty
  else .ok (false, sch)

/-! ### The structural traversal dispatcher -/

/-- Model of `schemaInt` (`sch.Type = []string{TypeInt}`). -/
def schemaInt (sch : Schema) : Schema := sch.withTyp [TypeInt]

/-- Model of `schemaFloat`. -/
def schemaFloat (sch : Schema) : Schema := sch.withTyp [TypeNum]

/-- Model of `schemaBool`. -/
def schemaBool (sch : Schema) : Schema := sch.withTyp [TypeBool]

/-- Model of `schemaString`. -/
def schemaString (sch : Schema) : Schema := sch.withTyp [TypeStr]

/-- Model of `schemaTitle`: set the title to the canonical type name when
that is non-empty. -/
def schemaTitle (sch : Schema) (ty : Ty) : Schema :=
  let val := tyString ty
  if val != "" then sch.withTitle val else sch

/-- Model of `schemaCommon`. -/
def schemaCommon (sch : Schema) (ty : Ty) : Schema :=
  schemaTitle sch ty

/-- Go map-assignment into `sch.Props` (`sch.Props.Init()[name] = v`). -/
def propsPut (props : List (String × Schema)) (name : String) (v : Schema) :
    List (String × Schema) :=
  if (props.find? (fun p => p.1 = name)).isSome then
    props.map (fun p => if p.1 = name then (name, v) else p)
  else props ++ [(name, v)]

mutual

/-- Model of `Doc.schemaAny`, the dispatcher: nil type → nullable; a name
already present in the registry (even a placeholder) → plain reference;
otherwise title, then the behavioral classifier, then structural kind
dispatch (`schemaKind` names the source's inline `switch typ.Kind()`). -/
def schemaAny : Nat → GoEnv → Doc → Schema → Option Ty → Except Err (Schema × Doc)
  | 0, _, _, _, _ => .error .outOfFuel
  | fuel + 1, env, doc, sch, oty =>
    match oty with
    | none => do
      let s ← sch.nullableE
      .ok (s, doc)
    | some ty => do
      let name := tyString ty
      let hit ← gotCompSchema doc name
      match hit with
      | some _ => do
        let s ← sch.setRefE name
        .ok (s, doc)
      | none =>
        let sch := schemaCommon sch ty
        let r ← schemaIfaces fuel env sch ty
        if r.1 then .ok (r.2, doc)
        else schemaKind fuel env doc r.2 ty

/-- The `switch typ.Kind()` of `schemaAny`, as a named function. -/
def schemaKind : Nat → GoEnv → Doc → Schema → Ty → Except Err (Schema × Doc)
  | 0, _, _, _, _ => .error .outOfFuel
  | fuel + 1, env, doc, sch, ty =>
    match resolveShape env ty with
    | none => .error (.badEnv (tyString ty))
    | some sh =>
      match sh with
      | .prim k =>
        match k with
        | .i32 | .u32 => .ok (schemaInt (sch.withFormat FormatInt32), doc)
        | .i64 | .u64 => .ok (schemaInt (sch.withFormat FormatInt64), doc)
        | .i8 | .i16 | .iInt | .u8 | .u16 | .uInt => .ok (schemaInt sch, doc)
        | .f32 => .ok (schemaFloat (sch.withFormat FormatFloat32), doc)
        | .f64 => .ok (schemaFloat (sch.withFormat FormatFloat64), doc)
        | .boolK => .ok (schemaBool sch, doc)
        | .strK => .ok (schemaString sch, doc)
      | .ptr t => schemaPtr fuel env doc sch ty t
      | .arr n t => schemaArray fuel env doc sch ty n t
      | .slice t => schemaSlice fuel env doc sch ty t
      | .mapS kt vt => schemaMap fuel env doc sch ty kt vt
      | .structS fields => schemaStruct fuel env doc sch ty fields
      | .chanS | .funcS | .ifaceS | .uptrS => .error (.unsupported (tyString ty))

/-- Model of `Doc.schemaPtr` (`ty` is the pointer type, `t` its referent):
recurse into the referent with the same target schema, then reconcile
pointer-induced nullability with the referent's result. -/
def schemaPtr : Nat → GoEnv → Doc → Schema → Ty → Ty → Except Err (Schema × Doc)
  | 0, _, _, _, _, _ => .error .outOfFuel
  | fuel + 1, env, doc, sch, ty, t => do
    let (sch, doc) ← schemaAny fuel env doc sch (some t)
    if sch.ref = "" then do
      let s ← (sch.withTitle (tyString ty)).nullableE
      .ok (s, doc)
    else do
      let refPath := sch.ref
      let tar ← gotSchema doc refPath
      match tar with
      | none => .error (.missingSchema refPath)
      | some tar =>
        if tar.isNullable then .ok (sch, doc)
        else .ok (nullSchema (tyString ty) sch, doc)

/-- Model of `Doc.schemaArray`: reserve the component, fill min/max items
and the element schema, then outline. -/
def schemaArray : Nat → GoEnv → Doc → Schema → Ty → Nat → Ty → Except Err (Schema × Doc)
  | 0, _, _, _, _, _, _ => .error .outOfFuel
  | fuel + 1, env, doc, sch, ty, n, t => do
    let name := tyString ty
    let doc ← setSchema doc name Schema.empty
    let sch := (sch.withMaxItems n).withMinItems n
    let (items, doc) ← schemaAny fuel env doc Schema.empty (some t)
    let sch := sch.withItems (some items)
    outlineSchema doc sch

/-- Model of `Doc.schemaSlice`: reserve, mark nullable array, fill the
element schema, outline. -/
def schemaSlice : Nat → GoEnv → Doc → Schema → Ty → Ty → Except Err (Schema × Doc)
  | 0, _, _, _, _, _ => .error .outOfFuel
  | fuel + 1, env, doc, sch, ty, t => do
    let name := tyString ty
    let doc ← setSchema doc name Schema.empty
    let sch := sch.withTyp [TypeArr, TypeNull]
    let (items, doc) ← schemaAny fuel env doc Schema.empty (some t)
    let sch := sch.withItems (some items)
    outlineSchema doc sch

/-- Model of `Doc.schemaMap`: reserve, mark nullable object; skippable
value type → stop (still outlining, as the Go `defer` does); otherwise
require the key schema to classify as exactly `string` and fill
`additionalProperties`. -/
def schemaMap : Nat → GoEnv → Doc → Schema → Ty → Ty → Ty → Except Err (Schema × Doc)
  | 0, _, _, _, _, _, _ => .error .outOfFuel
  | fuel + 1, env, doc, sch, ty, kt, vt => do
    let name := tyString ty
    let doc ← setSchema doc name Schema.empty
    let sch := sch.withTyp [TypeObj, TypeNull]
    match isTypeSkippable fuel env (some vt) with
    | none => .error .outOfFuel
    | some true => do
      let sch ← sch.nullableE
      outlineSchema doc sch
    | some false => do
      let (keySch, doc) ← schemaAny fuel env doc Schema.empty (some kt)
      if keySch.typeIs [TypeStr] then do
        let (valSch, doc) ← schemaAny fuel env doc Schema.empty (some vt)
        let sch := sch.withAddProps (some valSch)
        outlineSchema doc sch
      else .error (.unsupportedMapKey (tyString ty) (tyString kt))

/-- Model of `Doc.schemaStruct`: reserve, mark object, flatten the fields,
outline. -/
def schemaStruct : Nat → GoEnv → Doc → Schema → Ty → List GoField → Except Err (Schema × Doc)
  | 0, _, _, _, _, _ => .error .outOfFuel
  | fuel + 1, env, doc, sch, ty, fields => do
    let name := tyString ty
    let doc ← setSchema doc name Schema.empty
    let sch := sch.withTyp [TypeObj]
    let (sch, doc) ← schemaStructProps fuel env doc sch fields
    outlineSchema doc sch

/-- Model of `Doc.schemaStructProps`, one field per step: skip non-exported
fields and unrepresentable types; an explicit tag name wins; an untagged
anonymous field whose pointer-stripped type is a struct is flattened
recursively; otherwise the field's own identifier names the property. -/
def schemaStructProps : Nat → GoEnv → Doc → Schema → List GoField → Except Err (Schema × Doc)
  | 0, _, _, _, _ => .error .outOfFuel
  | _ + 1, _, doc, sch, [] => .ok (sch, doc)
  | fuel + 1, env, doc, sch, field :: rest =>
    if !(isPublic field.pkgPath) then schemaStructProps fuel env doc sch rest
    else
      match isTypeSkippable fuel env (some field.ty) with
      | none => .error .outOfFuel
      | some true => schemaStructProps fuel env doc sch rest
      | some false =>
        let nm := jsonName field
        if nm != "" then do
          let (sch, doc) ← schemaStructProp fuel env doc sch nm field.ty
          schemaStructProps fuel env doc sch rest
        else
          if field.anonymous then
            match typeDeref fuel env field.ty with
            | none => .error .outOfFuel
            | some inner =>
              match resolveShape env inner with
              | some (.structS innerFields) => do
                let (sch, doc) ← schemaStructProps fuel env doc sch innerFields
                schemaStructProps fuel env doc sch rest
              | _ =>
                if field.name != "" then do
                  let (sch, doc) ← schemaStructProp fuel env doc sch field.name field.ty
                  schemaStructProps fuel env doc sch rest
                else schemaStructProps fuel env doc sch rest
          else
            if field.name != "" then do
              let (sch, doc) ← schemaStructProp fuel env doc sch field.name field.ty
              schemaStructProps fuel env doc sch rest
            else schemaStructProps fuel env doc sch rest

/-- Model of `Doc.schemaStructProp`: one property from the recursive schema
of the field's type. -/
def schemaStructProp : Nat → GoEnv → Doc → Schema → String → Ty → Except Err (Schema × Doc)
  | 0, _, _, _, _, _ => .error .outOfFuel
  | fuel + 1, env, doc, sch, nm, ty => do
    let (v, doc) ← schemaAny fuel env doc Schema.empty (some ty)
    .ok (sch.withProps (propsPut sch.props nm v), doc)

end

/-- Model of `Doc.TypeSchema`: the public entry point, starting from a
fresh zero schema. -/
def typeSchema (fuel : Nat) (env : GoEnv) (doc : Doc) (oty : Option Ty) :
    Except Err (Schema × Doc) :=
  schemaAny fuel env doc Schema.empty oty

/-! ### Theorems -/

/-- The primitive type tag a kind dispatches to. -/
def primTypeTag (k : PrimKind) : String :=
  match k with
  | .f32 | .f64 => TypeNum
  | .boolK => TypeBool
  | .strK => TypeStr
  | _ => TypeInt

/-- The width format the specification predicts from the declaration-exact
width: exactly 32 bits → the 32-bit format, exactly 64 bits → the 64-bit
format, anything narrower or inexact → none. -/
def widthFormat (k : PrimKind) : String :=
  match k.exactWidth with
  | some 32 => if k.isIntKind then FormatInt32 else FormatFloat32
  | some 64 => if k.isIntKind then FormatInt64 else FormatFloat64
  | _ => ""

/-- Claim C9: for every bare value of a primitive structural kind with no
custom encoding capability, `schema_for` yields an inline schema (empty
`$ref`) whose type set is exactly the kind's tag; integer kinds narrower
than 64 bits carry no width format except that exactly-32-bit integers
carry `int32`, exactly-64-bit integers carry `int64`, and 32/64-bit floats
carry `float`/`double`. -/
theorem claim9_primitive_inline_exact (k : PrimKind) (env : GoEnv) (doc : Doc)
    (fuel : Nat) (h : findSchema doc k.goName = none) :
    schemaAny (fuel + 2) env doc Schema.empty (some (.prim k)) =
      .ok (((Schema.empty.withTitle k.goName).withFormat (widthFormat k)).withTyp
        [primTypeTag k], doc) := by
  cases k
  all_goals simp only [PrimKind.goName] at h
  all_goals
    simp [schemaAny, gotCompSchema, h, tyString, PrimKind.goName, schemaCommon,
      schemaTitle, schemaIfaces, implementsJson, implementsText, schemaKind,
      resolveShape, schemaInt, schemaFloat, schemaBool, schemaString,
      Bind.bind, Except.bind,
      widthFormat, primTypeTag, PrimKind.exactWidth, PrimKind.isIntKind,
      Schema.empty, Schema.withTitle, Schema.withFormat, Schema.withTyp]

/-- Witness for C9 at a concrete input: the bare 32-bit integer kind
against the empty document. -/
theorem claim9_primitive_inline_exact_witness :
    schemaAny 2 ⟨[]⟩ Doc.empty Schema.empty (some (.prim .i32)) =
      .ok (((Schema.empty.withTitle PrimKind.i32.goName).withFormat
        (widthFormat .i32)).withTyp [primTypeTag .i32], Doc.empty) :=
  claim9_primitive_inline_exact .i32 ⟨[]⟩ Doc.empty 0 rfl

/-- Claim C10: a bare type of primitive structural kind (integer, float,
boolean, string) with no custom encoding capability leaves the component
registry exactly unchanged whenever `schemaAny` succeeds on it. -/
theorem claim10_primitive_frame (fuel : Nat) (env : GoEnv) (doc : Doc) (sch : Schema)
    (ty : Ty) (k : PrimKind) (s : Schema) (d : Doc)
    (hres : resolveShape env ty = some (.prim k))
    (hj : implementsJson env ty = false) (ht : implementsText env ty = false)
    (h : schemaAny fuel env doc sch (some ty) = .ok (s, d)) : d = doc := by
  match fuel with
  | 0 => simp [schemaAny] at h
  | fuel + 1 =>
    rw [schemaAny] at h
    rcases hhit : gotCompSchema doc (tyString ty) with _ | hit
    · simp [hhit, Bind.bind, Except.bind] at h
    · rcases hit with _ | b
      · simp only [hhit, Bind.bind, Except.bind, schemaIfaces, hj, ht] at h
        match fuel with
        | 0 => simp [schemaKind] at h
        | fuel + 1 =>
          simp only [schemaKind, hres] at h
          cases k <;> simp_all
      · rcases hsr : (sch.setRefE (tyString ty)) with _ | s2
        · simp [hhit, hsr, Bind.bind, Except.bind] at h
        · simp [hhit, hsr, Bind.bind, Except.bind] at h
          exact h.2.symm

/-- Witness for C10: the bare `bool` kind against a one-entry document. -/
theorem claim10_primitive_frame_witness :
    schemaAny 2 ⟨[]⟩ ⟨[("x", Schema.empty)]⟩ Schema.empty (some (.prim .boolK)) =
        .ok ((Schema.empty.withTitle "bool").withTyp [TypeBool], ⟨[("x", Schema.empty)]⟩) ∧
      (⟨[("x", Schema.empty)]⟩ : Doc) = ⟨[("x", Schema.empty)]⟩ :=
  ⟨by rfl, claim10_primitive_frame 2 ⟨[]⟩ ⟨[("x", Schema.empty)]⟩ Schema.empty
    (.prim .boolK) .boolK _ _ rfl rfl rfl (by rfl)⟩

/-- Claim C7: the format sniffers run in the fixed source order — RFC 3339
date-time, calendar date, extended local time (with or without the leading
`T`), UUID (canonical hyphenated or 32 hex digits), ISO-8601 duration
allow-list — and the first match wins; in particular
`2024-01-02T03:04:05Z` classifies as string with `date-time` format,
`2024-01-02` as string with `date` format, and a 32-hex-digit string as
string with `uuid` format. -/
theorem claim7_format_sniffer_order (sch : Schema) (val : String) :
    (isDateTimeRfc3339 (goTrimSpace val) = true →
      schemaTextInspectFormat sch val = sch.withFormat FormatDateTime) ∧
    (isDateTimeRfc3339 (goTrimSpace val) = false →
      isDateIso8601 (goTrimSpace val) = true →
      schemaTextInspectFormat sch val = sch.withFormat FormatDate) ∧
    (isDateTimeRfc3339 (goTrimSpace val) = false →
      isDateIso8601 (goTrimSpace val) = false →
      (isTimeIso8601ExtendedT (goTrimSpace val) = true ∨
        isTimeIso8601Extended (goTrimSpace val) = true) →
      schemaTextInspectFormat sch val = sch.withFormat FormatTime) ∧
    (isDateTimeRfc3339 (goTrimSpace val) = false →
      isDateIso8601 (goTrimSpace val) = false →
      isTimeIso8601ExtendedT (goTrimSpace val) = false →
      isTimeIso8601Extended (goTrimSpace val) = false →
      isUuid (goTrimSpace val) = true →
      schemaTextInspectFormat sch val = sch.withFormat FormatUuid) ∧
    (isDateTimeRfc3339 (goTrimSpace val) = false →
      isDateIso8601 (goTrimSpace val) = false →
      isTimeIso8601ExtendedT (goTrimSpace val) = false →
      isTimeIso8601Extended (goTrimSpace val) = false →
      isUuid (goTrimSpace val) = false →
      isDurationIso8601 (goTrimSpace val) = true →
      schemaTextInspectFormat sch val = sch.withFormat FormatDuration) ∧
    schemaTextInspect Schema.empty "2024-01-02T03:04:05Z" =
      (Schema.empty.withTyp [TypeStr]).withFormat FormatDateTime ∧
    schemaTextInspect Schema.empty "2024-01-02" =
      (Schema.empty.withTyp [TypeStr]).withFormat FormatDate ∧
    schemaTextInspect Schema.empty "0123456789abcdef0123456789abcdef" =
      (Schema.empty.withTyp [TypeStr]).withFormat FormatUuid ∧
    schemaTextInspect Schema.empty "01234567-89ab-cdef-0123-456789abcdef" =
      (Schema.empty.withTyp [TypeStr]).withFormat FormatUuid := by
  refine ⟨?_, ?_, ?_, ?_, ?_, by rfl, by rfl, by rfl, by rfl⟩
  · intro h1
    simp [schemaTextInspectFormat, h1]
  · intro h1 h2
    simp [schemaTextInspectFormat, h1, h2]
  · intro h1 h2 h3
    rcases h3 with h3 | h3 <;> simp [schemaTextInspectFormat, h1, h2, h3]
  · intro h1 h2 h3 h4 h5
    simp [schemaTextInspectFormat, h1, h2, h3, h4, h5]
  · intro h1 h2 h3 h4 h5 h6
    simp [schemaTextInspectFormat, h1, h2, h3, h4, h5, h6]

/-- Witness for C7: the three concrete classifications of the claim, read
off from the ordered-sniffer theorem with every hypothesis discharged by
computation. -/
theorem claim7_format_sniffer_order_witness :
    schemaTextInspectFormat Schema.empty "2024-01-02T03:04:05Z" =
        Schema.empty.withFormat FormatDateTime ∧
      schemaTextInspectFormat Schema.empty "2024-01-02" =
        Schema.empty.withFormat FormatDate ∧
      schemaTextInspectFormat Schema.empty "0123456789abcdef0123456789abcdef" =
        Schema.empty.withFormat FormatUuid :=
  ⟨(claim7_format_sniffer_order Schema.empty "2024-01-02T03:04:05Z").1 (by rfl),
   (claim7_format_sniffer_order Schema.empty "2024-01-02").2.1 (by rfl) (by rfl),
   (claim7_format_sniffer_order Schema.empty
       "0123456789abcdef0123456789abcdef").2.2.2.1
     (by rfl) (by rfl) (by rfl) (by rfl) (by rfl)⟩

/-- Retitling a schema does not change its reference. -/
theorem ref_withTitle (s : Schema) (x : String) : (s.withTitle x).ref = s.ref := by
  cases s <;> rfl

/-- Retitling a schema does not change its nullability. -/
theorem isNullable_withTitle (s : Schema) (x : String) :
    (s.withTitle x).isNullable = s.isNullable := by
  cases s <;> rfl

/-- Adding the `null` tag makes a schema inferably nullable. -/
theorem isNullable_typeAddNull (s : Schema) :
    (s.typeAdd [TypeNull]).isNullable = true := by
  cases s with
  | mk r t f ty o a i ap p mx mn =>
    simp only [Schema.typeAdd, List.foldl, Schema.typeAddOne, Schema.typeHas,
      Schema.typ]
    by_cases hc : ty.contains TypeNull
    · simp only [hc, if_true, Schema.isNullable, hc, Bool.true_or]
    · simp only [hc, Bool.false_eq_true, if_false]
      cases hl : ty.getLast? with
      | none => simp [Schema.withTyp, Schema.isNullable, TypeNull]
      | some l =>
        by_cases he : l = "null" <;>
          simp [he, Schema.withTyp, Schema.isNullable, TypeNull]

/-- Claim C3: for a pointer type `ty` with referent `t`, given the
referent's traversal result `s1`: if `s1` stayed inline, the pointer schema
is `s1` retitled to the pointer's name with the `null` tag added to its own
type set (no `oneOf` wrapping), and nothing is added when `s1` is already
inferably nullable; if `s1` collapsed to a reference whose target is not
inferably nullable, the pointer schema is the two-member value-or-null
`oneOf` union of the reference and `null` under the pointer-derived title;
if the target is already nullable, no null layer is added at all.  In every
case the registry (including the referent's stored component body) is the
one the referent's traversal produced, unchanged by the pointer step. -/
theorem claim3_pointer_nullability (fuel : Nat) (env : GoEnv) (doc : Doc)
    (sch : Schema) (ty t : Ty) (s1 : Schema) (d1 : Doc)
    (h : schemaAny fuel env doc sch (some t) = .ok (s1, d1)) :
    (s1.ref = "" →
      schemaPtr (fuel + 1) env doc sch ty t =
        .ok (if s1.isNullable then s1.withTitle (tyString ty)
          else (s1.withTitle (tyString ty)).typeAdd [TypeNull], d1) ∧
      (s1.isNullable = false →
        ((s1.withTitle (tyString ty)).typeAdd [TypeNull]).isNullable = true)) ∧
    (s1.ref ≠ "" → ∀ tar : Schema, gotSchema d1 s1.ref = .ok (some tar) →
      (tar.isNullable = true →
        schemaPtr (fuel + 1) env doc sch ty t = .ok (s1, d1)) ∧
      (tar.isNullable = false →
        schemaPtr (fuel + 1) env doc sch ty t =
          .ok ((Schema.empty.withTitle (tyString ty)).withOneOf
            [s1, Schema.empty.withTyp [TypeNull]], d1))) := by
  constructor
  · intro href
    constructor
    · rw [schemaPtr]
      simp only [h, Bind.bind, Except.bind, href, if_true]
      simp only [Schema.nullableE, ref_withTitle, href, isNullable_withTitle]
      by_cases hn : s1.isNullable <;> simp [hn]
    · intro _
      exact isNullable_typeAddNull _
  · intro href tar htar
    constructor <;> intro hn
    · rw [schemaPtr]
      simp only [h, Bind.bind, Except.bind, if_neg href, htar, hn, if_true]
    · rw [schemaPtr]
      simp only [h, Bind.bind, Except.bind, if_neg href, htar, hn,
        Bool.false_eq_true, if_false, nullSchema]

/-- Witness for C3: a pointer to a plain inline string schema — the null
tag is added to the type set in place, with the pointer-derived title. -/
theorem claim3_pointer_nullability_witness :
    schemaPtr 3 ⟨[]⟩ Doc.empty Schema.empty (.ptr (.prim .strK)) (.prim .strK) =
      .ok ((((Schema.empty.withTitle "string").withTyp [TypeStr]).withTitle
        "*string").typeAdd [TypeNull], Doc.empty) := by
  have h : schemaAny 2 ⟨[]⟩ Doc.empty Schema.empty (some (.prim .strK)) =
      .ok ((Schema.empty.withTitle "string").withTyp [TypeStr], Doc.empty) := by rfl
  have hres := (claim3_pointer_nullability 2 ⟨[]⟩ Doc.empty Schema.empty
    (.ptr (.prim .strK)) (.prim .strK) _ _ h).1 (by rfl)
  rw [hres.1]
  rfl

/-- On a type whose kind is not a pointer, `typeDeref` is the identity. -/
theorem typeDeref_not_ptr (fuel : Nat) (env : GoEnv) (ty : Ty)
    (h : ∀ t, resolveShape env ty ≠ some (.ptr t)) :
    typeDeref (fuel + 1) env ty = some ty := by
  rw [typeDeref]
  cases hres : resolveShape env ty with
  | none => rfl
  | some sh => cases sh <;> first | rfl | exact absurd hres (h _)

/-- Claim C6: probing output that is the literal `null` marks the schema
nullable only, with indefinite classification; the capability is then
retried exactly once on a synthesized non-default witness (the second and
final probe), and if the witness cannot be synthesized or the retry is
still indefinite, `schemaAny` falls through to the structural kind
dispatch. -/
theorem claim6_null_probe_retry (fuel : Nat) (env : GoEnv) (sch : Schema) (ty : Ty)
    (hnp : ∀ t, resolveShape env ty ≠ some (.ptr t))
    (hsh : resolveShape env ty ≠ none) :
    (sch.ref = "" →
      schemaJsonInspect sch "null" =
        .ok (false, if sch.isNullable then sch else sch.typeAdd [TypeNull])) ∧
    (∀ v0 s1, zeroVal (fuel + 1) env ty = some v0 →
      (schemaJsonVal env sch ty v0 = .ok (true, s1) →
        schemaIfaceJson (fuel + 2) env sch ty = .ok (true, s1)) ∧
      (schemaJsonVal env sch ty v0 = .ok (false, s1) →
        (∀ w, nonZero (fuel + 1) env ty v0 = some (false, w) →
          schemaIfaceJson (fuel + 2) env sch ty = .ok (false, s1)) ∧
        (∀ w, nonZero (fuel + 1) env ty v0 = some (true, w) →
          schemaIfaceJson (fuel + 2) env sch ty = schemaJsonVal env s1 ty w))) ∧
    (∀ doc s2, gotCompSchema doc (tyString ty) = .ok none →
      schemaIfaces (fuel + 1) env (schemaCommon sch ty) ty = .ok (false, s2) →
      schemaAny (fuel + 2) env doc sch (some ty) = schemaKind (fuel + 1) env doc s2 ty) := by
  refine ⟨?_, ?_, ?_⟩
  · intro href
    simp only [schemaJsonInspect]
    have htrim : goTrimSpace "null" = "null" := by rfl
    rw [htrim]
    simp only [if_true, Schema.nullableE, href, Bind.bind, Except.bind]
    by_cases hn : sch.isNullable <;> simp [hn, href]
  · intro v0 s1 hz
    have hmain : schemaIfaceJson (fuel + 2) env sch ty =
        (do
          let r1 ← schemaJsonVal env sch ty v0
          if r1.1 then .ok (true, r1.2)
          else
            match nonZero (fuel + 1) env ty v0 with
            | none => .error .outOfFuel
            | some (false, _) => .ok (false, r1.2)
            | some (true, w) => schemaJsonVal env r1.2 ty w) := by
      rw [schemaIfaceJson]
      cases hres : resolveShape env ty with
      | none => exact absurd hres hsh
      | some sh =>
        cases sh
        case ptr t => exact absurd hres (hnp t)
        all_goals simp only [hres, typeDeref_not_ptr fuel env ty hnp, hz]
    refine ⟨?_, ?_⟩
    · intro hp
      rw [hmain]
      simp [hp, Bind.bind, Except.bind]
    · intro hp
      refine ⟨?_, ?_⟩ <;> intro w hw <;> rw [hmain] <;>
        simp [hp, hw, Bind.bind, Except.bind]
  · intro doc s2 hmiss hifaces
    rw [schemaAny]
    simp only [schemaCommon] at hifaces
    simp [hmiss, hifaces, Bind.bind, Except.bind, schemaCommon]

/-- The ternary JSON marshaler of the repository's `TerByte` test type:
zero encodes as `null`, one as `false`, two as `true`, everything else
errors. -/
def terByteFn : GoVal → Option String := fun v =>
  match v with
  | .vInt 0 => some "null"
  | .vInt 1 => some "false"
  | .vInt 2 => some "true"
  | _ => none

/-- Environment holding `oas.TerByte`, a byte kind with the ternary JSON
marshaler. -/
def terEnv : GoEnv :=
  ⟨[("oas.TerByte", TyDef.mk (.prim .u8) (some terByteFn) none)]⟩

/-- Witness for C6: on `oas.TerByte` the zero probe returns `null`
(indefinite, schema marked nullable), the synthesized witness `1` re-probes
to `false`, and the classification lands on boolean-and-nullable, matching
the repository's own test expectations. -/
theorem claim6_null_probe_retry_witness :
    schemaIfaceJson 3 terEnv (Schema.empty.withTitle "oas.TerByte")
        (.named "oas.TerByte") =
      .ok (true, ((Schema.empty.withTitle "oas.TerByte").typeAdd
        [TypeNull, TypeBool]).withFormat "") := by
  have h6 := claim6_null_probe_retry 1 terEnv (Schema.empty.withTitle "oas.TerByte")
    (.named "oas.TerByte")
    (by intro t h; simp [resolveShape, GoEnv.find, terEnv, List.find?] at h)
    (by intro h; simp [resolveShape, GoEnv.find, terEnv, List.find?] at h)
  have hz : zeroVal 2 terEnv (.named "oas.TerByte") = some (.vInt 0) := by rfl
  have hstep := (h6.2.1 (.vInt 0)
    ((Schema.empty.withTitle "oas.TerByte").typeAdd [TypeNull]) hz).2
  have hp : schemaJsonVal terEnv (Schema.empty.withTitle "oas.TerByte")
      (.named "oas.TerByte") (.vInt 0) =
      .ok (false, (Schema.empty.withTitle "oas.TerByte").typeAdd [TypeNull]) := by rfl
  have hw : nonZero 2 terEnv (.named "oas.TerByte") (.vInt 0) =
      some (true, .vInt 1) := by rfl
  rw [(hstep hp).2 (.vInt 1) hw]
  rfl

/-- Environment for the C5 counterexample: a struct with a single exported
string field whose JSON tag is exactly `-` (the `encoding/json` skip
marker). -/
def dashEnv : GoEnv :=
  ⟨[("oas.Dash", TyDef.mk (.structS [⟨"One", "-", "", false, .prim .strK⟩]) none none)]⟩

/-- Counterexample to claim C5 as stated: the claim says a field whose
annotation is exactly the skip marker is removed, but `tagIdent` maps `-`
to the empty string, so the field falls back to its Go identifier and the
stored component's properties contain `One` — the field is not removed. -/
theorem claim5_skip_marker_counterexample :
    typeSchema 10 dashEnv Doc.empty (some (.named "oas.Dash")) =
        .ok (refOf "oas.Dash",
          ⟨[("oas.Dash", Schema.mk "" "oas.Dash" "" [TypeObj] [] [] none none
            [("One", Schema.mk "" "string" "" [TypeStr] [] [] none none [] 0 0)] 0 0)]⟩) ∧
      (Schema.mk "" "oas.Dash" "" [TypeObj] [] [] none none
        [("One", Schema.mk "" "string" "" [TypeStr] [] [] none none [] 0 0)] 0 0).props ≠ [] := by
  exact ⟨by rfl, by simp [Schema.props]⟩

/-- Claim C5 (amended): for every field of a composite record, in
declaration order: non-visible fields and fields of unrepresentable type
contribute no property; a field whose explicit annotation gives a name uses
that name; an annotation of exactly `-` is mapped to the empty name (like
the absence of an annotation) and the field therefore falls back to
embedded flattening or to its own declared identifier — it is NOT removed;
an untagged anonymous field whose pointer-stripped type is a composite
record has that record's fields recursively flattened into the containing
schema; an untagged anonymous field whose pointer-stripped type is not a
composite record contributes one property under its own declared
identifier; and every other retained field likewise contributes one
property named by its declared identifier, mapped to the recursive schema
of its type. -/
theorem claim5_field_processing (fuel : Nat) (env : GoEnv) (doc : Doc) (sch : Schema)
    (field : GoField) (rest : List GoField) :
    (isPublic field.pkgPath = false →
      schemaStructProps (fuel + 2) env doc sch (field :: rest) =
        schemaStructProps (fuel + 1) env doc sch rest) ∧
    (isPublic field.pkgPath = true →
      isTypeSkippable (fuel + 1) env (some field.ty) = some true →
      schemaStructProps (fuel + 2) env doc sch (field :: rest) =
        schemaStructProps (fuel + 1) env doc sch rest) ∧
    (isPublic field.pkgPath = true →
      isTypeSkippable (fuel + 1) env (some field.ty) = some false →
      jsonName field ≠ "" →
      ∀ v d2, schemaAny fuel env doc Schema.empty (some field.ty) = .ok (v, d2) →
      schemaStructProps (fuel + 2) env doc sch (field :: rest) =
        schemaStructProps (fuel + 1) env d2
          (sch.withProps (propsPut sch.props (jsonName field) v)) rest) ∧
    (tagIdent "-" = "" ∧ tagIdent "" = "") ∧
    (isPublic field.pkgPath = true →
      isTypeSkippable (fuel + 1) env (some field.ty) = some false →
      jsonName field = "" →
      field.anonymous = true →
      ∀ inner innerFields, typeDeref (fuel + 1) env field.ty = some inner →
      resolveShape env inner = some (.structS innerFields) →
      ∀ s2 d2, schemaStructProps (fuel + 1) env doc sch innerFields = .ok (s2, d2) →
      schemaStructProps (fuel + 2) env doc sch (field :: rest) =
        schemaStructProps (fuel + 1) env d2 s2 rest) ∧
    (isPublic field.pkgPath = true →
      isTypeSkippable (fuel + 1) env (some field.ty) = some false →
      jsonName field = "" →
      field.anonymous = true →
      ∀ inner, typeDeref (fuel + 1) env field.ty = some inner →
      (∀ innerFields, resolveShape env inner ≠ some (.structS innerFields)) →
      field.name ≠ "" →
      ∀ v d2, schemaAny fuel env doc Schema.empty (some field.ty) = .ok (v, d2) →
      schemaStructProps (fuel + 2) env doc sch (field :: rest) =
        schemaStructProps (fuel + 1) env d2
          (sch.withProps (propsPut sch.props field.name v)) rest) ∧
    (isPublic field.pkgPath = true →
      isTypeSkippable (fuel + 1) env (some field.ty) = some false →
      jsonName field = "" →
      field.anonymous = false →
      field.name ≠ "" →
      ∀ v d2, schemaAny fuel env doc Schema.empty (some field.ty) = .ok (v, d2) →
      schemaStructProps (fuel + 2) env doc sch (field :: rest) =
        schemaStructProps (fuel + 1) env d2
          (sch.withProps (propsPut sch.props field.name v)) rest) := by
  refine ⟨?_, ?_, ?_, ⟨by rfl, by rfl⟩, ?_, ?_, ?_⟩
  · intro hpub
    rw [schemaStructProps]
    simp [hpub]
  · intro hpub hskip
    rw [schemaStructProps]
    simp [hpub, hskip]
  · intro hpub hskip hnm v d2 hv
    rw [schemaStructProps]
    have hne : (jsonName field != "") = true := by
      simpa using hnm
    simp [hpub, hskip, hne, schemaStructProp, hv, Bind.bind, Except.bind]
  · intro hpub hskip hnm hanon inner innerFields hderef hres s2 d2 hflat
    rw [schemaStructProps]
    have hne : (jsonName field != "") = false := by simp [hnm]
    simp [hpub, hskip, hne, hanon, hderef, hres, hflat, Bind.bind, Except.bind]
  · intro hpub hskip hnm hanon inner hderef hnotstruct hname v d2 hv
    rw [schemaStructProps]
    have hne : (jsonName field != "") = false := by simp [hnm]
    have hne2 : (field.name != "") = true := by simpa using hname
    rcases hri : resolveShape env inner with _ | ish
    · simp [hpub, hskip, hne, hanon, hderef, hri, hne2, schemaStructProp, hv,
        Bind.bind, Except.bind]
    · cases ish <;>
        first
          | exact absurd hri (hnotstruct _)
          | simp [hpub, hskip, hne, hanon, hderef, hri, hne2, schemaStructProp, hv,
              Bind.bind, Except.bind]
  · intro hpub hskip hnm hanon hname v d2 hv
    rw [schemaStructProps]
    have hne : (jsonName field != "") = false := by simp [hnm]
    have hne2 : (field.name != "") = true := by simpa using hname
    simp [hpub, hskip, hne, hanon, hne2, schemaStructProp, hv, Bind.bind, Except.bind]

/-- Environment for the C5 witness's anonymous-non-record case: the
repository's `WrapStr` pattern — a struct anonymously embedding the named
string type `oas.Str`. -/
def wrapStrEnv : GoEnv :=
  ⟨[("oas.WrapStr", TyDef.mk (.structS [⟨"Str", "", "", true, .named "oas.Str"⟩])
      none none),
    ("oas.Str", TyDef.mk (.prim .strK) none none)]⟩

/-- Witness for C5 (amended), at two concrete fields: the untagged
anonymous `Str` field of `oas.WrapStr` — whose pointer-stripped type is the
non-record `oas.Str` — contributes a property under its own identifier
`Str`; and the dash-tagged field of `oas.Dash` has empty `jsonName`, is not
anonymous, and so contributes a property under its own identifier `One`. -/
theorem claim5_field_processing_witness :
    (schemaStructProps 4 wrapStrEnv (putSchema Doc.empty "oas.WrapStr" Schema.empty)
        Schema.empty [⟨"Str", "", "", true, .named "oas.Str"⟩] =
      schemaStructProps 3 wrapStrEnv (putSchema Doc.empty "oas.WrapStr" Schema.empty)
        (Schema.empty.withProps (propsPut [] "Str"
          ((Schema.empty.withTitle "oas.Str").withTyp [TypeStr]))) []) ∧
    (schemaStructProps 4 dashEnv (putSchema Doc.empty "oas.Dash" Schema.empty)
        Schema.empty [⟨"One", "-", "", false, .prim .strK⟩] =
      schemaStructProps 3 dashEnv (putSchema Doc.empty "oas.Dash" Schema.empty)
        (Schema.empty.withProps (propsPut [] "One"
          ((Schema.empty.withTitle "string").withTyp [TypeStr]))) []) := by
  constructor
  · have h := (claim5_field_processing 2 wrapStrEnv
      (putSchema Doc.empty "oas.WrapStr" Schema.empty) Schema.empty
      ⟨"Str", "", "", true, .named "oas.Str"⟩ []).2.2.2.2.2.1
    exact h rfl (by rfl) (by rfl) rfl (.named "oas.Str") (by rfl)
      (by intro fs hcon; cases hcon) (by simp)
      ((Schema.empty.withTitle "oas.Str").withTyp [TypeStr])
      (putSchema Doc.empty "oas.WrapStr" Schema.empty) (by rfl)
  · have h := (claim5_field_processing 2 dashEnv
      (putSchema Doc.empty "oas.Dash" Schema.empty) Schema.empty
      ⟨"One", "-", "", false, .prim .strK⟩ []).2.2.2.2.2.2
    exact h rfl (by rfl) (by rfl) rfl (by simp)
      ((Schema.empty.withTitle "string").withTyp [TypeStr])
      (putSchema Doc.empty "oas.Dash" Schema.empty) (by rfl)

/-- Modelled from the claim's words (C8), for comparison with the source's
`nonZeroStruct`: try every field in declaration order, visible or not, and
succeed on the first field that can be made non-default. -/
def nonZeroFieldsClaimOrder : Nat → GoEnv → List GoField → List GoVal →
    Option (Bool × List GoVal)
  | 0, _, _, _ => none
  | _ + 1, _, [], vs => some (false, vs)
  | _ + 1, _, _ :: _, [] => some (false, [])
  | fuel + 1, env, fld :: flds, x :: xs => do
    let r ← nonZero fuel env fld.ty x
    if r.1 then some (true, r.2 :: xs)
    else (nonZeroFieldsClaimOrder fuel env flds xs).map (fun r2 => (r2.1, r.2 :: r2.2))

/-- Environment for the C8 counterexample: a struct whose first field is
unexported (`hidden`) and whose second field is exported (`Public`), both
plain integers. -/
def ppEnv : GoEnv :=
  ⟨[("oas.PrivPub", TyDef.mk (.structS [⟨"hidden", "", "oas", false, .prim .iInt⟩,
      ⟨"Public", "", "", false, .prim .iInt⟩]) none none)]⟩

/-- Counterexample to claim C8 as stated: on a struct with an unexported
first field and an exported second field, the source's `nonZero` sets the
exported second field (visible fields are tried in a first pass of their
own), while the claim's every-field-in-declaration-order rule would set the
first field; the two synthesized witnesses differ.  The repository's own
`Test_nonZero` pins the source behavior. -/
theorem claim8_field_order_counterexample :
    nonZero 10 ppEnv (.named "oas.PrivPub") (.vStruct [.vInt 0, .vInt 0]) =
        some (true, .vStruct [.vInt 0, .vInt 1]) ∧
      nonZeroFieldsClaimOrder 10 ppEnv
          [⟨"hidden", "", "oas", false, .prim .iInt⟩,
           ⟨"Public", "", "", false, .prim .iInt⟩] [.vInt 0, .vInt 0] =
        some (true, [.vInt 1, .vInt 0]) ∧
      (GoVal.vStruct [.vInt 0, .vInt 1] ≠ .vStruct [.vInt 1, .vInt 0]) := by
  refine ⟨by rfl, by rfl, by simp⟩

/-- Claim C8 (amended): witness synthesis on a composite record tries the
exported (visible) fields first, in declaration order, succeeding on the
first visible field that can be made non-default; only when no visible
field succeeds does it retry every field (hidden ones included) in
declaration order from freshly synthesized values; and every zero-size type
always fails. -/
theorem claim8_witness_order (fuel : Nat) (env : GoEnv) (ty : Ty) (v : GoVal)
    (fields flds : List GoField) (fld : GoField) (vs xs : List GoVal) (x : GoVal) :
    (tySize fuel env ty = some 0 → nonZero (fuel + 1) env ty v = some (false, v)) ∧
    (∀ n, resolveShape env ty = some (.structS fields) →
      tySize fuel env ty = some (n + 1) →
      nonZero (fuel + 1) env ty (.vStruct vs) =
        match nonZeroFieldsPublic fuel env fields vs with
        | none => none
        | some (true, vs1) => some (true, .vStruct vs1)
        | some (false, vs1) =>
          (nonZeroFieldsAny fuel env fields vs1).map (fun r => (r.1, .vStruct r.2))) ∧
    (fld.pkgPath ≠ "" →
      nonZeroFieldsPublic (fuel + 1) env (fld :: flds) (x :: xs) =
        (nonZeroFieldsPublic fuel env flds xs).map (fun r => (r.1, x :: r.2))) ∧
    (fld.pkgPath = "" → ∀ x1, nonZero fuel env fld.ty x = some (true, x1) →
      nonZeroFieldsPublic (fuel + 1) env (fld :: flds) (x :: xs) =
        some (true, x1 :: xs)) ∧
    (∀ z w, zeroVal fuel env fld.ty = some z →
      nonZero fuel env fld.ty z = some (true, w) →
      nonZeroFieldsAny (fuel + 1) env (fld :: flds) (x :: xs) =
        some (true, w :: xs)) := by
  refine ⟨?_, ?_, ?_, ?_, ?_⟩
  · intro h
    simp only [nonZero, h]
  · intro n hres hsize
    simp only [nonZero, hsize, hres]
    rcases hpub : nonZeroFieldsPublic fuel env fields vs with _ | ⟨b, vs1⟩
    · simp [hpub, Bind.bind, Option.bind]
    · cases b
      · simp only [hpub, Bind.bind, Option.bind]
        rcases hany : nonZeroFieldsAny fuel env fields vs1 with _ | r <;>
          simp [hany]
      · simp [hpub, Bind.bind, Option.bind]
  · intro hpk
    rw [nonZeroFieldsPublic]
    simp [hpk]
  · intro hpk x1 hx
    rw [nonZeroFieldsPublic]
    simp [hpk, hx, Bind.bind, Option.bind]
  · intro z w hz hw
    rw [nonZeroFieldsAny]
    simp [hz, hw, Bind.bind, Option.bind]

/-- Witness for C8 (amended) at the `oas.PrivPub` environment: the
zero-size clause at `[0]int` arrays, and the visible-first precedence on
the concrete hidden-then-public struct. -/
theorem claim8_witness_order_witness :
    nonZero 10 ppEnv (.arr 0 (.prim .iInt)) (.vArr []) = some (false, .vArr []) ∧
      nonZeroFieldsPublic 10 ppEnv
          [⟨"hidden", "", "oas", false, .prim .iInt⟩,
           ⟨"Public", "", "", false, .prim .iInt⟩] [.vInt 0, .vInt 0] =
        (nonZeroFieldsPublic 9 ppEnv [⟨"Public", "", "", false, .prim .iInt⟩]
          [.vInt 0]).map (fun r => (r.1, .vInt 0 :: r.2)) := by
  constructor
  · exact (claim8_witness_order 9 ppEnv (.arr 0 (.prim .iInt)) (.vArr []) [] []
      ⟨"", "", "", false, .prim .iInt⟩ [] [] (.vInt 0)).1 (by rfl)
  · exact (claim8_witness_order 9 ppEnv (.arr 0 (.prim .iInt)) (.vArr []) []
      [⟨"Public", "", "", false, .prim .iInt⟩]
      ⟨"hidden", "", "oas", false, .prim .iInt⟩ [] [.vInt 0] (.vInt 0)).2.2.1
      (by simp)

/-- The anonymous self-embedded pointer field of `type A struct { *A }`:
exported (its name is the embedded type's name `A`), untagged, anonymous. -/
def selfEmbedField : GoField := ⟨"A", "", "", true, .ptr (.named "oas.A")⟩

/-- Environment for C1: the legal Go type `type A struct { *A }` — a
record containing a pointer to itself as an anonymous embedded field. -/
def selfEmbedEnv : GoEnv :=
  ⟨[("oas.A", TyDef.mk (.structS [selfEmbedField]) none none)]⟩

/-- Field flattening on `type A struct{ *A }` consumes any amount of fuel:
the embedded-struct promotion recurses into the same field list without
consulting the component registry, so the reservation of `oas.A` never
breaks this cycle. -/
theorem flattenSelfEmbedDiverges : ∀ fuel : Nat, ∀ doc : Doc, ∀ sch : Schema,
    schemaStructProps fuel selfEmbedEnv doc sch [selfEmbedField] =
      .error .outOfFuel := by
  intro fuel
  induction fuel with
  | zero => intro doc sch; rfl
  | succ f ih =>
    intro doc sch
    match f, ih with
    | 0, _ => rfl
    | 1, _ => rfl
    | g + 2, ih =>
      have hstep : schemaStructProps (g + 3) selfEmbedEnv doc sch [selfEmbedField] =
          (do
            let r ← schemaStructProps (g + 2) selfEmbedEnv doc sch [selfEmbedField]
            schemaStructProps (g + 2) selfEmbedEnv r.2 r.1 []) := rfl
      rw [hstep, ih doc sch]
      rfl

/-- Claim C1 (the code contradicts it): `schema_for` on the self-referential
record `type A struct { *A }` — a record containing a pointer to itself —
exhausts every fuel bound: the real code recurses without termination
(a stack overflow), because the flattening path re-expands the embedded
record by field list, bypassing the registry reservation that the claim
relies on.  Cycles broken by the reservation are exactly those reached
through `schemaAny` (named fields), not through anonymous embedding. -/
theorem claim1_cycle_divergence : ∀ fuel : Nat,
    typeSchema fuel selfEmbedEnv Doc.empty (some (.named "oas.A")) =
      .error .outOfFuel := by
  intro fuel
  match fuel with
  | 0 => rfl
  | 1 => rfl
  | 2 => rfl
  | g + 3 =>
    show schemaAny (g + 3) selfEmbedEnv Doc.empty Schema.empty
      (some (.named "oas.A")) = .error .outOfFuel
    have hstep : schemaAny (g + 3) selfEmbedEnv Doc.empty Schema.empty
        (some (.named "oas.A")) =
        (do
          let r ← schemaStructProps g selfEmbedEnv
            (putSchema Doc.empty "oas.A" Schema.empty)
            ((Schema.empty.withTitle "oas.A").withTyp [TypeObj]) [selfEmbedField]
          outlineSchema r.2 r.1) := by rfl
    rw [hstep, flattenSelfEmbedDiverges]
    rfl

/-! ### Registry and schema-shape lemmas -/

/-- Lookup after a map assignment, same key. -/
theorem findSchema_putSchema_self (doc : Doc) (n : String) (s : Schema) :
    findSchema (putSchema doc n s) n = some s := by
  simp [findSchema, putSchema, List.find?]

/-- Auxiliary: `find?` by one key ignores filtering away another key. -/
theorem find_filter_other (l : List (String × Schema)) (n k : String) (h : k ≠ n) :
    (l.filter (fun p => p.1 != n)).find? (fun p => decide (p.1 = k)) =
      l.find? (fun p => decide (p.1 = k)) := by
  induction l with
  | nil => rfl
  | cons hd tl ih =>
    by_cases h1 : hd.1 = n
    · have hk : (decide (hd.1 = k)) = false := by
        simp [h1]
        exact fun he => absurd he.symm h
      have hn : (decide (n = k)) = false := by
        simp
        exact fun he => absurd he.symm h
      simp [List.filter, List.find?, h1, hk, hn, ih]
    · have hne : (hd.1 != n) = true := by simp [h1]
      have hkn : (k != n) = true := by simp [h]
      by_cases h2 : hd.1 = k
      · simp [List.filter, List.find?, h1, h2, hne, hkn]
      · simp [List.filter, List.find?, h1, h2, hne, hkn, ih]

/-- Lookup after a map assignment, different key. -/
theorem findSchema_putSchema_other (doc : Doc) (n k : String) (s : Schema)
    (h : k ≠ n) : findSchema (putSchema doc n s) k = findSchema doc k := by
  simp only [findSchema, putSchema, List.find?]
  have hd : (decide (n = k)) = false := by
    simp
    exact fun he => absurd he.symm h
  simp [hd, find_filter_other doc.schemas n k h]

/-- The successful case of `setSchema`, inverted. -/
theorem setSchema_ok (doc d : Doc) (name : String) (sch : Schema)
    (h : setSchema doc name sch = .ok d) :
    name ≠ "" ∧ findSchema doc name = none ∧ d = putSchema doc name sch := by
  unfold setSchema at h
  by_cases hn : name = ""
  · simp [hn] at h
  · simp only [hn, if_false] at h
    cases hf : findSchema doc name with
    | some _ => rw [hf] at h; cases h
    | none => rw [hf] at h; exact ⟨hn, rfl, (Except.ok.injEq _ _ ▸ h).symm⟩

/-- Registry growth: `d` keeps every binding of `doc`, and every new
binding's key does not begin with `*` (pointer types never register, and no
legal Go identifier begins with `*`). -/
def isCompShape : TyShape → Bool
  | .arr _ _ => true
  | .slice _ => true
  | .mapS _ _ => true
  | .structS _ => true
  | _ => false

/-- A registry key that canonically names a composite-kinded type of the
environment: exactly the keys the traversal ever binds. -/
def CompKey (env : GoEnv) (k : String) : Prop :=
  ∃ ty sh, tyString ty = k ∧ resolveShape env ty = some sh ∧ isCompShape sh = true

/-- One traversal's effect on the registry: existing bindings are
preserved, and every key it binds names a composite type. -/
def docStep (env : GoEnv) (doc d : Doc) : Prop :=
  (∀ k v, findSchema doc k = some v → findSchema d k = some v) ∧
  (∀ k v, findSchema d k = some v →
    findSchema doc k = some v ∨ CompKey env k)

/-- Reflexivity of registry growth. -/
theorem docStep_refl {env : GoEnv} (doc : Doc) : docStep env doc doc :=
  ⟨fun _ _ h => h, fun _ _ h => Or.inl h⟩

/-- Transitivity of registry growth. -/
theorem docStep_trans {env : GoEnv} {a b c : Doc} (h1 : docStep env a b)
    (h2 : docStep env b c) : docStep env a c := by
  refine ⟨fun k v h => h2.1 k v (h1.1 k v h), fun k v h => ?_⟩
  rcases h2.2 k v h with h' | h'
  · rcases h1.2 k v h' with h'' | h''
    · exact Or.inl h''
    · exact Or.inr h''
  · exact Or.inr h'

/-- Growth step for a fresh binding (key absent from the base). -/
theorem docStep_put {env : GoEnv} (doc : Doc) (n : String) (s : Schema)
    (habs : findSchema doc n = none) (hstar : CompKey env n) :
    docStep env doc (putSchema doc n s) := by
  constructor
  · intro k v h
    have hk : k ≠ n := fun he => by rw [he, habs] at h; cases h
    rw [findSchema_putSchema_other doc n k s hk]
    exact h
  · intro k v h
    by_cases hk : k = n
    · subst hk; exact Or.inr hstar
    · rw [findSchema_putSchema_other doc n k s hk] at h
      exact Or.inl h

/-- The `ref` field is untouched by a type-list update. -/
theorem ref_withTyp (s : Schema) (v : List String) : (s.withTyp v).ref = s.ref := by
  cases s <;> rfl

/-- The `title` field is untouched by a type-list update. -/
theorem title_withTyp (s : Schema) (v : List String) :
    (s.withTyp v).title = s.title := by
  cases s <;> rfl

/-- A single type-tag insertion either leaves the schema alone or only
replaces its type list. -/
theorem typeAddOne_cases (s : Schema) (v : String) :
    s.typeAddOne v = s ∨ ∃ l, s.typeAddOne v = s.withTyp l := by
  unfold Schema.typeAddOne
  by_cases h : s.typeHas v
  · simp [h]
  · simp only [h, Bool.false_eq_true, if_false]
    cases hl : s.typ.getLast? with
    | none => exact Or.inr ⟨_, rfl⟩
    | some l =>
      by_cases he : l = TypeNull <;> simp only [he, if_true, if_false] <;>
        exact Or.inr ⟨_, rfl⟩

/-- The `ref` field is untouched by a single type-tag insertion. -/
theorem ref_typeAddOne (s : Schema) (v : String) : (s.typeAddOne v).ref = s.ref := by
  rcases typeAddOne_cases s v with h | ⟨l, h⟩ <;> rw [h]
  exact ref_withTyp ..

/-- The `title` field is untouched by a single type-tag insertion. -/
theorem title_typeAddOne (s : Schema) (v : String) :
    (s.typeAddOne v).title = s.title := by
  rcases typeAddOne_cases s v with h | ⟨l, h⟩ <;> rw [h]
  exact title_withTyp ..

/-- The `ref` field is untouched by type-tag insertions. -/
theorem ref_typeAdd (s : Schema) (vs : List String) : (s.typeAdd vs).ref = s.ref := by
  induction vs generalizing s with
  | nil => rfl
  | cons v vs ih => exact (ih (s.typeAddOne v)).trans (ref_typeAddOne s v)

/-- The `title` field is untouched by type-tag insertions. -/
theorem title_typeAdd (s : Schema) (vs : List String) :
    (s.typeAdd vs).title = s.title := by
  induction vs generalizing s with
  | nil => rfl
  | cons v vs ih => exact (ih (s.typeAddOne v)).trans (title_typeAddOne s v)

/-- The `ref` field is untouched by a format update. -/
theorem ref_withFormat (s : Schema) (v : String) : (s.withFormat v).ref = s.ref := by
  cases s <;> rfl

/-- The `title` field is untouched by a format update. -/
theorem title_withFormat (s : Schema) (v : String) :
    (s.withFormat v).title = s.title := by
  cases s <;> rfl

/-- The `ref` field is untouched by a properties update. -/
theorem ref_withProps (s : Schema) (v : List (String × Schema)) :
    (s.withProps v).ref = s.ref := by
  cases s <;> rfl

/-- The `title` field is untouched by a properties update. -/
theorem title_withProps (s : Schema) (v : List (String × Schema)) :
    (s.withProps v).title = s.title := by
  cases s <;> rfl

/-- A successful `Nullable` preserves `ref` and `title`. -/
theorem nullableE_preserve (s s2 : Schema) (h : s.nullableE = .ok s2) :
    s2.ref = s.ref ∧ s2.title = s.title := by
  unfold Schema.nullableE at h
  split at h
  · cases h
  · split at h
    · cases h; exact ⟨rfl, rfl⟩
    · cases h; exact ⟨ref_typeAdd .., title_typeAdd ..⟩

/-- The format sniffer either leaves the schema alone or only sets its
format. -/
theorem textInspectFormat_cases (s : Schema) (val : String) :
    schemaTextInspectFormat s val = s ∨
      ∃ f, schemaTextInspectFormat s val = s.withFormat f := by
  unfold schemaTextInspectFormat
  dsimp only
  split
  · exact Or.inr ⟨_, rfl⟩
  split
  · exact Or.inr ⟨_, rfl⟩
  split
  · exact Or.inr ⟨_, rfl⟩
  split
  · exact Or.inr ⟨_, rfl⟩
  split
  · exact Or.inr ⟨_, rfl⟩
  · exact Or.inl rfl

/-- The format sniffer preserves `ref` and `title`. -/
theorem textInspectFormat_preserve (s : Schema) (val : String) :
    (schemaTextInspectFormat s val).ref = s.ref ∧
      (schemaTextInspectFormat s val).title = s.title := by
  rcases textInspectFormat_cases s val with h | ⟨f, h⟩ <;> rw [h]
  · exact ⟨rfl, rfl⟩
  · exact ⟨ref_withFormat .., title_withFormat ..⟩

/-- JSON-output inspection preserves `ref` and `title`. -/
theorem schemaJsonInspect_preserve (sch : Schema) (val : String) (b : Bool)
    (s2 : Schema) (h : schemaJsonInspect sch val = .ok (b, s2)) :
    s2.ref = sch.ref ∧ s2.title = sch.title := by
  unfold schemaJsonInspect at h
  dsimp only at h
  split at h
  · rcases hn : sch.nullableE with _ | s3
    · rw [hn] at h; cases h
    · rw [hn] at h
      simp only [Bind.bind, Except.bind, Except.ok.injEq, Prod.mk.injEq] at h
      rw [← h.2]
      exact nullableE_preserve sch s3 hn
  · split at h
    · cases h
      refine ⟨?_, ?_⟩
      · rw [ref_withFormat, ref_typeAdd]
      · rw [title_withFormat, title_typeAdd]
    · split at h
      · cases h
        obtain ⟨h1, h2⟩ := textInspectFormat_preserve (sch.typeAdd [TypeStr])
          (unquote (goTrimSpace val))
        refine ⟨?_, ?_⟩
        · rw [h1, ref_typeAdd]
        · rw [h2, title_typeAdd]
      · split at h
        · cases h
          split
          · refine ⟨?_, ?_⟩
            · rw [ref_withFormat, ref_typeAdd]
            · rw [title_withFormat, title_typeAdd]
          · exact ⟨ref_typeAdd .., title_typeAdd ..⟩
        · cases h
          exact ⟨rfl, rfl⟩

/-- Probing one value with the JSON marshaler preserves `ref` and
`title`. -/
theorem schemaJsonVal_preserve (env : GoEnv) (sch : Schema) (ty : Ty) (v : GoVal)
    (b : Bool) (s2 : Schema) (h : schemaJsonVal env sch ty v = .ok (b, s2)) :
    s2.ref = sch.ref ∧ s2.title = sch.title := by
  unfold schemaJsonVal at h
  split at h
  · cases h; exact ⟨rfl, rfl⟩
  · exact schemaJsonInspect_preserve _ _ _ _ h

/-- Probing one value with the text marshaler preserves `ref` and
`title`. -/
theorem schemaTextVal_preserve (env : GoEnv) (sch : Schema) (ty : Ty) (v : GoVal) :
    (schemaTextVal env sch ty v).2.ref = sch.ref ∧
      (schemaTextVal env sch ty v).2.title = sch.title := by
  unfold schemaTextVal
  split
  · exact ⟨rfl, rfl⟩
  · unfold schemaTextInspect
    obtain ⟨h1, h2⟩ := textInspectFormat_preserve (sch.typeAdd [TypeStr]) _
    constructor
    · rw [h1, ref_typeAdd]
    · rw [h2, title_typeAdd]

/-- The JSON classifier preserves `ref` and `title`. -/
theorem schemaIfaceJson_preserve : ∀ (fuel : Nat) (env : GoEnv) (sch : Schema)
    (ty : Ty) (b : Bool) (s2 : Schema),
    schemaIfaceJson fuel env sch ty = .ok (b, s2) →
    s2.ref = sch.ref ∧ s2.title = sch.title := by
  intro fuel
  induction fuel with
  | zero => intro env sch ty b s2 h; cases h
  | succ f ih =>
    intro env sch ty b s2 h
    rw [schemaIfaceJson] at h
    split at h
    · cases h
    case _ t _ =>
      obtain ⟨h1, h2⟩ := ih env (sch.typeAdd [TypeNull]) t b s2 h
      constructor
      · rw [h1, ref_typeAdd]
      · rw [h2, title_typeAdd]
    · split at h
      · cases h
      · split at h
        · cases h
        case _ v0 _ =>
          rcases hp : schemaJsonVal env sch _ v0 with _ | ⟨b1, s1⟩
          · rw [hp] at h; cases h
          · rw [hp] at h
            simp only [Bind.bind, Except.bind] at h
            obtain ⟨hr1, ht1⟩ := schemaJsonVal_preserve _ _ _ _ _ _ hp
            by_cases hb : b1
            · rw [if_pos (by simpa using hb)] at h
              cases h
              exact ⟨hr1, ht1⟩
            · rw [if_neg (by simpa using hb)] at h
              split at h
              · cases h
              · cases h
                exact ⟨hr1, ht1⟩
              · obtain ⟨hr2, ht2⟩ := schemaJsonVal_preserve _ _ _ _ _ _ h
                exact ⟨hr2.trans hr1, ht2.trans ht1⟩

/-- The text classifier preserves `ref` and `title`. -/
theorem schemaIfaceText_preserve : ∀ (fuel : Nat) (env : GoEnv) (sch : Schema)
    (ty : Ty) (b : Bool) (s2 : Schema),
    schemaIfaceText fuel env sch ty = .ok (b, s2) →
    s2.ref = sch.ref ∧ s2.title = sch.title := by
  intro fuel
  induction fuel with
  | zero => intro env sch ty b s2 h; cases h
  | succ f ih =>
    intro env sch ty b s2 h
    rw [schemaIfaceText] at h
    rcases hres : resolveShape env ty with _ | sh
    · rw [hres] at h; cases h
    · rw [hres] at h
      cases sh
      case ptr t =>
        obtain ⟨h1, h2⟩ := ih env (sch.typeAdd [TypeNull]) t b s2 h
        exact ⟨h1.trans (ref_typeAdd ..), h2.trans (title_typeAdd ..)⟩
      all_goals
        rcases hz : zeroVal f env ty with _ | v0
        all_goals rw [hz] at h
        all_goals try cases h
        all_goals obtain ⟨hr1, ht1⟩ := schemaTextVal_preserve env sch ty v0
        all_goals dsimp only at h
        all_goals by_cases hb : (schemaTextVal env sch ty v0).1 = true
        all_goals first
          | (rw [if_pos hb] at h; cases h; exact ⟨hr1, ht1⟩)
          | (rw [if_neg hb] at h
             rcases hsz : tySize f env ty with _ | n
             all_goals rw [hsz] at h
             · cases h
             · cases n
               · cases h; exact ⟨hr1, ht1⟩
               · rcases hnz : nonZero f env ty v0 with _ | ⟨b2, w⟩
                 all_goals rw [hnz] at h
                 · cases h
                 · cases b2
                   · cases h; exact ⟨hr1, ht1⟩
                   · injection h with h2
                     obtain ⟨hr2, ht2⟩ := schemaTextVal_preserve env
                       (schemaTextVal env sch ty v0).2 ty w
                     have hs2 : s2 =
                         (schemaTextVal env (schemaTextVal env sch ty v0).2 ty w).2 :=
                       congrArg Prod.snd h2.symm
                     rw [hs2]
                     exact ⟨hr2.trans hr1, ht2.trans ht1⟩)

/-- The capability dispatcher preserves `ref` and `title`. -/
theorem schemaIfaces_preserve (fuel : Nat) (env : GoEnv) (sch : Schema) (ty : Ty)
    (b : Bool) (s2 : Schema) (h : schemaIfaces fuel env sch ty = .ok (b, s2)) :
    s2.ref = sch.ref ∧ s2.title = sch.title := by
  unfold schemaIfaces at h
  split at h
  · exact schemaIfaceJson_preserve _ _ _ _ _ _ h
  · split at h
    · exact schemaIfaceText_preserve _ _ _ _ _ _ h
    · cases h; exact ⟨rfl, rfl⟩

/-- Emitting one property preserves `ref` and `title` of the accumulating
schema. -/
theorem schemaStructProp_preserve (fuel : Nat) (env : GoEnv) (doc : Doc)
    (sch : Schema) (nm : String) (ty : Ty) (s2 : Schema) (d2 : Doc)
    (h : schemaStructProp fuel env doc sch nm ty = .ok (s2, d2)) :
    s2.ref = sch.ref ∧ s2.title = sch.title := by
  match fuel with
  | 0 => cases h
  | f + 1 =>
    rw [schemaStructProp] at h
    rcases ha : schemaAny f env doc Schema.empty (some ty) with _ | ⟨v, d3⟩
    · rw [ha] at h; cases h
    · rw [ha] at h
      simp only [Bind.bind, Except.bind, Except.ok.injEq, Prod.mk.injEq] at h
      rw [← h.1]
      exact ⟨ref_withProps .., title_withProps ..⟩

/-- Field flattening preserves `ref` and `title` of the accumulating
schema. -/
theorem schemaStructProps_preserve : ∀ (fuel : Nat) (env : GoEnv) (doc : Doc)
    (sch : Schema) (fields : List GoField) (s2 : Schema) (d2 : Doc),
    schemaStructProps fuel env doc sch fields = .ok (s2, d2) →
    s2.ref = sch.ref ∧ s2.title = sch.title := by
  intro fuel
  induction fuel with
  | zero => intro _ _ _ _ _ _ h; cases h
  | succ f ih =>
    intro env doc sch fields s2 d2 h
    match fields with
    | [] =>
      simp only [schemaStructProps, Except.ok.injEq, Prod.mk.injEq] at h
      rw [← h.1]
      exact ⟨rfl, rfl⟩
    | field :: rest =>
      rw [schemaStructProps] at h
      by_cases hp : isPublic field.pkgPath
      · rw [if_neg (by simp [hp])] at h
        rcases hs : isTypeSkippable f env (some field.ty) with _ | bb
        · rw [hs] at h; cases h
        · rw [hs] at h
          cases bb
          ·
            by_cases hj : (jsonName field != "") = true
            · rw [if_pos hj] at h
              rcases hsp : schemaStructProp f env doc sch (jsonName field) field.ty
                with _ | ⟨s3, d3⟩
              · rw [hsp] at h; cases h
              · rw [hsp] at h
                simp only [Bind.bind, Except.bind] at h
                obtain ⟨h1, h2⟩ := ih env d3 s3 rest s2 d2 h
                obtain ⟨h3, h4⟩ := schemaStructProp_preserve f env doc sch
                  (jsonName field) field.ty s3 d3 hsp
                exact ⟨h1.trans h3, h2.trans h4⟩
            · rw [if_neg hj] at h
              by_cases han : field.anonymous = true
              · rw [if_pos han] at h
                rcases htd : typeDeref f env field.ty with _ | inner
                · rw [htd] at h; cases h
                · rw [htd] at h
                  dsimp only at h
                  rcases hri : resolveShape env inner with _ | ish
                  · rw [hri] at h
                    dsimp only at h
                    by_cases hn : (field.name != "") = true
                    · rw [if_pos hn] at h
                      rcases hsp : schemaStructProp f env doc sch field.name field.ty
                        with _ | ⟨s3, d3⟩
                      · rw [hsp] at h; cases h
                      · rw [hsp] at h
                        simp only [Bind.bind, Except.bind] at h
                        obtain ⟨h1, h2⟩ := ih env d3 s3 rest s2 d2 h
                        obtain ⟨h3, h4⟩ := schemaStructProp_preserve f env doc sch
                          field.name field.ty s3 d3 hsp
                        exact ⟨h1.trans h3, h2.trans h4⟩
                    · rw [if_neg hn] at h
                      exact ih env doc sch rest s2 d2 h
                  · cases ish
                    all_goals rw [hri] at h
                    all_goals dsimp only at h
                    · by_cases hn : (field.name != "") = true
                      · rw [if_pos hn] at h
                        rcases hsp : schemaStructProp f env doc sch field.name field.ty
                          with _ | ⟨s3, d3⟩
                        · rw [hsp] at h; cases h
                        · rw [hsp] at h
                          simp only [Bind.bind, Except.bind] at h
                          obtain ⟨h1, h2⟩ := ih env d3 s3 rest s2 d2 h
                          obtain ⟨h3, h4⟩ := schemaStructProp_preserve f env doc sch
                            field.name field.ty s3 d3 hsp
                          exact ⟨h1.trans h3, h2.trans h4⟩
                      · rw [if_neg hn] at h
                        exact ih env doc sch rest s2 d2 h
                    · by_cases hn : (field.name != "") = true
                      · rw [if_pos hn] at h
                        rcases hsp : schemaStructProp f env doc sch field.name field.ty
                          with _ | ⟨s3, d3⟩
                        · rw [hsp] at h; cases h
                        · rw [hsp] at h
                          simp only [Bind.bind, Except.bind] at h
                          obtain ⟨h1, h2⟩ := ih env d3 s3 rest s2 d2 h
                          obtain ⟨h3, h4⟩ := schemaStructProp_preserve f env doc sch
                            field.name field.ty s3 d3 hsp
                          exact ⟨h1.trans h3, h2.trans h4⟩
                      · rw [if_neg hn] at h
                        exact ih env doc sch rest s2 d2 h
                    · by_cases hn : (field.name != "") = true
                      · rw [if_pos hn] at h
                        rcases hsp : schemaStructProp f env doc sch field.name field.ty
                          with _ | ⟨s3, d3⟩
                        · rw [hsp] at h; cases h
                        · rw [hsp] at h
                          simp only [Bind.bind, Except.bind] at h
                          obtain ⟨h1, h2⟩ := ih env d3 s3 rest s2 d2 h
                          obtain ⟨h3, h4⟩ := schemaStructProp_preserve f env doc sch
                            field.name field.ty s3 d3 hsp
                          exact ⟨h1.trans h3, h2.trans h4⟩
                      · rw [if_neg hn] at h
                        exact ih env doc sch rest s2 d2 h
                    · by_cases hn : (field.name != "") = true
                      · rw [if_pos hn] at h
                        rcases hsp : schemaStructProp f env doc sch field.name field.ty
                          with _ | ⟨s3, d3⟩
                        · rw [hsp] at h; cases h
                        · rw [hsp] at h
                          simp only [Bind.bind, Except.bind] at h
                          obtain ⟨h1, h2⟩ := ih env d3 s3 rest s2 d2 h
                          obtain ⟨h3, h4⟩ := schemaStructProp_preserve f env doc sch
                            field.name field.ty s3 d3 hsp
                          exact ⟨h1.trans h3, h2.trans h4⟩
                      · rw [if_neg hn] at h
                        exact ih env doc sch rest s2 d2 h
                    · by_cases hn : (field.name != "") = true
                      · rw [if_pos hn] at h
                        rcases hsp : schemaStructProp f env doc sch field.name field.ty
                          with _ | ⟨s3, d3⟩
                        · rw [hsp] at h; cases h
                        · rw [hsp] at h
                          simp only [Bind.bind, Except.bind] at h
                          obtain ⟨h1, h2⟩ := ih env d3 s3 rest s2 d2 h
                          obtain ⟨h3, h4⟩ := schemaStructProp_preserve f env doc sch
                            field.name field.ty s3 d3 hsp
                          exact ⟨h1.trans h3, h2.trans h4⟩
                      · rw [if_neg hn] at h
                        exact ih env doc sch rest s2 d2 h
                    · rename_i innerFields
                      rcases hin : schemaStructProps f env doc sch innerFields
                        with _ | ⟨s3, d3⟩
                      · rw [hin] at h; cases h
                      · rw [hin] at h
                        simp only [Bind.bind, Except.bind] at h
                        obtain ⟨h1, h2⟩ := ih env d3 s3 rest s2 d2 h
                        obtain ⟨h3, h4⟩ := ih env doc sch innerFields s3 d3 hin
                        exact ⟨h1.trans h3, h2.trans h4⟩
                    · by_cases hn : (field.name != "") = true
                      · rw [if_pos hn] at h
                        rcases hsp : schemaStructProp f env doc sch field.name field.ty
                          with _ | ⟨s3, d3⟩
                        · rw [hsp] at h; cases h
                        · rw [hsp] at h
                          simp only [Bind.bind, Except.bind] at h
                          obtain ⟨h1, h2⟩ := ih env d3 s3 rest s2 d2 h
                          obtain ⟨h3, h4⟩ := schemaStructProp_preserve f env doc sch
                            field.name field.ty s3 d3 hsp
                          exact ⟨h1.trans h3, h2.trans h4⟩
                      · rw [if_neg hn] at h
                        exact ih env doc sch rest s2 d2 h
                    · by_cases hn : (field.name != "") = true
                      · rw [if_pos hn] at h
                        rcases hsp : schemaStructProp f env doc sch field.name field.ty
                          with _ | ⟨s3, d3⟩
                        · rw [hsp] at h; cases h
                        · rw [hsp] at h
                          simp only [Bind.bind, Except.bind] at h
                          obtain ⟨h1, h2⟩ := ih env d3 s3 rest s2 d2 h
                          obtain ⟨h3, h4⟩ := schemaStructProp_preserve f env doc sch
                            field.name field.ty s3 d3 hsp
                          exact ⟨h1.trans h3, h2.trans h4⟩
                      · rw [if_neg hn] at h
                        exact ih env doc sch rest s2 d2 h
                    · by_cases hn : (field.name != "") = true
                      · rw [if_pos hn] at h
                        rcases hsp : schemaStructProp f env doc sch field.name field.ty
                          with _ | ⟨s3, d3⟩
                        · rw [hsp] at h; cases h
                        · rw [hsp] at h
                          simp only [Bind.bind, Except.bind] at h
                          obtain ⟨h1, h2⟩ := ih env d3 s3 rest s2 d2 h
                          obtain ⟨h3, h4⟩ := schemaStructProp_preserve f env doc sch
                            field.name field.ty s3 d3 hsp
                          exact ⟨h1.trans h3, h2.trans h4⟩
                      · rw [if_neg hn] at h
                        exact ih env doc sch rest s2 d2 h
                    · by_cases hn : (field.name != "") = true
                      · rw [if_pos hn] at h
                        rcases hsp : schemaStructProp f env doc sch field.name field.ty
                          with _ | ⟨s3, d3⟩
                        · rw [hsp] at h; cases h
                        · rw [hsp] at h
                          simp only [Bind.bind, Except.bind] at h
                          obtain ⟨h1, h2⟩ := ih env d3 s3 rest s2 d2 h
                          obtain ⟨h3, h4⟩ := schemaStructProp_preserve f env doc sch
                            field.name field.ty s3 d3 hsp
                          exact ⟨h1.trans h3, h2.trans h4⟩
                      · rw [if_neg hn] at h
                        exact ih env doc sch rest s2 d2 h
              · rw [if_neg han] at h
                by_cases hn : (field.name != "") = true
                · rw [if_pos hn] at h
                  rcases hsp : schemaStructProp f env doc sch field.name field.ty
                    with _ | ⟨s3, d3⟩
                  · rw [hsp] at h; cases h
                  · rw [hsp] at h
                    simp only [Bind.bind, Except.bind] at h
                    obtain ⟨h1, h2⟩ := ih env d3 s3 rest s2 d2 h
                    obtain ⟨h3, h4⟩ := schemaStructProp_preserve f env doc sch
                      field.name field.ty s3 d3 hsp
                    exact ⟨h1.trans h3, h2.trans h4⟩
                · rw [if_neg hn] at h
                  exact ih env doc sch rest s2 d2 h
          · exact ih env doc sch rest s2 d2 h
      · rw [if_pos (by simp [hp])] at h
        exact ih env doc sch rest s2 d2 h

/-- Title after a title update. -/
theorem title_withTitle (s : Schema) (x : String) : (s.withTitle x).title = x := by
  cases s <;> rfl

/-- The `ref` field is untouched by an items update. -/
theorem ref_withItems (s : Schema) (v : Option Schema) : (s.withItems v).ref = s.ref := by
  cases s <;> rfl

/-- The `title` field is untouched by an items update. -/
theorem title_withItems (s : Schema) (v : Option Schema) :
    (s.withItems v).title = s.title := by
  cases s <;> rfl

/-- The `ref` field is untouched by an additional-properties update. -/
theorem ref_withAddProps (s : Schema) (v : Option Schema) :
    (s.withAddProps v).ref = s.ref := by
  cases s <;> rfl

/-- The `title` field is untouched by an additional-properties update. -/
theorem title_withAddProps (s : Schema) (v : Option Schema) :
    (s.withAddProps v).title = s.title := by
  cases s <;> rfl

/-- The `ref` field is untouched by a max-items update. -/
theorem ref_withMaxItems (s : Schema) (v : Nat) : (s.withMaxItems v).ref = s.ref := by
  cases s <;> rfl

/-- The `title` field is untouched by a max-items update. -/
theorem title_withMaxItems (s : Schema) (v : Nat) :
    (s.withMaxItems v).title = s.title := by
  cases s <;> rfl

/-- The `ref` field is untouched by a min-items update. -/
theorem ref_withMinItems (s : Schema) (v : Nat) : (s.withMinItems v).ref = s.ref := by
  cases s <;> rfl

/-- The `title` field is untouched by a min-items update. -/
theorem title_withMinItems (s : Schema) (v : Nat) :
    (s.withMinItems v).title = s.title := by
  cases s <;> rfl

/-- Well-formed environments: no named type's canonical name begins with
`*` (true of every legal Go identifier, qualified or not). -/
def envStarFree (env : GoEnv) : Prop :=
  ∀ n td, (n, td) ∈ env.defs → n.data.head? ≠ some '*'

/-- Names of non-pointer-kinded types never begin with `*` in a
star-free environment. -/
theorem star_of_resolve (env : GoEnv) (ty : Ty) (sh : TyShape)
    (henv : envStarFree env) (hres : resolveShape env ty = some sh)
    (hnp : ∀ u, sh ≠ TyShape.ptr u) :
    (tyString ty).data.head? ≠ some '*' := by
  cases ty with
  | prim k => cases k <;> simp [tyString, PrimKind.goName]
  | ptr t =>
    simp only [resolveShape, Option.some.injEq] at hres
    exact absurd hres.symm (hnp t)
  | arr n t => simp [tyString, String.data_append]
  | slice t => simp [tyString, String.data_append]
  | mapT k v => simp [tyString, String.data_append]
  | named n =>
    simp only [resolveShape, Option.map_eq_some'] at hres
    obtain ⟨td, htd, _⟩ := hres
    simp only [GoEnv.find, Option.map_eq_some'] at htd
    obtain ⟨pr, hpr, hsnd⟩ := htd
    have hmem := List.mem_of_find?_eq_some hpr
    have hkey := List.find?_some hpr
    simp only [decide_eq_true_eq] at hkey
    have := henv pr.1 pr.2 (by rw [← Prod.mk.eta (p := pr)] at hmem; exact hmem)
    rw [hkey] at this
    simpa [tyString] using this
  | chanT => simp [tyString]
  | funcT => simp [tyString]
  | ifaceT => simp [tyString]
  | uptrT => simp [tyString]

/-- Stronger environment well-formedness: a named type's canonical name
contains neither `*` nor `[` (true of every package-qualified Go
identifier; the brackets appear only in the printed forms of array, slice
and map types). -/
def envNamesOk (env : GoEnv) : Prop :=
  ∀ n td, (n, td) ∈ env.defs → ('*' ∉ n.data ∧ '[' ∉ n.data)

/-- A well-named environment is star-free. -/
theorem envStarFree_of_namesOk {env : GoEnv} (h : envNamesOk env) :
    envStarFree env := by
  intro n td hm hc
  obtain ⟨h1, _⟩ := h n td hm
  apply h1
  cases hd : n.data with
  | nil => rw [hd] at hc; cases hc
  | cons c cs =>
    rw [hd] at hc
    simp only [List.head?_cons, Option.some.injEq] at hc
    rw [hc]
    exact List.mem_cons_self _ _

/-- A resolvable named type's name obeys the environment's name rules. -/
theorem namesOk_of_resolve_named {env : GoEnv} {n : String} {sh : TyShape}
    (henv : envNamesOk env) (hres : resolveShape env (.named n) = some sh) :
    '*' ∉ n.data ∧ '[' ∉ n.data := by
  simp only [resolveShape, Option.map_eq_some'] at hres
  obtain ⟨td, htd, _⟩ := hres
  simp only [GoEnv.find, Option.map_eq_some'] at htd
  obtain ⟨pr, hpr, hsnd⟩ := htd
  have hmem := List.mem_of_find?_eq_some hpr
  have hkey := List.find?_some hpr
  simp only [decide_eq_true_eq] at hkey
  have := henv pr.1 pr.2 (by rw [← Prod.mk.eta (p := pr)] at hmem; exact hmem)
  rw [hkey] at this
  exact this

/-- Under a well-named environment, a pointer-kinded type's canonical name
never names a composite-kinded type: the keys the traversal binds are
disjoint from pointer names. -/
theorem ptr_name_ne_comp (env : GoEnv) (henv : envNamesOk env)
    (ty u : Ty) (hres : resolveShape env ty = some (.ptr u))
    (hck : CompKey env (tyString ty)) : False := by
  obtain ⟨ty2, sh2, heq, hres2, hcomp⟩ := hck
  cases ty with
  | prim k => simp [resolveShape] at hres
  | arr n t => simp [resolveShape] at hres
  | slice t => simp [resolveShape] at hres
  | mapT a b => simp [resolveShape] at hres
  | chanT => simp [resolveShape] at hres
  | funcT => simp [resolveShape] at hres
  | ifaceT => simp [resolveShape] at hres
  | uptrT => simp [resolveShape] at hres
  | ptr t =>
    cases ty2 with
    | prim k2 =>
      rw [show resolveShape env (.prim k2) = some (.prim k2) from rfl,
        Option.some.injEq] at hres2
      rw [← hres2] at hcomp
      cases hcomp
    | ptr t2 =>
      rw [show resolveShape env (.ptr t2) = some (.ptr t2) from rfl,
        Option.some.injEq] at hres2
      rw [← hres2] at hcomp
      cases hcomp
    | chanT =>
      rw [show resolveShape env Ty.chanT = some TyShape.chanS from rfl,
        Option.some.injEq] at hres2
      rw [← hres2] at hcomp
      cases hcomp
    | funcT =>
      rw [show resolveShape env Ty.funcT = some TyShape.funcS from rfl,
        Option.some.injEq] at hres2
      rw [← hres2] at hcomp
      cases hcomp
    | ifaceT =>
      rw [show resolveShape env Ty.ifaceT = some TyShape.ifaceS from rfl,
        Option.some.injEq] at hres2
      rw [← hres2] at hcomp
      cases hcomp
    | uptrT =>
      rw [show resolveShape env Ty.uptrT = some TyShape.uptrS from rfl,
        Option.some.injEq] at hres2
      rw [← hres2] at hcomp
      cases hcomp
    | named n2 =>
      obtain ⟨hstar2, _⟩ := namesOk_of_resolve_named henv hres2
      apply hstar2
      rw [show tyString (Ty.named n2) = n2 from rfl] at heq
      rw [heq]
      show '*' ∈ '*' :: (tyString t).data
      exact List.mem_cons_self _ _
    | arr n2 t2 =>
      have h1 : (tyString (Ty.ptr t)).data.head? = some '*' := rfl
      have h2 : (tyString (Ty.arr n2 t2)).data.head? = some '[' := rfl
      rw [← heq, h2] at h1
      exact absurd h1 (by decide)
    | slice t2 =>
      have h1 : (tyString (Ty.ptr t)).data.head? = some '*' := rfl
      have h2 : (tyString (Ty.slice t2)).data.head? = some '[' := rfl
      rw [← heq, h2] at h1
      exact absurd h1 (by decide)
    | mapT a2 b2 =>
      have h1 : (tyString (Ty.ptr t)).data.head? = some '*' := rfl
      have h2 : (tyString (Ty.mapT a2 b2)).data.head? = some 'm' := rfl
      rw [← heq, h2] at h1
      exact absurd h1 (by decide)
  | named n =>
    obtain ⟨_, hbr⟩ := namesOk_of_resolve_named henv hres
    rw [show tyString (Ty.named n) = n from rfl] at heq
    cases ty2 with
    | prim k2 =>
      rw [show resolveShape env (.prim k2) = some (.prim k2) from rfl,
        Option.some.injEq] at hres2
      rw [← hres2] at hcomp
      cases hcomp
    | ptr t2 =>
      rw [show resolveShape env (.ptr t2) = some (.ptr t2) from rfl,
        Option.some.injEq] at hres2
      rw [← hres2] at hcomp
      cases hcomp
    | chanT =>
      rw [show resolveShape env Ty.chanT = some TyShape.chanS from rfl,
        Option.some.injEq] at hres2
      rw [← hres2] at hcomp
      cases hcomp
    | funcT =>
      rw [show resolveShape env Ty.funcT = some TyShape.funcS from rfl,
        Option.some.injEq] at hres2
      rw [← hres2] at hcomp
      cases hcomp
    | ifaceT =>
      rw [show resolveShape env Ty.ifaceT = some TyShape.ifaceS from rfl,
        Option.some.injEq] at hres2
      rw [← hres2] at hcomp
      cases hcomp
    | uptrT =>
      rw [show resolveShape env Ty.uptrT = some TyShape.uptrS from rfl,
        Option.some.injEq] at hres2
      rw [← hres2] at hcomp
      cases hcomp
    | named n2 =>
      rw [show tyString (Ty.named n2) = n2 from rfl] at heq
      rw [heq] at hres2
      rw [hres, Option.some.injEq] at hres2
      rw [← hres2] at hcomp
      cases hcomp
    | arr n2 t2 =>
      apply hbr
      rw [← heq]
      show '[' ∈ (("[" ++ toString n2 ++ "]").data) ++ (tyString t2).data
      exact List.mem_append_left _ (List.mem_append_left _
        (List.mem_append_left _ (by decide)))
    | slice t2 =>
      apply hbr
      rw [← heq]
      show '[' ∈ '[' :: ']' :: (tyString t2).data
      exact List.mem_cons_self _ _
    | mapT a2 b2 =>
      apply hbr
      rw [← heq]
      have h0 : '[' ∈ "map[".data := by decide
      rw [show tyString (Ty.mapT a2 b2) =
        "map[" ++ tyString a2 ++ "]" ++ tyString b2 from rfl,
        String.data_append, String.data_append, String.data_append]
      exact List.mem_append_left _ (List.mem_append_left _
        (List.mem_append_left _ h0))

/-- Growth step for filling a reserved key that was absent from the
original registry. -/
theorem docStep_fill {env : GoEnv} (doc d2 : Doc) (name : String) (body : Schema)
    (h1 : docStep env doc d2) (habs : findSchema doc name = none)
    (hstar : CompKey env name) :
    docStep env doc (putSchema d2 name body) := by
  constructor
  · intro k v hk
    have hkn : k ≠ name := fun he => by rw [he, habs] at hk; cases hk
    rw [findSchema_putSchema_other _ _ _ _ hkn]
    exact h1.1 k v hk
  · intro k v hk
    by_cases hkn : k = name
    · subst hkn; exact Or.inr hstar
    · rw [findSchema_putSchema_other _ _ _ _ hkn] at hk
      exact h1.2 k v hk

/-- The registry-growth induction package: every traversal entry point only
adds bindings whose keys do not begin with `*`, preserves existing
bindings, and — for the composite branch functions — converts the schema to
a reference while leaving the filled, non-reference component body behind. -/
def GrowP (fuel : Nat) : Prop :=
  (∀ env doc sch oty s d, envStarFree env →
    schemaAny fuel env doc sch oty = .ok (s, d) → docStep env doc d) ∧
  (∀ env doc sch ty s d, envStarFree env →
    (tyString ty ≠ "" → sch.title = tyString ty) →
    schemaKind fuel env doc sch ty = .ok (s, d) → docStep env doc d) ∧
  (∀ env doc sch ty t s d, envStarFree env →
    schemaPtr fuel env doc sch ty t = .ok (s, d) → docStep env doc d) ∧
  (∀ env doc sch ty n t s d, envStarFree env →
    (tyString ty ≠ "" → sch.title = tyString ty) →
    CompKey env (tyString ty) →
    schemaArray fuel env doc sch ty n t = .ok (s, d) →
    docStep env doc d ∧ sch.ref = "" ∧ s = refOf (tyString ty) ∧
      ∃ body, findSchema d (tyString ty) = some body ∧ body.ref = "") ∧
  (∀ env doc sch ty t s d, envStarFree env →
    (tyString ty ≠ "" → sch.title = tyString ty) →
    CompKey env (tyString ty) →
    schemaSlice fuel env doc sch ty t = .ok (s, d) →
    docStep env doc d ∧ sch.ref = "" ∧ s = refOf (tyString ty) ∧
      ∃ body, findSchema d (tyString ty) = some body ∧ body.ref = "") ∧
  (∀ env doc sch ty kt vt s d, envStarFree env →
    (tyString ty ≠ "" → sch.title = tyString ty) →
    CompKey env (tyString ty) →
    schemaMap fuel env doc sch ty kt vt = .ok (s, d) →
    docStep env doc d ∧ sch.ref = "" ∧ s = refOf (tyString ty) ∧
      ∃ body, findSchema d (tyString ty) = some body ∧ body.ref = "") ∧
  (∀ env doc sch ty fields s d, envStarFree env →
    (tyString ty ≠ "" → sch.title = tyString ty) →
    CompKey env (tyString ty) →
    schemaStruct fuel env doc sch ty fields = .ok (s, d) →
    docStep env doc d ∧ sch.ref = "" ∧ s = refOf (tyString ty) ∧
      ∃ body, findSchema d (tyString ty) = some body ∧ body.ref = "") ∧
  (∀ env doc sch fields s d, envStarFree env →
    schemaStructProps fuel env doc sch fields = .ok (s, d) → docStep env doc d) ∧
  (∀ env doc sch nm ty s d, envStarFree env →
    schemaStructProp fuel env doc sch nm ty = .ok (s, d) → docStep env doc d)

/-- Every traversal entry point satisfies the registry-growth package. -/
theorem grow_all : ∀ fuel : Nat, GrowP fuel := by
  intro fuel
  induction fuel with
  | zero =>
    refine ⟨?_, ?_, ?_, ?_, ?_, ?_, ?_, ?_, ?_⟩
    · intro env doc sch oty s d _ h; cases h
    · intro env doc sch ty s d _ _ h; cases h
    · intro env doc sch ty t s d _ h; cases h
    · intro env doc sch ty n t s d _ _ _ h; cases h
    · intro env doc sch ty t s d _ _ _ h; cases h
    · intro env doc sch ty kt vt s d _ _ _ h; cases h
    · intro env doc sch ty fields s d _ _ _ h; cases h
    · intro env doc sch fields s d _ h; cases h
    · intro env doc sch nm ty s d _ h; cases h
  | succ f ih =>
    obtain ⟨ihA, ihK, ihP, ihArr, ihSl, ihM, ihSt, ihPs, ihPr⟩ := ih
    refine ⟨?_, ?_, ?_, ?_, ?_, ?_, ?_, ?_, ?_⟩
    · -- schemaAny
      intro env doc sch oty s d henv h
      cases oty with
      | none =>
        rw [schemaAny] at h
        rcases hn : sch.nullableE with _ | s2 <;> rw [hn] at h <;>
          simp only [Bind.bind, Except.bind] at h
        · cases h
        · cases h; exact docStep_refl doc
      | some ty =>
        rw [schemaAny] at h
        rcases hg : gotCompSchema doc (tyString ty) with _ | hit <;> rw [hg] at h <;>
          simp only [Bind.bind, Except.bind] at h
        · cases h
        · cases hit with
          | some b =>
            rcases hsr : sch.setRefE (tyString ty) with _ | s2 <;> rw [hsr] at h <;>
              simp only [Bind.bind, Except.bind] at h
            · cases h
            · cases h; exact docStep_refl doc
          | none =>
            rcases hi : schemaIfaces f env (schemaCommon sch ty) ty with _ | r <;>
              rw [hi] at h <;> simp only [Bind.bind, Except.bind] at h
            · cases h
            · obtain ⟨bb, s2⟩ := r
              dsimp only at h
              by_cases hb : bb = true
              · rw [if_pos hb] at h; cases h; exact docStep_refl doc
              · rw [if_neg hb] at h
                refine ihK env doc s2 ty s d henv ?_ h
                intro hne
                obtain ⟨_, ht⟩ := schemaIfaces_preserve f env (schemaCommon sch ty)
                  ty bb s2 hi
                rw [ht]
                simp [schemaCommon, schemaTitle, hne, title_withTitle]
    · -- schemaKind
      intro env doc sch ty s d henv hti h
      rw [schemaKind] at h
      rcases hres : resolveShape env ty with _ | sh <;> rw [hres] at h
      · cases h
      · cases sh with
        | prim k => cases k <;> (cases h; exact docStep_refl doc)
        | ptr t => exact ihP env doc sch ty t s d henv h
        | arr n t =>
          have hstar : CompKey env (tyString ty) := ⟨ty, _, rfl, hres, rfl⟩
          exact (ihArr env doc sch ty n t s d henv hti hstar h).1
        | slice t =>
          have hstar : CompKey env (tyString ty) := ⟨ty, _, rfl, hres, rfl⟩
          exact (ihSl env doc sch ty t s d henv hti hstar h).1
        | mapS kt vt =>
          have hstar : CompKey env (tyString ty) := ⟨ty, _, rfl, hres, rfl⟩
          exact (ihM env doc sch ty kt vt s d henv hti hstar h).1
        | structS fields =>
          have hstar : CompKey env (tyString ty) := ⟨ty, _, rfl, hres, rfl⟩
          exact (ihSt env doc sch ty fields s d henv hti hstar h).1
        | chanS => cases h
        | funcS => cases h
        | ifaceS => cases h
        | uptrS => cases h
    · -- schemaPtr
      intro env doc sch ty t s d henv h
      rw [schemaPtr] at h
      rcases ha : schemaAny f env doc sch (some t) with _ | r <;> rw [ha] at h <;>
        simp only [Bind.bind, Except.bind] at h
      · cases h
      · obtain ⟨s1, d1⟩ := r
        have hstep := ihA env doc sch (some t) s1 d1 henv ha
        dsimp only at h
        by_cases hr : s1.ref = ""
        · rw [if_pos hr] at h
          rcases hn : (s1.withTitle (tyString ty)).nullableE with _ | s2 <;>
            rw [hn] at h <;> simp only [Bind.bind, Except.bind] at h
          · cases h
          · cases h; exact hstep
        · rw [if_neg hr] at h
          rcases hg : gotSchema d1 s1.ref with _ | tar <;> rw [hg] at h <;>
            simp only [Bind.bind, Except.bind] at h
          · cases h
          · cases tar with
            | none => cases h
            | some tar =>
              dsimp only at h
              by_cases hnl : tar.isNullable = true
              · rw [if_pos hnl] at h; cases h; exact hstep
              · rw [if_neg hnl] at h; cases h; exact hstep
    · -- schemaArray
      intro env doc sch ty n t s d henv hti hstar h
      rw [schemaArray] at h
      rcases hset : setSchema doc (tyString ty) Schema.empty with _ | docR <;>
        rw [hset] at h <;> simp only [Bind.bind, Except.bind] at h
      · cases h
      · obtain ⟨hne, habs, hputR⟩ := setSchema_ok doc docR (tyString ty) Schema.empty hset
        rcases ha : schemaAny f env docR Schema.empty (some t) with _ | r <;>
          rw [ha] at h <;> simp only [Bind.bind, Except.bind] at h
        · cases h
        · obtain ⟨items, d2⟩ := r
          have hstepR := ihA env docR Schema.empty (some t) items d2 henv ha
          dsimp only at h
          have hbt : (((sch.withMaxItems n).withMinItems n).withItems
              (some items)).title = tyString ty := by
            rw [title_withItems, title_withMinItems, title_withMaxItems]
            exact hti hne
          have hbr : (((sch.withMaxItems n).withMinItems n).withItems
              (some items)).ref = sch.ref := by
            rw [ref_withItems, ref_withMinItems, ref_withMaxItems]
          unfold outlineSchema addSchema at h
          have hvt : (((sch.withMaxItems n).withMinItems n).withItems
              (some items)).validTitleE = .ok (tyString ty) := by
            unfold Schema.validTitleE
            rw [hbt]
            simp [hne]
          rw [hvt] at h
          simp only [Bind.bind, Except.bind] at h
          unfold Schema.setRefE at h
          rw [if_neg hne, hbr] at h
          by_cases hrr : sch.ref = ""
          · rw [hrr] at h
            simp only [bne_self_eq_false, Bool.false_eq_true, if_false] at h
            cases h
            have hd0 : docStep env doc docR := hputR ▸ docStep_put doc _ _ habs hstar
            refine ⟨docStep_fill doc d2 _ _ (docStep_trans hd0 hstepR) habs hstar,
              hrr, rfl, _, findSchema_putSchema_self .., by rw [hbr, hrr]⟩
          · rw [if_pos (by simpa using hrr)] at h
            cases h
    · -- schemaSlice
      intro env doc sch ty t s d henv hti hstar h
      rw [schemaSlice] at h
      rcases hset : setSchema doc (tyString ty) Schema.empty with _ | docR <;>
        rw [hset] at h <;> simp only [Bind.bind, Except.bind] at h
      · cases h
      · obtain ⟨hne, habs, hputR⟩ := setSchema_ok doc docR (tyString ty) Schema.empty hset
        rcases ha : schemaAny f env docR Schema.empty (some t) with _ | r <;>
          rw [ha] at h <;> simp only [Bind.bind, Except.bind] at h
        · cases h
        · obtain ⟨items, d2⟩ := r
          have hstepR := ihA env docR Schema.empty (some t) items d2 henv ha
          dsimp only at h
          have hbt : ((sch.withTyp [TypeArr, TypeNull]).withItems
              (some items)).title = tyString ty := by
            rw [title_withItems, title_withTyp]
            exact hti hne
          have hbr : ((sch.withTyp [TypeArr, TypeNull]).withItems
              (some items)).ref = sch.ref := by
            rw [ref_withItems, ref_withTyp]
          unfold outlineSchema addSchema at h
          have hvt : ((sch.withTyp [TypeArr, TypeNull]).withItems
              (some items)).validTitleE = .ok (tyString ty) := by
            unfold Schema.validTitleE
            rw [hbt]
            simp [hne]
          rw [hvt] at h
          simp only [Bind.bind, Except.bind] at h
          unfold Schema.setRefE at h
          rw [if_neg hne, hbr] at h
          by_cases hrr : sch.ref = ""
          · rw [hrr] at h
            simp only [bne_self_eq_false, Bool.false_eq_true, if_false] at h
            cases h
            have hd0 : docStep env doc docR := hputR ▸ docStep_put doc _ _ habs hstar
            refine ⟨docStep_fill doc d2 _ _ (docStep_trans hd0 hstepR) habs hstar,
              hrr, rfl, _, findSchema_putSchema_self .., by rw [hbr, hrr]⟩
          · rw [if_pos (by simpa using hrr)] at h
            cases h
    · -- schemaMap
      intro env doc sch ty kt vt s d henv hti hstar h
      rw [schemaMap] at h
      rcases hset : setSchema doc (tyString ty) Schema.empty with _ | docR <;>
        rw [hset] at h <;> simp only [Bind.bind, Except.bind] at h
      · cases h
      · obtain ⟨hne, habs, hputR⟩ := setSchema_ok doc docR (tyString ty) Schema.empty hset
        have hd0 : docStep env doc docR := hputR ▸ docStep_put doc _ _ habs hstar
        rcases hsk : isTypeSkippable f env (some vt) with _ | bb <;> rw [hsk] at h
        · cases h
        · cases bb
          · -- representable value type
            rcases hk : schemaAny f env docR Schema.empty (some kt) with _ | rk <;>
              rw [hk] at h <;> simp only [Bind.bind, Except.bind] at h
            · cases h
            · obtain ⟨keySch, dk⟩ := rk
              have hstepK := ihA env docR Schema.empty (some kt) keySch dk henv hk
              dsimp only at h
              by_cases hks : keySch.typeIs [TypeStr] = true
              · rw [if_pos hks] at h
                rcases hv : schemaAny f env dk Schema.empty (some vt) with _ | rv <;>
                  rw [hv] at h <;> simp only [Bind.bind, Except.bind] at h
                · cases h
                · obtain ⟨valSch, dv⟩ := rv
                  have hstepV := ihA env dk Schema.empty (some vt) valSch dv henv hv
                  dsimp only at h
                  have hbt : ((sch.withTyp [TypeObj, TypeNull]).withAddProps
                      (some valSch)).title = tyString ty := by
                    rw [title_withAddProps, title_withTyp]
                    exact hti hne
                  have hbr : ((sch.withTyp [TypeObj, TypeNull]).withAddProps
                      (some valSch)).ref = sch.ref := by
                    rw [ref_withAddProps, ref_withTyp]
                  unfold outlineSchema addSchema at h
                  have hvt : ((sch.withTyp [TypeObj, TypeNull]).withAddProps
                      (some valSch)).validTitleE = .ok (tyString ty) := by
                    unfold Schema.validTitleE
                    rw [hbt]
                    simp [hne]
                  rw [hvt] at h
                  simp only [Bind.bind, Except.bind] at h
                  unfold Schema.setRefE at h
                  rw [if_neg hne, hbr] at h
                  by_cases hrr : sch.ref = ""
                  · rw [hrr] at h
                    simp only [bne_self_eq_false, Bool.false_eq_true, if_false] at h
                    cases h
                    refine ⟨docStep_fill doc dv _ _
                      (docStep_trans hd0 (docStep_trans hstepK hstepV)) habs hstar,
                      hrr, rfl, _, findSchema_putSchema_self .., by rw [hbr, hrr]⟩
                  · rw [if_pos (by simpa using hrr)] at h
                    cases h
              · rw [if_neg hks] at h
                cases h
          · -- skippable value type
            rcases hnl : (sch.withTyp [TypeObj, TypeNull]).nullableE with _ | s2 <;>
              rw [hnl] at h <;> simp only [Bind.bind, Except.bind] at h
            · cases h
            · obtain ⟨hs2r, hs2t⟩ := nullableE_preserve _ _ hnl
              have hbt : s2.title = tyString ty := by
                rw [hs2t, title_withTyp]
                exact hti hne
              have hbr : s2.ref = sch.ref := by
                rw [hs2r, ref_withTyp]
              unfold outlineSchema addSchema at h
              have hvt : s2.validTitleE = .ok (tyString ty) := by
                unfold Schema.validTitleE
                rw [hbt]
                simp [hne]
              rw [hvt] at h
              simp only [Bind.bind, Except.bind] at h
              unfold Schema.setRefE at h
              rw [if_neg hne, hbr] at h
              by_cases hrr : sch.ref = ""
              · rw [hrr] at h
                simp only [bne_self_eq_false, Bool.false_eq_true, if_false] at h
                cases h
                refine ⟨docStep_fill doc docR _ _ hd0 habs hstar,
                  hrr, rfl, _, findSchema_putSchema_self .., by rw [hbr, hrr]⟩
              · rw [if_pos (by simpa using hrr)] at h
                cases h
    · -- schemaStruct
      intro env doc sch ty fields s d henv hti hstar h
      rw [schemaStruct] at h
      rcases hset : setSchema doc (tyString ty) Schema.empty with _ | docR <;>
        rw [hset] at h <;> simp only [Bind.bind, Except.bind] at h
      · cases h
      · obtain ⟨hne, habs, hputR⟩ := setSchema_ok doc docR (tyString ty) Schema.empty hset
        have hd0 : docStep env doc docR := hputR ▸ docStep_put doc _ _ habs hstar
        rcases hps : schemaStructProps f env docR (sch.withTyp [TypeObj]) fields
          with _ | r <;> rw [hps] at h <;> simp only [Bind.bind, Except.bind] at h
        · cases h
        · obtain ⟨s2, d2⟩ := r
          have hstepR := ihPs env docR (sch.withTyp [TypeObj]) fields s2 d2 henv hps
          obtain ⟨hs2r, hs2t⟩ := schemaStructProps_preserve f env docR
            (sch.withTyp [TypeObj]) fields s2 d2 hps
          dsimp only at h
          have hbt : s2.title = tyString ty := by
            rw [hs2t, title_withTyp]
            exact hti hne
          have hbr : s2.ref = sch.ref := by
            rw [hs2r, ref_withTyp]
          unfold outlineSchema addSchema at h
          have hvt : s2.validTitleE = .ok (tyString ty) := by
            unfold Schema.validTitleE
            rw [hbt]
            simp [hne]
          rw [hvt] at h
          simp only [Bind.bind, Except.bind] at h
          unfold Schema.setRefE at h
          rw [if_neg hne, hbr] at h
          by_cases hrr : sch.ref = ""
          · rw [hrr] at h
            simp only [bne_self_eq_false, Bool.false_eq_true, if_false] at h
            cases h
            refine ⟨docStep_fill doc d2 _ _ (docStep_trans hd0 hstepR) habs hstar,
              hrr, rfl, _, findSchema_putSchema_self .., by rw [hbr, hrr]⟩
          · rw [if_pos (by simpa using hrr)] at h
            cases h
    · -- schemaStructProps
      intro env doc sch fields s d henv h
      match fields with
      | [] =>
        simp only [schemaStructProps, Except.ok.injEq, Prod.mk.injEq] at h
        rw [← h.2]
        exact docStep_refl doc
      | field :: rest =>
        rw [schemaStructProps] at h
        by_cases hp : isPublic field.pkgPath
        · rw [if_neg (by simp [hp])] at h
          rcases hs : isTypeSkippable f env (some field.ty) with _ | bb <;>
            rw [hs] at h
          · cases h
          · cases bb
            · dsimp only at h
              by_cases hj : (jsonName field != "") = true
              · rw [if_pos hj] at h
                rcases hsp : schemaStructProp f env doc sch (jsonName field) field.ty
                  with _ | ⟨s3, d3⟩ <;> rw [hsp] at h <;>
                  simp only [Bind.bind, Except.bind] at h
                · cases h
                · exact docStep_trans (ihPr env doc sch (jsonName field) field.ty
                    s3 d3 henv hsp) (ihPs env d3 s3 rest s d henv h)
              · rw [if_neg hj] at h
                by_cases han : field.anonymous = true
                · rw [if_pos han] at h
                  rcases htd : typeDeref f env field.ty with _ | inner <;>
                    rw [htd] at h
                  · cases h
                  · dsimp only at h
                    rcases hri : resolveShape env inner with _ | ish
                    · rw [hri] at h
                      dsimp only at h
                      by_cases hn : (field.name != "") = true
                      · rw [if_pos hn] at h
                        rcases hsp : schemaStructProp f env doc sch field.name field.ty
                          with _ | ⟨s3, d3⟩ <;> rw [hsp] at h <;>
                          simp only [Bind.bind, Except.bind] at h
                        · cases h
                        · exact docStep_trans (ihPr env doc sch field.name field.ty s3 d3 henv hsp)
                            (ihPs env d3 s3 rest s d henv h)
                      · rw [if_neg hn] at h
                        exact ihPs env doc sch rest s d henv h
                    · cases ish
                      all_goals rw [hri] at h
                      all_goals dsimp only at h
                      · by_cases hn : (field.name != "") = true
                        · rw [if_pos hn] at h
                          rcases hsp : schemaStructProp f env doc sch field.name field.ty
                            with _ | ⟨s3, d3⟩ <;> rw [hsp] at h <;>
                            simp only [Bind.bind, Except.bind] at h
                          · cases h
                          · exact docStep_trans (ihPr env doc sch field.name field.ty s3 d3 henv hsp)
                              (ihPs env d3 s3 rest s d henv h)
                        · rw [if_neg hn] at h
                          exact ihPs env doc sch rest s d henv h
                      · by_cases hn : (field.name != "") = true
                        · rw [if_pos hn] at h
                          rcases hsp : schemaStructProp f env doc sch field.name field.ty
                            with _ | ⟨s3, d3⟩ <;> rw [hsp] at h <;>
                            simp only [Bind.bind, Except.bind] at h
                          · cases h
                          · exact docStep_trans (ihPr env doc sch field.name field.ty s3 d3 henv hsp)
                              (ihPs env d3 s3 rest s d henv h)
                        · rw [if_neg hn] at h
                          exact ihPs env doc sch rest s d henv h
                      · by_cases hn : (field.name != "") = true
                        · rw [if_pos hn] at h
                          rcases hsp : schemaStructProp f env doc sch field.name field.ty
                            with _ | ⟨s3, d3⟩ <;> rw [hsp] at h <;>
                            simp only [Bind.bind, Except.bind] at h
                          · cases h
                          · exact docStep_trans (ihPr env doc sch field.name field.ty s3 d3 henv hsp)
                              (ihPs env d3 s3 rest s d henv h)
                        · rw [if_neg hn] at h
                          exact ihPs env doc sch rest s d henv h
                      · by_cases hn : (field.name != "") = true
                        · rw [if_pos hn] at h
                          rcases hsp : schemaStructProp f env doc sch field.name field.ty
                            with _ | ⟨s3, d3⟩ <;> rw [hsp] at h <;>
                            simp only [Bind.bind, Except.bind] at h
                          · cases h
                          · exact docStep_trans (ihPr env doc sch field.name field.ty s3 d3 henv hsp)
                              (ihPs env d3 s3 rest s d henv h)
                        · rw [if_neg hn] at h
                          exact ihPs env doc sch rest s d henv h
                      · by_cases hn : (field.name != "") = true
                        · rw [if_pos hn] at h
                          rcases hsp : schemaStructProp f env doc sch field.name field.ty
                            with _ | ⟨s3, d3⟩ <;> rw [hsp] at h <;>
                            simp only [Bind.bind, Except.bind] at h
                          · cases h
                          · exact docStep_trans (ihPr env doc sch field.name field.ty s3 d3 henv hsp)
                              (ihPs env d3 s3 rest s d henv h)
                        · rw [if_neg hn] at h
                          exact ihPs env doc sch rest s d henv h
                      · rename_i innerFields
                        rcases hin : schemaStructProps f env doc sch innerFields
                          with _ | ⟨s3, d3⟩ <;> rw [hin] at h <;>
                          simp only [Bind.bind, Except.bind] at h
                        · cases h
                        · exact docStep_trans (ihPs env doc sch innerFields s3 d3 henv hin)
                            (ihPs env d3 s3 rest s d henv h)
                      · by_cases hn : (field.name != "") = true
                        · rw [if_pos hn] at h
                          rcases hsp : schemaStructProp f env doc sch field.name field.ty
                            with _ | ⟨s3, d3⟩ <;> rw [hsp] at h <;>
                            simp only [Bind.bind, Except.bind] at h
                          · cases h
                          · exact docStep_trans (ihPr env doc sch field.name field.ty s3 d3 henv hsp)
                              (ihPs env d3 s3 rest s d henv h)
                        · rw [if_neg hn] at h
                          exact ihPs env doc sch rest s d henv h
                      · by_cases hn : (field.name != "") = true
                        · rw [if_pos hn] at h
                          rcases hsp : schemaStructProp f env doc sch field.name field.ty
                            with _ | ⟨s3, d3⟩ <;> rw [hsp] at h <;>
                            simp only [Bind.bind, Except.bind] at h
                          · cases h
                          · exact docStep_trans (ihPr env doc sch field.name field.ty s3 d3 henv hsp)
                              (ihPs env d3 s3 rest s d henv h)
                        · rw [if_neg hn] at h
                          exact ihPs env doc sch rest s d henv h
                      · by_cases hn : (field.name != "") = true
                        · rw [if_pos hn] at h
                          rcases hsp : schemaStructProp f env doc sch field.name field.ty
                            with _ | ⟨s3, d3⟩ <;> rw [hsp] at h <;>
                            simp only [Bind.bind, Except.bind] at h
                          · cases h
                          · exact docStep_trans (ihPr env doc sch field.name field.ty s3 d3 henv hsp)
                              (ihPs env d3 s3 rest s d henv h)
                        · rw [if_neg hn] at h
                          exact ihPs env doc sch rest s d henv h
                      · by_cases hn : (field.name != "") = true
                        · rw [if_pos hn] at h
                          rcases hsp : schemaStructProp f env doc sch field.name field.ty
                            with _ | ⟨s3, d3⟩ <;> rw [hsp] at h <;>
                            simp only [Bind.bind, Except.bind] at h
                          · cases h
                          · exact docStep_trans (ihPr env doc sch field.name field.ty s3 d3 henv hsp)
                              (ihPs env d3 s3 rest s d henv h)
                        · rw [if_neg hn] at h
                          exact ihPs env doc sch rest s d henv h
                · rw [if_neg han] at h
                  by_cases hn : (field.name != "") = true
                  · rw [if_pos hn] at h
                    rcases hsp : schemaStructProp f env doc sch field.name field.ty
                      with _ | ⟨s3, d3⟩ <;> rw [hsp] at h <;>
                      simp only [Bind.bind, Except.bind] at h
                    · cases h
                    · exact docStep_trans (ihPr env doc sch field.name field.ty s3 d3 henv hsp)
                        (ihPs env d3 s3 rest s d henv h)
                  · rw [if_neg hn] at h
                    exact ihPs env doc sch rest s d henv h
            · dsimp only at h
              exact ihPs env doc sch rest s d henv h
        · rw [if_pos (by simp [hp])] at h
          exact ihPs env doc sch rest s d henv h
    · -- schemaStructProp
      intro env doc sch nm ty s d henv h
      rw [schemaStructProp] at h
      rcases ha : schemaAny f env doc Schema.empty (some ty) with _ | r <;>
        rw [ha] at h <;> simp only [Bind.bind, Except.bind] at h
      · cases h
      · obtain ⟨v, d3⟩ := r
        have := ihA env doc Schema.empty (some ty) v d3 henv ha
        cases h
        exact this

/-- Lookup emptiness transfers backwards along registry growth. -/
theorem none_of_docStep {env : GoEnv} {doc d : Doc} {m : String}
    (h : docStep env doc d)
    (hn : findSchema d m = none) : findSchema doc m = none := by
  cases hf : findSchema doc m with
  | none => rfl
  | some v => rw [h.1 m v hf] at hn; cases hn

/-- The only panic of `Schema.Nullable` is the reference panic. -/
theorem nullableE_err (s : Schema) (e : Err) (h : s.nullableE = .error e) :
    e = .nullableRef := by
  unfold Schema.nullableE at h
  split at h
  · cases h; rfl
  · split at h <;> cases h

/-- JSON-output inspection never raises the map-key error. -/
theorem jsonInspect_err (sch : Schema) (val : String) (e : Err)
    (h : schemaJsonInspect sch val = .error e) :
    ∀ m k, e ≠ .unsupportedMapKey m k := by
  unfold schemaJsonInspect at h
  dsimp only at h
  split at h
  · rcases hn : sch.nullableE with _ | s2 <;> rw [hn] at h <;>
      simp only [Bind.bind, Except.bind] at h
    · cases h; rw [nullableE_err _ _ hn]; intro m k hc; cases hc
    · cases h
  · split at h
    · cases h
    · split at h
      · cases h
      · split at h <;> cases h

/-- Probing one value never raises the map-key error. -/
theorem jsonVal_err (env : GoEnv) (sch : Schema) (ty : Ty) (v : GoVal) (e : Err)
    (h : schemaJsonVal env sch ty v = .error e) :
    ∀ m k, e ≠ .unsupportedMapKey m k := by
  unfold schemaJsonVal at h
  split at h
  · cases h
  · exact jsonInspect_err _ _ _ h

/-- The JSON classifier never raises the map-key error. -/
theorem ifaceJson_err : ∀ (fuel : Nat) (env : GoEnv) (sch : Schema) (ty : Ty)
    (e : Err), schemaIfaceJson fuel env sch ty = .error e →
    ∀ m k, e ≠ .unsupportedMapKey m k := by
  intro fuel
  induction fuel with
  | zero =>
    intro env sch ty e h m k
    cases h
    intro hc; cases hc
  | succ f ih =>
    intro env sch ty e h m k
    rw [schemaIfaceJson] at h
    split at h
    · cases h; intro hc; cases hc
    · exact ih _ _ _ _ h m k
    · split at h
      · cases h; intro hc; cases hc
      · split at h
        · cases h; intro hc; cases hc
        · rcases hp : schemaJsonVal env sch _ _ with _ | ⟨b1, s1⟩ <;> rw [hp] at h <;>
            simp only [Bind.bind, Except.bind] at h
          · cases h; exact jsonVal_err _ _ _ _ _ hp m k
          · split at h
            · cases h
            · split at h
              · cases h; intro hc; cases hc
              · cases h
              · exact jsonVal_err _ _ _ _ _ h m k

/-- The text classifier never raises the map-key error. -/
theorem ifaceText_err : ∀ (fuel : Nat) (env : GoEnv) (sch : Schema) (ty : Ty)
    (e : Err), schemaIfaceText fuel env sch ty = .error e →
    ∀ m k, e ≠ .unsupportedMapKey m k := by
  intro fuel
  induction fuel with
  | zero =>
    intro env sch ty e h m k
    cases h
    intro hc; cases hc
  | succ f ih =>
    intro env sch ty e h m k
    rw [schemaIfaceText] at h
    split at h
    · cases h; intro hc; cases hc
    · exact ih _ _ _ _ h m k
    · split at h
      · cases h; intro hc; cases hc
      · dsimp only at h
        split at h
        · cases h
        · split at h
          · cases h; intro hc; cases hc
          · cases h
          · split at h
            · cases h; intro hc; cases hc
            · cases h
            · cases h

/-- The capability dispatcher never raises the map-key error. -/
theorem ifaces_err (fuel : Nat) (env : GoEnv) (sch : Schema) (ty : Ty) (e : Err)
    (h : schemaIfaces fuel env sch ty = .error e) :
    ∀ m k, e ≠ .unsupportedMapKey m k := by
  unfold schemaIfaces at h
  split at h
  · exact ifaceJson_err _ _ _ _ _ h
  · split at h
    · exact ifaceText_err _ _ _ _ _ h
    · cases h

/-- The map-key error package: whenever any traversal entry point fails
with `unsupported-map-key`, the offending map's canonical name was absent
from the entry registry — the error always originates in a map whose name
was reserved only after the lookup miss. -/
def MapKeyP (fuel : Nat) : Prop :=
  (∀ env doc sch oty m k, envStarFree env →
    schemaAny fuel env doc sch oty = .error (.unsupportedMapKey m k) →
    findSchema doc m = none) ∧
  (∀ env doc sch ty m k, envStarFree env →
    schemaKind fuel env doc sch ty = .error (.unsupportedMapKey m k) →
    findSchema doc m = none) ∧
  (∀ env doc sch ty t m k, envStarFree env →
    schemaPtr fuel env doc sch ty t = .error (.unsupportedMapKey m k) →
    findSchema doc m = none) ∧
  (∀ env doc sch ty n t m k, envStarFree env →
    schemaArray fuel env doc sch ty n t = .error (.unsupportedMapKey m k) →
    findSchema doc m = none) ∧
  (∀ env doc sch ty t m k, envStarFree env →
    schemaSlice fuel env doc sch ty t = .error (.unsupportedMapKey m k) →
    findSchema doc m = none) ∧
  (∀ env doc sch ty kt vt m k, envStarFree env →
    schemaMap fuel env doc sch ty kt vt = .error (.unsupportedMapKey m k) →
    findSchema doc m = none) ∧
  (∀ env doc sch ty fields m k, envStarFree env →
    schemaStruct fuel env doc sch ty fields = .error (.unsupportedMapKey m k) →
    findSchema doc m = none) ∧
  (∀ env doc sch fields m k, envStarFree env →
    schemaStructProps fuel env doc sch fields = .error (.unsupportedMapKey m k) →
    findSchema doc m = none) ∧
  (∀ env doc sch nm ty m k, envStarFree env →
    schemaStructProp fuel env doc sch nm ty = .error (.unsupportedMapKey m k) →
    findSchema doc m = none)

/-- Registry lookup with the reference check only raises the
unexpected-reference panic. -/
theorem gotCompSchema_err (doc : Doc) (name : String) (e : Err)
    (h : gotCompSchema doc name = .error e) :
    ∀ m k, e ≠ .unsupportedMapKey m k := by
  unfold gotCompSchema at h
  split at h
  · cases h
  · split at h
    · cases h; intro m k hc; cases hc
    · cases h

/-- Reference-path resolution never raises the map-key error. -/
theorem gotSchema_err (doc : Doc) (p : String) (e : Err)
    (h : gotSchema doc p = .error e) :
    ∀ m k, e ≠ .unsupportedMapKey m k := by
  unfold gotSchema at h
  split at h
  · exact gotCompSchema_err _ _ _ h
  · cases h; intro m k hc; cases hc

/-- `Schema.SetRef` never raises the map-key error. -/
theorem setRefE_err (s : Schema) (v : String) (e : Err)
    (h : s.setRefE v = .error e) :
    ∀ m k, e ≠ .unsupportedMapKey m k := by
  unfold Schema.setRefE at h
  split at h
  · cases h; intro m k hc; cases hc
  · split at h
    · cases h; intro m k hc; cases hc
    · cases h

/-- `Doc.setSchema` never raises the map-key error. -/
theorem setSchema_err (doc : Doc) (name : String) (sch : Schema) (e : Err)
    (h : setSchema doc name sch = .error e) :
    ∀ m k, e ≠ .unsupportedMapKey m k := by
  unfold setSchema at h
  split at h
  · cases h; intro m k hc; cases hc
  · split at h
    · cases h; intro m k hc; cases hc
    · cases h

/-- `Schema.ValidTitle` never raises the map-key error. -/
theorem validTitleE_err (s : Schema) (e : Err)
    (h : s.validTitleE = .error e) :
    ∀ m k, e ≠ .unsupportedMapKey m k := by
  unfold Schema.validTitleE at h
  split at h
  · cases h; intro m k hc; cases hc
  · cases h

/-- `Doc.outlineSchema` never raises the map-key error. -/
theorem outlineSchema_err (doc : Doc) (sch : Schema) (e : Err)
    (h : outlineSchema doc sch = .error e) :
    ∀ m k, e ≠ .unsupportedMapKey m k := by
  unfold outlineSchema addSchema at h
  rcases hvt : sch.validTitleE with e2 | t <;> rw [hvt] at h <;>
    simp only [Bind.bind, Except.bind] at h
  · cases h
    exact validTitleE_err _ _ hvt
  · rcases hsr : sch.setRefE t with e2 | s2 <;> rw [hsr] at h <;>
      simp only [Bind.bind, Except.bind] at h
    · cases h
      exact setRefE_err _ _ _ hsr
    · cases h

/-- Every traversal entry point satisfies the map-key error package: the
only way the recursion surfaces `unsupportedMapKey m _` is from a map
whose own component name `m` was not yet registered in the starting
document. -/
theorem mapkey_all : ∀ fuel : Nat, MapKeyP fuel := by
  intro fuel
  induction fuel with
  | zero =>
    refine ⟨?_, ?_, ?_, ?_, ?_, ?_, ?_, ?_, ?_⟩
    · intro env doc sch oty m k _ h; cases h
    · intro env doc sch ty m k _ h; cases h
    · intro env doc sch ty t m k _ h; cases h
    · intro env doc sch ty n t m k _ h; cases h
    · intro env doc sch ty t m k _ h; cases h
    · intro env doc sch ty kt vt m k _ h; cases h
    · intro env doc sch ty fields m k _ h; cases h
    · intro env doc sch fields m k _ h; cases h
    · intro env doc sch nm ty m k _ h; cases h
  | succ f ih =>
    obtain ⟨ihA, ihK, ihP, ihArr, ihSl, ihM, ihSt, ihPs, ihPr⟩ := ih
    obtain ⟨gA, gK, gP, gArr, gSl, gM, gSt, gPs, gPr⟩ := grow_all f
    refine ⟨?_, ?_, ?_, ?_, ?_, ?_, ?_, ?_, ?_⟩
    · -- schemaAny
      intro env doc sch oty m k henv h
      cases oty with
      | none =>
        rw [schemaAny] at h
        rcases hn : sch.nullableE with e2 | s2 <;> rw [hn] at h <;>
          simp only [Bind.bind, Except.bind] at h
        · cases h
          cases nullableE_err _ _ hn
        · cases h
      | some ty =>
        rw [schemaAny] at h
        rcases hg : gotCompSchema doc (tyString ty) with e2 | hit <;> rw [hg] at h <;>
          simp only [Bind.bind, Except.bind] at h
        · cases h
          exact absurd rfl (gotCompSchema_err _ _ _ hg m k)
        · cases hit with
          | some b =>
            rcases hsr : sch.setRefE (tyString ty) with e2 | s2 <;> rw [hsr] at h <;>
              simp only [Bind.bind, Except.bind] at h
            · cases h
              exact absurd rfl (setRefE_err _ _ _ hsr m k)
            · cases h
          | none =>
            rcases hi : schemaIfaces f env (schemaCommon sch ty) ty with e2 | r <;>
              rw [hi] at h <;> simp only [Bind.bind, Except.bind] at h
            · cases h
              exact absurd rfl (ifaces_err _ _ _ _ _ hi m k)
            · obtain ⟨bb, s2⟩ := r
              dsimp only at h
              by_cases hb : bb = true
              · rw [if_pos hb] at h; cases h
              · rw [if_neg hb] at h
                exact ihK env doc s2 ty m k henv h
    · -- schemaKind
      intro env doc sch ty m k henv h
      rw [schemaKind] at h
      rcases hres : resolveShape env ty with _ | sh <;> rw [hres] at h
      · cases h
      · cases sh with
        | prim pk => cases pk <;> cases h
        | ptr t => exact ihP env doc sch ty t m k henv h
        | arr n t => exact ihArr env doc sch ty n t m k henv h
        | slice t => exact ihSl env doc sch ty t m k henv h
        | mapS kt vt => exact ihM env doc sch ty kt vt m k henv h
        | structS fields => exact ihSt env doc sch ty fields m k henv h
        | chanS => cases h
        | funcS => cases h
        | ifaceS => cases h
        | uptrS => cases h
    · -- schemaPtr
      intro env doc sch ty t m k henv h
      rw [schemaPtr] at h
      rcases ha : schemaAny f env doc sch (some t) with e2 | r <;> rw [ha] at h <;>
        simp only [Bind.bind, Except.bind] at h
      · cases h
        exact ihA env doc sch (some t) m k henv ha
      · obtain ⟨s1, d1⟩ := r
        dsimp only at h
        by_cases hr : s1.ref = ""
        · rw [if_pos hr] at h
          rcases hn : (s1.withTitle (tyString ty)).nullableE with e2 | s2 <;>
            rw [hn] at h <;> simp only [Bind.bind, Except.bind] at h
          · cases h
            cases nullableE_err _ _ hn
          · cases h
        · rw [if_neg hr] at h
          rcases hg : gotSchema d1 s1.ref with e2 | tar <;> rw [hg] at h <;>
            simp only [Bind.bind, Except.bind] at h
          · cases h
            exact absurd rfl (gotSchema_err _ _ _ hg m k)
          · cases tar with
            | none => cases h
            | some tar =>
              dsimp only at h
              by_cases hnl : tar.isNullable = true
              · rw [if_pos hnl] at h; cases h
              · rw [if_neg hnl] at h; cases h
    · -- schemaArray
      intro env doc sch ty n t m k henv h
      rw [schemaArray] at h
      rcases hset : setSchema doc (tyString ty) Schema.empty with e2 | docR <;>
        rw [hset] at h <;> simp only [Bind.bind, Except.bind] at h
      · cases h
        exact absurd rfl (setSchema_err _ _ _ _ hset m k)
      · obtain ⟨hne, habs, hputR⟩ := setSchema_ok doc docR (tyString ty) Schema.empty hset
        rcases ha : schemaAny f env docR Schema.empty (some t) with e2 | r <;>
          rw [ha] at h <;> simp only [Bind.bind, Except.bind] at h
        · cases h
          have hmR := ihA env docR Schema.empty (some t) m k henv ha
          by_cases hm : m = tyString ty
          · rw [hm]; exact habs
          · rw [hputR, findSchema_putSchema_other _ _ _ _ hm] at hmR
            exact hmR
        · obtain ⟨items, d2⟩ := r
          dsimp only at h
          exact absurd rfl (outlineSchema_err _ _ _ h m k)
    · -- schemaSlice
      intro env doc sch ty t m k henv h
      rw [schemaSlice] at h
      rcases hset : setSchema doc (tyString ty) Schema.empty with e2 | docR <;>
        rw [hset] at h <;> simp only [Bind.bind, Except.bind] at h
      · cases h
        exact absurd rfl (setSchema_err _ _ _ _ hset m k)
      · obtain ⟨hne, habs, hputR⟩ := setSchema_ok doc docR (tyString ty) Schema.empty hset
        rcases ha : schemaAny f env docR Schema.empty (some t) with e2 | r <;>
          rw [ha] at h <;> simp only [Bind.bind, Except.bind] at h
        · cases h
          have hmR := ihA env docR Schema.empty (some t) m k henv ha
          by_cases hm : m = tyString ty
          · rw [hm]; exact habs
          · rw [hputR, findSchema_putSchema_other _ _ _ _ hm] at hmR
            exact hmR
        · obtain ⟨items, d2⟩ := r
          dsimp only at h
          exact absurd rfl (outlineSchema_err _ _ _ h m k)
    · -- schemaMap
      intro env doc sch ty kt vt m k henv h
      rw [schemaMap] at h
      rcases hset : setSchema doc (tyString ty) Schema.empty with e2 | docR <;>
        rw [hset] at h <;> simp only [Bind.bind, Except.bind] at h
      · cases h
        exact absurd rfl (setSchema_err _ _ _ _ hset m k)
      · obtain ⟨hne, habs, hputR⟩ := setSchema_ok doc docR (tyString ty) Schema.empty hset
        rcases hsk : isTypeSkippable f env (some vt) with _ | bb <;> rw [hsk] at h
        · cases h
        · cases bb
          · -- representable value type
            rcases hk : schemaAny f env docR Schema.empty (some kt) with e2 | rk <;>
              rw [hk] at h <;> simp only [Bind.bind, Except.bind] at h
            · cases h
              have hmR := ihA env docR Schema.empty (some kt) m k henv hk
              by_cases hm : m = tyString ty
              · rw [hm]; exact habs
              · rw [hputR, findSchema_putSchema_other _ _ _ _ hm] at hmR
                exact hmR
            · obtain ⟨keySch, dk⟩ := rk
              have hstepK := gA env docR Schema.empty (some kt) keySch dk henv hk
              dsimp only at h
              by_cases hks : keySch.typeIs [TypeStr] = true
              · rw [if_pos hks] at h
                rcases hv : schemaAny f env dk Schema.empty (some vt) with e2 | rv <;>
                  rw [hv] at h <;> simp only [Bind.bind, Except.bind] at h
                · cases h
                  have hmV := ihA env dk Schema.empty (some vt) m k henv hv
                  have hmR := none_of_docStep hstepK hmV
                  by_cases hm : m = tyString ty
                  · rw [hm]; exact habs
                  · rw [hputR, findSchema_putSchema_other _ _ _ _ hm] at hmR
                    exact hmR
                · obtain ⟨valSch, dv⟩ := rv
                  dsimp only at h
                  exact absurd rfl (outlineSchema_err _ _ _ h m k)
              · rw [if_neg hks] at h
                injection h with h2
                injection h2 with hm hk2
                rw [← hm]
                exact habs
          · -- skippable value type
            rcases hnl : (sch.withTyp [TypeObj, TypeNull]).nullableE with e2 | s2 <;>
              rw [hnl] at h <;> simp only [Bind.bind, Except.bind] at h
            · cases h
              cases nullableE_err _ _ hnl
            · exact absurd rfl (outlineSchema_err _ _ _ h m k)
    · -- schemaStruct
      intro env doc sch ty fields m k henv h
      rw [schemaStruct] at h
      rcases hset : setSchema doc (tyString ty) Schema.empty with e2 | docR <;>
        rw [hset] at h <;> simp only [Bind.bind, Except.bind] at h
      · cases h
        exact absurd rfl (setSchema_err _ _ _ _ hset m k)
      · obtain ⟨hne, habs, hputR⟩ := setSchema_ok doc docR (tyString ty) Schema.empty hset
        rcases hps : schemaStructProps f env docR (sch.withTyp [TypeObj]) fields
          with e2 | r <;> rw [hps] at h <;> simp only [Bind.bind, Except.bind] at h
        · cases h
          have hmR := ihPs env docR (sch.withTyp [TypeObj]) fields m k henv hps
          by_cases hm : m = tyString ty
          · rw [hm]; exact habs
          · rw [hputR, findSchema_putSchema_other _ _ _ _ hm] at hmR
            exact hmR
        · obtain ⟨s2, d2⟩ := r
          dsimp only at h
          exact absurd rfl (outlineSchema_err _ _ _ h m k)
    · -- schemaStructProps
      intro env doc sch fields m k henv h
      match fields with
      | [] =>
        exact absurd h (by simp [schemaStructProps])
      | field :: rest =>
        rw [schemaStructProps] at h
        by_cases hp : isPublic field.pkgPath
        · rw [if_neg (by simp [hp])] at h
          rcases hs : isTypeSkippable f env (some field.ty) with _ | bb <;>
            rw [hs] at h
          · cases h
          · cases bb
            · dsimp only at h
              by_cases hj : (jsonName field != "") = true
              · rw [if_pos hj] at h
                rcases hsp : schemaStructProp f env doc sch (jsonName field) field.ty
                  with e2 | ⟨s3, d3⟩ <;> rw [hsp] at h <;>
                  simp only [Bind.bind, Except.bind] at h
                · cases h
                  exact ihPr env doc sch (jsonName field) field.ty m k henv hsp
                · exact none_of_docStep
                    (gPr env doc sch (jsonName field) field.ty s3 d3 henv hsp)
                    (ihPs env d3 s3 rest m k henv h)
              · rw [if_neg hj] at h
                by_cases han : field.anonymous = true
                · rw [if_pos han] at h
                  rcases htd : typeDeref f env field.ty with _ | inner <;>
                    rw [htd] at h
                  · cases h
                  · dsimp only at h
                    rcases hri : resolveShape env inner with _ | ish
                    · rw [hri] at h
                      dsimp only at h
                      by_cases hn : (field.name != "") = true
                      · rw [if_pos hn] at h
                        rcases hsp : schemaStructProp f env doc sch field.name field.ty
                          with e2 | ⟨s3, d3⟩ <;> rw [hsp] at h <;>
                          simp only [Bind.bind, Except.bind] at h
                        · cases h
                          exact ihPr env doc sch field.name field.ty m k henv hsp
                        · exact none_of_docStep
                            (gPr env doc sch field.name field.ty s3 d3 henv hsp)
                            (ihPs env d3 s3 rest m k henv h)
                      · rw [if_neg hn] at h
                        exact ihPs env doc sch rest m k henv h
                    · cases ish
                      all_goals rw [hri] at h
                      all_goals dsimp only at h
                      · by_cases hn : (field.name != "") = true
                        · rw [if_pos hn] at h
                          rcases hsp : schemaStructProp f env doc sch field.name field.ty
                            with e2 | ⟨s3, d3⟩ <;> rw [hsp] at h <;>
                            simp only [Bind.bind, Except.bind] at h
                          · cases h
                            exact ihPr env doc sch field.name field.ty m k henv hsp
                          · exact none_of_docStep
                              (gPr env doc sch field.name field.ty s3 d3 henv hsp)
                              (ihPs env d3 s3 rest m k henv h)
                        · rw [if_neg hn] at h
                          exact ihPs env doc sch rest m k henv h
                      · by_cases hn : (field.name != "") = true
                        · rw [if_pos hn] at h
                          rcases hsp : schemaStructProp f env doc sch field.name field.ty
                            with e2 | ⟨s3, d3⟩ <;> rw [hsp] at h <;>
                            simp only [Bind.bind, Except.bind] at h
                          · cases h
                            exact ihPr env doc sch field.name field.ty m k henv hsp
                          · exact none_of_docStep
                              (gPr env doc sch field.name field.ty s3 d3 henv hsp)
                              (ihPs env d3 s3 rest m k henv h)
                        · rw [if_neg hn] at h
                          exact ihPs env doc sch rest m k henv h
                      · by_cases hn : (field.name != "") = true
                        · rw [if_pos hn] at h
                          rcases hsp : schemaStructProp f env doc sch field.name field.ty
                            with e2 | ⟨s3, d3⟩ <;> rw [hsp] at h <;>
                            simp only [Bind.bind, Except.bind] at h
                          · cases h
                            exact ihPr env doc sch field.name field.ty m k henv hsp
                          · exact none_of_docStep
                              (gPr env doc sch field.name field.ty s3 d3 henv hsp)
                              (ihPs env d3 s3 rest m k henv h)
                        · rw [if_neg hn] at h
                          exact ihPs env doc sch rest m k henv h
                      · by_cases hn : (field.name != "") = true
                        · rw [if_pos hn] at h
                          rcases hsp : schemaStructProp f env doc sch field.name field.ty
                            with e2 | ⟨s3, d3⟩ <;> rw [hsp] at h <;>
                            simp only [Bind.bind, Except.bind] at h
                          · cases h
                            exact ihPr env doc sch field.name field.ty m k henv hsp
                          · exact none_of_docStep
                              (gPr env doc sch field.name field.ty s3 d3 henv hsp)
                              (ihPs env d3 s3 rest m k henv h)
                        · rw [if_neg hn] at h
                          exact ihPs env doc sch rest m k henv h
                      · by_cases hn : (field.name != "") = true
                        · rw [if_pos hn] at h
                          rcases hsp : schemaStructProp f env doc sch field.name field.ty
                            with e2 | ⟨s3, d3⟩ <;> rw [hsp] at h <;>
                            simp only [Bind.bind, Except.bind] at h
                          · cases h
                            exact ihPr env doc sch field.name field.ty m k henv hsp
                          · exact none_of_docStep
                              (gPr env doc sch field.name field.ty s3 d3 henv hsp)
                              (ihPs env d3 s3 rest m k henv h)
                        · rw [if_neg hn] at h
                          exact ihPs env doc sch rest m k henv h
                      · rename_i innerFields
                        rcases hin : schemaStructProps f env doc sch innerFields
                          with e2 | ⟨s3, d3⟩ <;> rw [hin] at h <;>
                          simp only [Bind.bind, Except.bind] at h
                        · cases h
                          exact ihPs env doc sch innerFields m k henv hin
                        · exact none_of_docStep
                            (gPs env doc sch innerFields s3 d3 henv hin)
                            (ihPs env d3 s3 rest m k henv h)
                      · by_cases hn : (field.name != "") = true
                        · rw [if_pos hn] at h
                          rcases hsp : schemaStructProp f env doc sch field.name field.ty
                            with e2 | ⟨s3, d3⟩ <;> rw [hsp] at h <;>
                            simp only [Bind.bind, Except.bind] at h
                          · cases h
                            exact ihPr env doc sch field.name field.ty m k henv hsp
                          · exact none_of_docStep
                              (gPr env doc sch field.name field.ty s3 d3 henv hsp)
                              (ihPs env d3 s3 rest m k henv h)
                        · rw [if_neg hn] at h
                          exact ihPs env doc sch rest m k henv h
                      · by_cases hn : (field.name != "") = true
                        · rw [if_pos hn] at h
                          rcases hsp : schemaStructProp f env doc sch field.name field.ty
                            with e2 | ⟨s3, d3⟩ <;> rw [hsp] at h <;>
                            simp only [Bind.bind, Except.bind] at h
                          · cases h
                            exact ihPr env doc sch field.name field.ty m k henv hsp
                          · exact none_of_docStep
                              (gPr env doc sch field.name field.ty s3 d3 henv hsp)
                              (ihPs env d3 s3 rest m k henv h)
                        · rw [if_neg hn] at h
                          exact ihPs env doc sch rest m k henv h
                      · by_cases hn : (field.name != "") = true
                        · rw [if_pos hn] at h
                          rcases hsp : schemaStructProp f env doc sch field.name field.ty
                            with e2 | ⟨s3, d3⟩ <;> rw [hsp] at h <;>
                            simp only [Bind.bind, Except.bind] at h
                          · cases h
                            exact ihPr env doc sch field.name field.ty m k henv hsp
                          · exact none_of_docStep
                              (gPr env doc sch field.name field.ty s3 d3 henv hsp)
                              (ihPs env d3 s3 rest m k henv h)
                        · rw [if_neg hn] at h
                          exact ihPs env doc sch rest m k henv h
                      · by_cases hn : (field.name != "") = true
                        · rw [if_pos hn] at h
                          rcases hsp : schemaStructProp f env doc sch field.name field.ty
                            with e2 | ⟨s3, d3⟩ <;> rw [hsp] at h <;>
                            simp only [Bind.bind, Except.bind] at h
                          · cases h
                            exact ihPr env doc sch field.name field.ty m k henv hsp
                          · exact none_of_docStep
                              (gPr env doc sch field.name field.ty s3 d3 henv hsp)
                              (ihPs env d3 s3 rest m k henv h)
                        · rw [if_neg hn] at h
                          exact ihPs env doc sch rest m k henv h
                · rw [if_neg han] at h
                  by_cases hn : (field.name != "") = true
                  · rw [if_pos hn] at h
                    rcases hsp : schemaStructProp f env doc sch field.name field.ty
                      with e2 | ⟨s3, d3⟩ <;> rw [hsp] at h <;>
                      simp only [Bind.bind, Except.bind] at h
                    · cases h
                      exact ihPr env doc sch field.name field.ty m k henv hsp
                    · exact none_of_docStep
                        (gPr env doc sch field.name field.ty s3 d3 henv hsp)
                        (ihPs env d3 s3 rest m k henv h)
                  · rw [if_neg hn] at h
                    exact ihPs env doc sch rest m k henv h
            · dsimp only at h
              exact ihPs env doc sch rest m k henv h
        · rw [if_pos (by simp [hp])] at h
          exact ihPs env doc sch rest m k henv h
    · -- schemaStructProp
      intro env doc sch nm ty m k henv h
      rw [schemaStructProp] at h
      rcases ha : schemaAny f env doc Schema.empty (some ty) with e2 | r <;>
        rw [ha] at h <;> simp only [Bind.bind, Except.bind] at h
      · cases h
        exact ihA env doc Schema.empty (some ty) m k henv ha
      · obtain ⟨v, d3⟩ := r
        cases h

/-- An empty composite hit means the key is genuinely absent. -/
theorem gotCompSchema_none (doc : Doc) (k : String)
    (h : gotCompSchema doc k = .ok none) : findSchema doc k = none := by
  cases hf : findSchema doc k with
  | none => rfl
  | some sch =>
    unfold gotCompSchema at h
    rw [hf] at h
    dsimp only at h
    split at h <;> cases h

/-- A successful array traversal implies a non-empty canonical name. -/
theorem schemaArray_name (f : Nat) (env : GoEnv) (doc : Doc) (sch : Schema)
    (ty : Ty) (n : Nat) (t : Ty) (s : Schema) (d : Doc)
    (h : schemaArray f env doc sch ty n t = .ok (s, d)) : tyString ty ≠ "" := by
  cases f with
  | zero => cases h
  | succ g =>
    rw [schemaArray] at h
    rcases hset : setSchema doc (tyString ty) Schema.empty with e2 | docR <;>
      rw [hset] at h <;> simp only [Bind.bind, Except.bind] at h
    · cases h
    · exact (setSchema_ok doc docR (tyString ty) Schema.empty hset).1

/-- A successful slice traversal implies a non-empty canonical name. -/
theorem schemaSlice_name (f : Nat) (env : GoEnv) (doc : Doc) (sch : Schema)
    (ty : Ty) (t : Ty) (s : Schema) (d : Doc)
    (h : schemaSlice f env doc sch ty t = .ok (s, d)) : tyString ty ≠ "" := by
  cases f with
  | zero => cases h
  | succ g =>
    rw [schemaSlice] at h
    rcases hset : setSchema doc (tyString ty) Schema.empty with e2 | docR <;>
      rw [hset] at h <;> simp only [Bind.bind, Except.bind] at h
    · cases h
    · exact (setSchema_ok doc docR (tyString ty) Schema.empty hset).1

/-- A successful map traversal implies a non-empty canonical name. -/
theorem schemaMap_name (f : Nat) (env : GoEnv) (doc : Doc) (sch : Schema)
    (ty : Ty) (kt vt : Ty) (s : Schema) (d : Doc)
    (h : schemaMap f env doc sch ty kt vt = .ok (s, d)) : tyString ty ≠ "" := by
  cases f with
  | zero => cases h
  | succ g =>
    rw [schemaMap] at h
    rcases hset : setSchema doc (tyString ty) Schema.empty with e2 | docR <;>
      rw [hset] at h <;> simp only [Bind.bind, Except.bind] at h
    · cases h
    · exact (setSchema_ok doc docR (tyString ty) Schema.empty hset).1

/-- A successful struct traversal implies a non-empty canonical name. -/
theorem schemaStruct_name (f : Nat) (env : GoEnv) (doc : Doc) (sch : Schema)
    (ty : Ty) (fields : List GoField) (s : Schema) (d : Doc)
    (h : schemaStruct f env doc sch ty fields = .ok (s, d)) : tyString ty ≠ "" := by
  cases f with
  | zero => cases h
  | succ g =>
    rw [schemaStruct] at h
    rcases hset : setSchema doc (tyString ty) Schema.empty with e2 | docR <;>
      rw [hset] at h <;> simp only [Bind.bind, Except.bind] at h
    · cases h
    · exact (setSchema_ok doc docR (tyString ty) Schema.empty hset).1

/-- The idempotence induction package: a successful traversal re-run
against its own output registry yields the same schema and the same
registry.  For `schemaKind` the second run either retakes the structural
path (nothing about this type was registered) or is answered by the
registry hit with the very reference the first run produced. -/
def IdemP (fuel : Nat) : Prop :=
  (∀ env doc sch oty s d, envNamesOk env → sch.ref = "" →
    schemaAny fuel env doc sch oty = .ok (s, d) →
    schemaAny fuel env d sch oty = .ok (s, d)) ∧
  (∀ env doc sch ty s d, envNamesOk env → sch.ref = "" →
    (tyString ty ≠ "" → sch.title = tyString ty) →
    findSchema doc (tyString ty) = none →
    schemaKind fuel env doc sch ty = .ok (s, d) →
    ((findSchema d (tyString ty) = none ∧
        schemaKind fuel env d sch ty = .ok (s, d)) ∨
      (tyString ty ≠ "" ∧ s = refOf (tyString ty) ∧
        ∃ body, findSchema d (tyString ty) = some body ∧ body.ref = ""))) ∧
  (∀ env doc sch ty t s d, envNamesOk env → sch.ref = "" →
    schemaPtr fuel env doc sch ty t = .ok (s, d) →
    schemaPtr fuel env d sch ty t = .ok (s, d))

/-- Every traversal entry point satisfies the idempotence package. -/
theorem idem_all : ∀ fuel : Nat, IdemP fuel := by
  intro fuel
  induction fuel with
  | zero =>
    refine ⟨?_, ?_, ?_⟩
    · intro env doc sch oty s d _ _ h; cases h
    · intro env doc sch ty s d _ _ _ _ h; cases h
    · intro env doc sch ty t s d _ _ h; cases h
  | succ f ih =>
    obtain ⟨ihA, ihK, ihP⟩ := ih
    obtain ⟨gA, gK, gP, gArr, gSl, gM, gSt, gPs, gPr⟩ := grow_all f
    refine ⟨?_, ?_, ?_⟩
    · -- schemaAny
      intro env doc sch oty s d henv hr h
      have h0 := h
      cases oty with
      | none =>
        rw [schemaAny] at h
        rcases hn : sch.nullableE with e2 | s2 <;> rw [hn] at h <;>
          simp only [Bind.bind, Except.bind] at h
        · cases h
        · cases h
          exact h0
      | some ty =>
        rw [schemaAny] at h
        rcases hg : gotCompSchema doc (tyString ty) with e2 | hit <;>
          rw [hg] at h <;> simp only [Bind.bind, Except.bind] at h
        · cases h
        · cases hit with
          | some b =>
            rcases hsr : sch.setRefE (tyString ty) with e2 | s2 <;>
              rw [hsr] at h <;> simp only [Bind.bind, Except.bind] at h
            · cases h
            · cases h
              exact h0
          | none =>
            have hmiss : findSchema doc (tyString ty) = none :=
              gotCompSchema_none _ _ hg
            rcases hi : schemaIfaces f env (schemaCommon sch ty) ty with e2 | r <;>
              rw [hi] at h <;> simp only [Bind.bind, Except.bind] at h
            · cases h
            · obtain ⟨bb, s2⟩ := r
              dsimp only at h
              by_cases hb : bb = true
              · rw [if_pos hb] at h
                cases h
                exact h0
              · rw [if_neg hb] at h
                obtain ⟨hpr, hpt⟩ := schemaIfaces_preserve f env
                  (schemaCommon sch ty) ty bb s2 hi
                have hr2 : s2.ref = "" := by
                  rw [hpr]
                  unfold schemaCommon schemaTitle
                  dsimp only
                  split
                  · rw [ref_withTitle]; exact hr
                  · exact hr
                have hti : tyString ty ≠ "" → s2.title = tyString ty := by
                  intro hne
                  rw [hpt]
                  unfold schemaCommon schemaTitle
                  dsimp only
                  rw [if_pos (by simpa using hne)]
                  exact title_withTitle ..
                rcases ihK env doc s2 ty s d henv hr2 hti hmiss h with
                  ⟨hnd, hk2⟩ | ⟨hne, hs, body, hfind, hbref⟩
                · rw [schemaAny]
                  have hgd : gotCompSchema d (tyString ty) = .ok none := by
                    unfold gotCompSchema
                    rw [hnd]
                  rw [hgd]
                  simp only [Bind.bind, Except.bind]
                  rw [hi]
                  simp only [Bind.bind, Except.bind]
                  rw [if_neg hb]
                  exact hk2
                · rw [schemaAny]
                  have hgd : gotCompSchema d (tyString ty) = .ok (some body) := by
                    unfold gotCompSchema
                    rw [hfind]
                    dsimp only
                    rw [hbref]
                    simp
                  rw [hgd]
                  simp only [Bind.bind, Except.bind]
                  have hsr : sch.setRefE (tyString ty) = .ok (refOf (tyString ty)) := by
                    unfold Schema.setRefE
                    rw [if_neg hne, hr]
                    simp
                  rw [hsr]
                  simp only [Bind.bind, Except.bind]
                  rw [hs]
    · -- schemaKind
      intro env doc sch ty s d henv hr hti hmiss h
      have h0 := h
      have henvSF := envStarFree_of_namesOk henv
      rw [schemaKind] at h
      rcases hres : resolveShape env ty with _ | sh <;> rw [hres] at h
      · cases h
      · cases sh with
        | prim pk => cases pk <;> (cases h; exact Or.inl ⟨hmiss, h0⟩)
        | ptr u =>
          have hstep := gP env doc sch ty u s d henvSF h
          have hnd : findSchema d (tyString ty) = none := by
            cases hfd : findSchema d (tyString ty) with
            | none => rfl
            | some b =>
              rcases hstep.2 _ _ hfd with hold | hck
              · rw [hmiss] at hold; cases hold
              · exact (ptr_name_ne_comp env henv ty u hres hck).elim
          refine Or.inl ⟨hnd, ?_⟩
          rw [schemaKind, hres]
          exact ihP env doc sch ty u s d henv hr h
        | arr n t =>
          obtain ⟨hstep, hszr, hs, body, hfind, hbref⟩ :=
            gArr env doc sch ty n t s d henvSF hti ⟨ty, _, rfl, hres, rfl⟩ h
          exact Or.inr ⟨schemaArray_name f env doc sch ty n t s d h, hs,
            body, hfind, hbref⟩
        | slice t =>
          obtain ⟨hstep, hszr, hs, body, hfind, hbref⟩ :=
            gSl env doc sch ty t s d henvSF hti ⟨ty, _, rfl, hres, rfl⟩ h
          exact Or.inr ⟨schemaSlice_name f env doc sch ty t s d h, hs,
            body, hfind, hbref⟩
        | mapS kt vt =>
          obtain ⟨hstep, hszr, hs, body, hfind, hbref⟩ :=
            gM env doc sch ty kt vt s d henvSF hti ⟨ty, _, rfl, hres, rfl⟩ h
          exact Or.inr ⟨schemaMap_name f env doc sch ty kt vt s d h, hs,
            body, hfind, hbref⟩
        | structS fields =>
          obtain ⟨hstep, hszr, hs, body, hfind, hbref⟩ :=
            gSt env doc sch ty fields s d henvSF hti ⟨ty, _, rfl, hres, rfl⟩ h
          exact Or.inr ⟨schemaStruct_name f env doc sch ty fields s d h, hs,
            body, hfind, hbref⟩
        | chanS => cases h
        | funcS => cases h
        | ifaceS => cases h
        | uptrS => cases h
    · -- schemaPtr
      intro env doc sch ty t s d henv hr h
      rw [schemaPtr] at h
      rcases ha : schemaAny f env doc sch (some t) with e2 | r <;> rw [ha] at h <;>
        simp only [Bind.bind, Except.bind] at h
      · cases h
      · obtain ⟨s1, d1⟩ := r
        dsimp only at h
        have ha2 : schemaAny f env d1 sch (some t) = .ok (s1, d1) :=
          ihA env doc sch (some t) s1 d1 henv hr ha
        by_cases hrr : s1.ref = ""
        · rw [if_pos hrr] at h
          rcases hn : (s1.withTitle (tyString ty)).nullableE with e2 | s2 <;>
            rw [hn] at h <;> simp only [Bind.bind, Except.bind] at h
          · cases h
          · cases h
            rw [schemaPtr, ha2]
            simp only [Bind.bind, Except.bind]
            rw [if_pos hrr, hn]
        · rw [if_neg hrr] at h
          rcases hg : gotSchema d1 s1.ref with e2 | tar <;> rw [hg] at h <;>
            simp only [Bind.bind, Except.bind] at h
          · cases h
          · cases tar with
            | none => cases h
            | some tar =>
              dsimp only at h
              by_cases hnl : tar.isNullable = true
              · rw [if_pos hnl] at h
                cases h
                rw [schemaPtr, ha2]
                simp only [Bind.bind, Except.bind]
                rw [if_neg hrr, hg]
                simp only [Bind.bind, Except.bind]
                rw [if_pos hnl]
              · rw [if_neg hnl] at h
                cases h
                rw [schemaPtr, ha2]
                simp only [Bind.bind, Except.bind]
                rw [if_neg hrr, hg]
                simp only [Bind.bind, Except.bind]
                rw [if_neg hnl]

/-- C2: for every type and every document, a second invocation of
`Doc.TypeSchema` for the same type, against the document state produced by
the first invocation, yields exactly the same result — in particular the
same reference when the type collapses to a named component — and returns
the registry unchanged: no second entry is created and no
redundant-component panic is raised.  The environment hypothesis states
that every named type's canonical name is a legal Go identifier (contains
neither `*` nor `[`). -/
theorem claim2_schema_for_idempotent (fuel : Nat) (env : GoEnv) (doc : Doc)
    (oty : Option Ty) (s : Schema) (d : Doc) (henv : envNamesOk env)
    (h : typeSchema fuel env doc oty = .ok (s, d)) :
    typeSchema fuel env d oty = .ok (s, d) := by
  unfold typeSchema at h ⊢
  exact (idem_all fuel).1 env doc Schema.empty oty s d henv rfl h

/-- Witness for C2 on the concrete struct `oas.Dash`: the first run
registers the component and returns a reference; re-running against the
resulting document returns the identical reference and document. -/
theorem claim2_schema_for_idempotent_witness :
    typeSchema 10 dashEnv
        ⟨[("oas.Dash", Schema.mk "" "oas.Dash" "" [TypeObj] [] [] none none
          [("One", Schema.mk "" "string" "" [TypeStr] [] [] none none [] 0 0)] 0 0)]⟩
        (some (.named "oas.Dash")) =
      .ok (refOf "oas.Dash",
        ⟨[("oas.Dash", Schema.mk "" "oas.Dash" "" [TypeObj] [] [] none none
          [("One", Schema.mk "" "string" "" [TypeStr] [] [] none none [] 0 0)] 0 0)]⟩) := by
  refine claim2_schema_for_idempotent 10 dashEnv Doc.empty
    (some (.named "oas.Dash")) (refOf "oas.Dash") _ ?_ (by rfl)
  intro n td hm
  cases hm with
  | head => exact ⟨by decide, by decide⟩
  | tail _ h2 => cases h2

/-- C4: for an associative map type whose value type is representable, the
traversal fails with the unsupported-map-key panic naming this map and its
key type exactly when the key type's own recursively computed schema does
not classify as exactly `["string"]`; when the value type is
unrepresentable, the map's schema is finished as a nullable object with no
additional-properties and the key type is never examined (the result is
the outline of the nullable-object schema alone). -/
theorem claim4_map_key (f : Nat) (env : GoEnv) (doc docR : Doc)
    (sch : Schema) (ty kt vt : Ty) (henv : envStarFree env)
    (hr : sch.ref = "")
    (hset : setSchema doc (tyString ty) Schema.empty = .ok docR) :
    (isTypeSkippable f env (some vt) = some false →
      (schemaMap (f + 1) env doc sch ty kt vt =
          .error (.unsupportedMapKey (tyString ty) (tyString kt)) ↔
        ∃ ks dk, schemaAny f env docR Schema.empty (some kt) = .ok (ks, dk) ∧
          ks.typeIs [TypeStr] = false)) ∧
    (isTypeSkippable f env (some vt) = some true →
      schemaMap (f + 1) env doc sch ty kt vt =
        outlineSchema docR (sch.withTyp [TypeObj, TypeNull])) := by
  have hsome : findSchema docR (tyString ty) = some Schema.empty := by
    rw [(setSchema_ok _ _ _ _ hset).2.2]
    exact findSchema_putSchema_self ..
  constructor
  · intro hsk
    constructor
    · intro h
      rw [schemaMap] at h
      rw [hset] at h
      simp only [Bind.bind, Except.bind] at h
      rw [hsk] at h
      dsimp only at h
      rcases hk : schemaAny f env docR Schema.empty (some kt) with e2 | rk <;>
        rw [hk] at h <;> simp only [Bind.bind, Except.bind] at h
      · cases h
        have hnone := (mapkey_all f).1 env docR Schema.empty (some kt)
          (tyString ty) (tyString kt) henv hk
        rw [hnone] at hsome
        cases hsome
      · obtain ⟨keySch, dk⟩ := rk
        dsimp only at h
        by_cases hks : keySch.typeIs [TypeStr] = true
        · rw [if_pos hks] at h
          rcases hv : schemaAny f env dk Schema.empty (some vt) with e2 | rv <;>
            rw [hv] at h <;> simp only [Bind.bind, Except.bind] at h
          · cases h
            have hnone := (mapkey_all f).1 env dk Schema.empty (some vt)
              (tyString ty) (tyString kt) henv hv
            have hstepK := (grow_all f).1 env docR Schema.empty (some kt)
              keySch dk henv hk
            have := hstepK.1 _ _ hsome
            rw [hnone] at this
            cases this
          · obtain ⟨valSch, dv⟩ := rv
            dsimp only at h
            exact absurd rfl
              (outlineSchema_err _ _ _ h (tyString ty) (tyString kt))
        · rw [if_neg hks] at h
          exact ⟨keySch, dk, rfl, by simpa using hks⟩
    · rintro ⟨ks, dk, hk, hks⟩
      rw [schemaMap]
      rw [hset]
      simp only [Bind.bind, Except.bind]
      rw [hsk]
      dsimp only
      rw [hk]
      simp only [Bind.bind, Except.bind]
      rw [if_neg (by simp [hks])]
  · intro hsk
    rw [schemaMap]
    rw [hset]
    simp only [Bind.bind, Except.bind]
    rw [hsk]
    dsimp only
    have hnul : (sch.withTyp [TypeObj, TypeNull]).isNullable = true := by
      cases sch
      rfl
    have hnl : (sch.withTyp [TypeObj, TypeNull]).nullableE =
        .ok (sch.withTyp [TypeObj, TypeNull]) := by
      unfold Schema.nullableE
      rw [show (sch.withTyp [TypeObj, TypeNull]).ref = sch.ref from
        ref_withTyp .., hr]
      rw [hnul]
      simp
    rw [hnl]

/-- Witness for C4 on the concrete type `map[string]bool`: the reserve
step succeeds and both branch descriptions of the theorem hold. -/
theorem claim4_map_key_witness :
    (isTypeSkippable 3 (GoEnv.mk []) (some (.prim .boolK)) = some false →
      (schemaMap 4 (GoEnv.mk []) Doc.empty Schema.empty
          (.mapT (.prim .strK) (.prim .boolK)) (.prim .strK) (.prim .boolK) =
          .error (.unsupportedMapKey
            (tyString (Ty.mapT (.prim .strK) (.prim .boolK)))
            (tyString (Ty.prim .strK))) ↔
        ∃ ks dk, schemaAny 3 (GoEnv.mk [])
            (putSchema Doc.empty
              (tyString (Ty.mapT (.prim .strK) (.prim .boolK))) Schema.empty)
            Schema.empty (some (.prim .strK)) = .ok (ks, dk) ∧
          ks.typeIs [TypeStr] = false)) ∧
    (isTypeSkippable 3 (GoEnv.mk []) (some (.prim .boolK)) = some true →
      schemaMap 4 (GoEnv.mk []) Doc.empty Schema.empty
          (.mapT (.prim .strK) (.prim .boolK)) (.prim .strK) (.prim .boolK) =
        outlineSchema
          (putSchema Doc.empty
            (tyString (Ty.mapT (.prim .strK) (.prim .boolK))) Schema.empty)
          (Schema.empty.withTyp [TypeObj, TypeNull])) :=
  claim4_map_key 3 (GoEnv.mk []) Doc.empty _ Schema.empty
    (.mapT (.prim .strK) (.prim .boolK)) (.prim .strK) (.prim .boolK)
    (by intro n td hm; cases hm) rfl (by rfl)

end Oas
